import Mathlib

/-!
Biquad filter library: a shallow embedding.

The C++ sources `Biquad.h` / `Biquad.cpp` are embedded as pure functions on an
explicit state record.

* A C++ `double` is modelled by an element of an ordered field `α`; the
  embedding is exact-arithmetic (rounding, infinities and NaN are outside the
  model).  Every definition is generic in `α`, so it runs on `ℚ` and can be
  instantiated at `ℝ`.
* An `unsigned int` field (`mode`, `BWMode`) is a `Nat`; the code only compares
  these fields with literals.
* The `<cmath>` functions the code calls (`sin`, `cos`, `sinh`, `sqrt`, `pow`)
  are external to the repository and are passed as a record `Libm α`.
* A member function that mutates the object becomes a function returning the
  new state; a sample buffer `double *buf, int nFrames` becomes a `List α`.

* Where a claim depends on what a division by zero produces, the code is
  embedded a second time over `Dbl α`, a finite number or NaN (the definitions
  `Ieee.*`): arithmetic with a NaN operand is NaN, `0/0` is NaN, a comparison
  with NaN is false, and a computation that produces an infinity has no value
  (`none`).

The same conventions embed the averaging helpers of `Averages.cpp`, the
dynamics processor of `Dynamics.h` / `Dynamics.cpp`, the crossover of
`LinkwitzRiley.h` / `LinkwitzRiley.cpp` and the lag search of `Yin.h` /
`Yin.cpp`.  An `int` member or local is an `Int`; a read of the `Yin` lag buffer
outside the array has no value (`none`).
-/

namespace BiquadLib

/-- The `<cmath>` functions used by `Biquad.cpp`. -/
structure Libm (α : Type) where
  sin : α → α
  cos : α → α
  sinh : α → α
  sqrt : α → α
  pow : α → α → α

/-- The data members of `class Biquad` (`Biquad.h`, lines 22-50). -/
structure Biquad (α : Type) where
  mode : Nat
  Fs : α
  fc : α
  BWMode : Nat
  Q : α
  BW : α
  slope : α
  alpha : α
  alphaPrime : α
  dBG : α
  gain : α
  omega0 : α
  cosW0 : α
  sinW0 : α
  b0 : α
  b1 : α
  b2 : α
  a0 : α
  a1 : α
  a2 : α
  x0 : α
  x1 : α
  x2 : α
  y1 : α
  y2 : α

/-- The data members of `class ModalURB` (`ModalURB.h`, lines 10-15).  The
arrays `Biquad filters[8]`, `double freqs[8]`, `double amps[8]` and
`double bws[8]` are lists (of length 8 in every object the constructor
builds). -/
structure ModalURB (α : Type) where
  Fs : α
  f0 : α
  filters : List (Biquad α)
  freqs : List α
  amps : List α
  bws : List α

/-- The object state of `class Dynamics` (`Dynamics.h`, lines 17-59); the `int`
members are integers, `unsigned int mode` is a `Nat`. -/
structure Dynamics (α : Type) where
  Fs : α
  thresh : α
  ratio : α
  atk : Int
  rel : Int
  knee : α
  gain : α
  atkSample : Int
  relSample : Int
  atkMod : α
  relMod : α
  kMod : α
  effRatio : α
  mode : Nat

/-- The object state of `class LinkwitzRiley` (`LinkwitzRiley.h`, lines 9-25).  The
member `at` is spelled `at_`, `at` being a reserved word. -/
structure LinkwitzRiley (α : Type) where
  Fs : α
  fc : α
  w0 : α
  w2 : α
  w3 : α
  w4 : α
  c1 : α
  c2 : α
  c3 : α
  c4 : α
  at_ : α
  bt1 : α
  bt2 : α
  b1 : α
  b2 : α
  b3 : α
  b4 : α
  ha0 : α
  ha1 : α
  ha2 : α
  ha3 : α
  ha4 : α
  la0 : α
  la1 : α
  la2 : α
  la3 : α
  la4 : α
  x4 : α
  x3 : α
  x2 : α
  x1 : α
  h4 : α
  h3 : α
  h2 : α
  h1 : α
  l4 : α
  l3 : α
  l2 : α
  l1 : α

/-- The object state of `class Yin` (`Yin.h`, lines 10-15): the array behind
`double *buffer` is a list, `int bufSize` an integer. -/
structure Yin (α : Type) where
  Fs : α
  buffer : List α
  bufSize : Int
  prob : α
  thresh : α

/-- A `double` of the NaN-aware embedding: `fin x` is the finite number `x`,
computed exactly, and `nan` is NaN.  The infinities and the sign of zero are not
represented: an operation whose IEEE result is infinite has no value in this
embedding (see `Dbl.div`). -/
inductive Dbl (α : Type) where
  | fin : α → Dbl α
  | nan : Dbl α

section Defs

variable {α : Type} [LinearOrderedField α]

/-- Macro `#define M_PI 3.14159265358` (`Biquad.h`, line 7). -/
def M_PI : α := 3.14159265358

/-- Macro `#define LN2 0.69314718056` (`Biquad.h`, line 8). -/
def LN2 : α := 0.69314718056

/-- Embeds `Biquad::initHist` (`Biquad.cpp`, lines 117-123). -/
def initHist (s : Biquad α) : Biquad α :=
  { s with x0 := 0, x1 := 0, x2 := 0, y1 := 0, y2 := 0 }

/-- Embeds `Biquad::updateXs` (`Biquad.cpp`, lines 716-720). -/
def updateXs (s : Biquad α) (x : α) : Biquad α :=
  let s := { s with x2 := s.x1 }
  let s := { s with x1 := s.x0 }
  { s with x0 := x }

/-- Embeds `Biquad::updateYs` (`Biquad.cpp`, lines 728-731). -/
def updateYs (s : Biquad α) (y : α) : Biquad α :=
  let s := { s with y2 := s.y1 }
  { s with y1 := y }

/-- Embeds `Biquad::generateOutputSample` (`Biquad.cpp`, lines 752-759). -/
def generateOutputSample (s : Biquad α) : α :=
  let acc := s.b0 * s.x0
  let acc := acc + s.b1 * s.x1
  let acc := acc + s.b2 * s.x2
  let acc := acc - s.a1 * s.y1
  let acc := acc - s.a2 * s.y2
  acc / s.a0

/-- Embeds `Biquad::processBuffer` (`Biquad.cpp`, lines 739-745): the loop body is run
once per input sample, in order; the result is the final object state and the
contents written to `output`. -/
def processBuffer (s : Biquad α) : List α → Biquad α × List α
  | [] => (s, [])
  | x :: rest =>
    let s := updateXs s x
    let y := generateOutputSample s
    let s := updateYs s y
    let r := processBuffer s rest
    (r.1, y :: r.2)

/-- Embeds `Biquad::updateCosW0` (`Biquad.cpp`, lines 353-355). -/
def updateCosW0 (lm : Libm α) (s : Biquad α) : Biquad α :=
  { s with cosW0 := lm.cos s.omega0 }

/-- Embeds `Biquad::updateSinW0` (`Biquad.cpp`, lines 363-365). -/
def updateSinW0 (lm : Libm α) (s : Biquad α) : Biquad α :=
  { s with sinW0 := lm.sin s.omega0 }

/-- Embeds `Biquad::updateOmega` (`Biquad.cpp`, lines 338-345). -/
def updateOmega (lm : Libm α) (s : Biquad α) (updateTrigs : Bool) : Biquad α :=
  let s := { s with omega0 := 2 * M_PI * s.fc / s.Fs }
  if updateTrigs then
    let s := updateCosW0 lm s
    updateSinW0 lm s
  else s

/-- Embeds `Biquad::updateAlpha` (`Biquad.cpp`, lines 286-298). -/
def updateAlpha (lm : Libm α) (s : Biquad α) : Biquad α :=
  match s.BWMode with
  | 1 => { s with alpha := s.sinW0 * lm.sinh (LN2 / 2 * s.BW * s.omega0 / s.sinW0) }
  | 2 => { s with alpha :=
      s.sinW0 / 2 * lm.sqrt ((s.gain + 1 / s.gain) * (1 / s.slope - 1) + 2) }
  | _ => { s with alpha := s.sinW0 / (2 * s.Q) }

/-- Embeds `Biquad::updateAlphaPrime` (`Biquad.cpp`, lines 307-313). -/
def updateAlphaPrime (lm : Libm α) (s : Biquad α) : Biquad α × Bool :=
  if s.mode = 5 ∨ s.mode = 6 then
    ({ s with alphaPrime := 2 * lm.sqrt s.gain * s.alpha }, true)
  else (s, false)

/-- Embeds `Biquad::updateGain` (`Biquad.cpp`, lines 323-329). -/
def updateGain (lm : Libm α) (s : Biquad α) : Biquad α × Bool :=
  if s.mode = 5 ∨ s.mode = 6 then
    ({ s with gain := lm.pow 10 (s.dBG / 40) }, true)
  else (s, false)

/-- Embeds `Biquad::updateAs` (`Biquad.cpp`, lines 607-632). -/
def updateAs (s : Biquad α) : Biquad α :=
  match s.mode with
  | 5 =>
    let tmp := (s.gain + 1) + (s.gain - 1) * s.cosW0
    let s := { s with a0 := tmp + s.alphaPrime }
    let s := { s with a1 := -2 * ((s.gain - 1) + (s.gain + 1) * s.cosW0) }
    { s with a2 := tmp - s.alphaPrime }
  | 6 =>
    let tmp := (s.gain + 1) - (s.gain - 1) * s.cosW0
    let s := { s with a0 := tmp + s.alphaPrime }
    let s := { s with a1 := 2 * ((s.gain - 1) - (s.gain + 1) * s.cosW0) }
    { s with a2 := tmp - s.alphaPrime }
  | _ =>
    let s := { s with a0 := 1 + s.alpha }
    let s := { s with a1 := -2 * s.cosW0 }
    { s with a2 := 1 - s.alpha }

/-- The statements under `case 4:` of the second switch of `Biquad::updateCoFs`
(`Biquad.cpp`, lines 399-404); control also falls into them from `case 3:`. -/
def updateCoFsCase4 (s : Biquad α) : Biquad α :=
  let s := { s with b1 := s.a1 }
  if s.mode = 3 then s
  else
    let s := { s with b0 := s.a2 }
    { s with b2 := s.a0 }

/-- The body of `case 5: case 6:` of the second switch of `Biquad::updateCoFs`
(`Biquad.cpp`, lines 405-434). -/
def updateCoFsShelf (s : Biquad α) : Biquad α :=
  let gp := s.gain + 1
  let gm := s.gain - 1
  let mc := gm * s.cosW0
  let pc := gp * s.cosW0
  let pmm := gp - mc
  let mmp := gm - pc
  let ppm := gp + mc
  let mpp := gm + pc
  if s.mode = 5 then
    let s := { s with b0 := s.gain * (pmm + s.alphaPrime) }
    let s := { s with b1 := 2 * s.gain * mmp }
    let s := { s with b2 := s.gain * (pmm - s.alphaPrime) }
    let s := { s with a0 := ppm + s.alphaPrime }
    let s := { s with a1 := -2 * mpp }
    { s with a2 := ppm - s.alphaPrime }
  else if s.mode = 6 then
    let s := { s with b0 := s.gain * (ppm + s.alphaPrime) }
    let s := { s with b1 := -2 * s.gain * mpp }
    let s := { s with b2 := s.gain * (ppm - s.alphaPrime) }
    let s := { s with a0 := pmm + s.alphaPrime }
    let s := { s with a1 := -2 * mmp }
    { s with a2 := pmm - s.alphaPrime }
  else s

/-- Embeds `Biquad::updateCoFs` (`Biquad.cpp`, lines 372-441): the first switch updates
the `a` coefficients of the non-shelving modes, the second switch the `b`
coefficients (and, for the shelving modes, all six). -/
def updateCoFs (s : Biquad α) : Biquad α :=
  let s :=
    match s.mode with
    | 5 => s
    | 6 => s
    | _ => updateAs s
  match s.mode with
  | 1 | 2 =>
    let s := if s.mode = 1 then { s with b1 := 1 - s.cosW0 }
             else if s.mode = 2 then { s with b1 := 1 + s.cosW0 } else s
    let s := { s with b0 := s.b1 / 2 }
    let s := { s with b2 := s.b0 }
    if s.mode = 2 then { s with b1 := s.b1 * -1 } else s
  | 3 =>
    let s := { s with b0 := 1 }
    let s := { s with b2 := 1 }
    updateCoFsCase4 s
  | 4 => updateCoFsCase4 s
  | 5 | 6 => updateCoFsShelf s
  | _ =>
    let s := { s with b0 := s.alpha }
    let s := { s with b1 := 0 }
    { s with b2 := -1 * s.alpha }

/-- Embeds `Biquad::setParamsSlope` (`Biquad.cpp`, lines 102-115).  The two guards
`return false`; the path that updates the filter reaches the closing brace
without a `return` statement, so no result value is defined there (`none`). -/
def setParamsSlope (lm : Libm α) (s : Biquad α) (fs f sl dbg : α) :
    Biquad α × Option Bool :=
  if s.mode ≠ 5 ∧ s.mode ≠ 6 then (s, some false)
  else if s.BWMode ≠ 2 then (s, some false)
  else
    let s := if fs ≥ 0 then { s with Fs := fs } else s
    let s := if f ≥ 0 then { s with fc := f } else s
    let s := if sl ≥ 0 then { s with slope := sl } else s
    let s := { s with dBG := dbg }
    let s := updateOmega lm s true
    let s := (updateGain lm s).1
    let s := updateAlpha lm s
    let s := (updateAlphaPrime lm s).1
    let s := updateCoFs s
    (s, none)

/-- Embeds `Biquad::setParamsBW` (`Biquad.cpp`, lines 125-135). -/
def setParamsBW (lm : Libm α) (s : Biquad α) (fs f b : α) : Biquad α × Bool :=
  if s.mode ≠ 0 ∧ s.mode ≠ 3 then (s, false)
  else if s.BWMode ≠ 1 then (s, false)
  else
    let s := if fs ≥ 0 then { s with Fs := fs } else s
    let s := if f ≥ 0 then { s with fc := f } else s
    let s := if b ≥ 0 then { s with BW := b } else s
    let s := updateOmega lm s true
    let s := updateAlpha lm s
    let s := updateCoFs s
    (s, true)

/-- Embeds `Biquad::setParamsQ` (`Biquad.cpp`, lines 137-144). -/
def setParamsQ (lm : Libm α) (s : Biquad α) (fs f q : α) : Biquad α :=
  let s := if fs ≥ 0 then { s with Fs := fs } else s
  let s := if f ≥ 0 then { s with fc := f } else s
  let s := if q ≥ 0 then { s with Q := q } else s
  let s := updateOmega lm s true
  let s := updateAlpha lm s
  updateCoFs s

/-- Embeds `Biquad::setFs` (`Biquad.cpp`, lines 165-177). -/
def setFs (lm : Libm α) (s : Biquad α) (f : α) (updateDeps : Bool) : Biquad α × Bool :=
  if f ≥ 0 then
    let s := { s with Fs := f }
    if updateDeps then
      let s := updateOmega lm s true
      let s := updateSinW0 lm s
      let s := updateCosW0 lm s
      let s := updateAlpha lm s
      let s := if s.BWMode = 2 ∧ (s.mode = 5 ∨ s.mode = 6) then (updateAlphaPrime lm s).1 else s
      let s := updateCoFs s
      (s, true)
    else (s, true)
  else (s, false)

/-- Embeds `Biquad::setFc` (`Biquad.cpp`, lines 198-210). -/
def setFc (lm : Libm α) (s : Biquad α) (f : α) (updateDeps : Bool) : Biquad α × Bool :=
  if f ≥ 0 then
    let s := { s with fc := f }
    if updateDeps then
      let s := updateOmega lm s true
      let s := updateSinW0 lm s
      let s := updateCosW0 lm s
      let s := updateAlpha lm s
      let s := if s.BWMode = 2 ∧ (s.mode = 5 ∨ s.mode = 6) then (updateAlphaPrime lm s).1 else s
      let s := updateCoFs s
      (s, true)
    else (s, true)
  else (s, false)

/-- Embeds `Biquad::setQ` (`Biquad.cpp`, lines 219-227). -/
def setQ (lm : Libm α) (s : Biquad α) (q : α) (updateDeps : Bool) : Biquad α × Bool :=
  if q < 0 then (s, false)
  else
    let s := { s with Q := q }
    if updateDeps then
      let s := updateAlpha lm s
      let s := updateCoFs s
      (s, true)
    else (s, true)

/-- Embeds `Biquad::setBW` (`Biquad.cpp`, lines 238-248). -/
def setBW (lm : Libm α) (s : Biquad α) (b : α) (updateDeps : Bool) : Biquad α × Bool :=
  if s.mode ≠ 0 ∧ s.mode ≠ 3 then (s, false)
  else if s.BWMode ≠ 1 then (s, false)
  else if b < 0 then (s, false)
  else
    let s := { s with BW := b }
    if updateDeps then
      let s := updateAlpha lm s
      let s := updateCoFs s
      (s, true)
    else (s, true)

/-- Embeds `Biquad::setSlope` (`Biquad.cpp`, lines 259-272). -/
def setSlope (lm : Libm α) (s : Biquad α) (sl : α) (updateDeps : Bool) : Biquad α × Bool :=
  if s.mode ≠ 5 ∧ s.mode ≠ 6 then (s, false)
  else if s.BWMode ≠ 2 then (s, false)
  else if sl < 0 then (s, false)
  else
    let s := { s with slope := sl }
    if updateDeps then
      let s := updateAlpha lm s
      let s := (updateAlphaPrime lm s).1
      let s := updateCoFs s
      (s, true)
    else (s, true)

/-- The result of `n` successive one-sample calls `processBuffer(&x, &y, 1)`,
made in the order of the samples of `xs`: the final state and the outputs in
call order. -/
def processOneByOne (s : Biquad α) : List α → Biquad α × List α
  | [] => (s, [])
  | x :: rest =>
    let r := processBuffer s [x]
    let r2 := processOneByOne r.1 rest
    (r2.1, r.2 ++ r2.2)

/-- A filter state is consistent when every derived value already equals the
value its update function computes from the stored fields, in derivation order:
`omega0`, `cosW0` and `sinW0` from `fc` and `Fs` (`updateOmega`), `gain` from
`dBG` in the shelving modes (`updateGain`), `alpha` by `BWMode` (`updateAlpha`),
`alphaPrime` in the shelving modes (`updateAlphaPrime`) and the six
coefficients (`updateCoFs`). -/
def Consistent (lm : Libm α) (s : Biquad α) : Prop :=
  updateOmega lm s true = s ∧ (updateGain lm s).1 = s ∧ updateAlpha lm s = s ∧
    (updateAlphaPrime lm s).1 = s ∧ updateCoFs s = s

/-- The full derivation cascade from the stored parameters: the update steps of
`Biquad.cpp` run in the order in which `setParamsSlope` runs them
(`updateOmega(true)`, `updateGain`, `updateAlpha`, `updateAlphaPrime`,
`updateCoFs`); `updateGain` and `updateAlphaPrime` do nothing outside the
shelving modes. -/
def derive (lm : Libm α) (s : Biquad α) : Biquad α :=
  let s := updateOmega lm s true
  let s := (updateGain lm s).1
  let s := updateAlpha lm s
  let s := (updateAlphaPrime lm s).1
  updateCoFs s

/-- Embeds `Biquad::Biquad(unsigned int m, unsigned int bwm)` (`Biquad.cpp`,
lines 18-34).  `raw` is the indeterminate content of the object before the
constructor body runs. -/
def Biquad.ctor2 (lm : Libm α) (raw : Biquad α) (m bwm : Nat) : Biquad α :=
  let s := { raw with mode := m }
  let s := { s with BWMode := bwm }
  let s := initHist s
  match s.BWMode with
  | 1 => (setParamsBW lm s 0 0 0).1
  | 2 => (setParamsSlope lm s 0 0 0 0).1
  | _ => setParamsQ lm s 0 0 0

/-- Embeds the six-argument constructor `Biquad::Biquad(m, bwm, fs, f, q, dbg)`
(`Biquad.cpp`, lines 58-75).  `raw` is the indeterminate content of the object
before the constructor body runs. -/
def Biquad.ctor6 (lm : Libm α) (raw : Biquad α) (m bwm : Nat) (fs f q dbg : α) : Biquad α :=
  let s := { raw with mode := m }
  let s := { s with BWMode := bwm }
  let s :=
    match bwm with
    | 1 => (setParamsBW lm s fs f q).1
    | 2 => (setParamsSlope lm s fs f q dbg).1
    | _ => setParamsQ lm s fs f q
  initHist s

/-- Embeds the five-argument constructor `Biquad::Biquad(m, bwm, fs, f, q)`
(`Biquad.cpp`, lines 98-100).  Its body is the expression statement
`Biquad(m, bwm, fs, f, q, 0.0);`, which constructs a temporary object (from its
own indeterminate content `rawTmp`) and discards it; no member of the object
under construction is assigned, so it keeps its indeterminate content `raw`. -/
def Biquad.ctor5 (lm : Libm α) (raw rawTmp : Biquad α) (m bwm : Nat) (fs f q : α) :
    Biquad α :=
  let _tmp := Biquad.ctor6 lm rawTmp m bwm fs f q 0
  raw

/-- Embeds `ModalURB::ModalURB(double fs)` (`modalURB.cpp`, lines 3-11).  `raw`
is the indeterminate content of the object before the constructor body runs
(its `filters` are the indeterminate contents of the array elements).  Element
`i` becomes the object built by `Biquad(0, 1)` and then receives `setFs(Fs)`;
the source passes no second argument to `setFs`, which has no default, so the
flag is the parameter `updateDeps`. -/
def ModalURB.ctor (lm : Libm α) (raw : ModalURB α) (fs : α) (updateDeps : Bool) :
    ModalURB α :=
  let b := { raw with Fs := fs }
  let b := { b with bws := [3, 1, 2, 2, 2, 2, 4, 3] }
  let b := { b with amps := [0.0885, 0.3393, 0.5523, 0.4367, 0.9, 0.121, 0.2951, 0.0369] }
  { b with filters :=
      b.filters.map (fun r => (setFs lm (Biquad.ctor2 lm r 0 1) b.Fs updateDeps).1) }

/-- Embeds `ModalURB::updateFreqs` (`modalURB.cpp`, lines 21-31). -/
def ModalURB.updateFreqs (b : ModalURB α) (f : α) : ModalURB α :=
  let b := { b with f0 := f }
  { b with freqs :=
      [0.4863636364 * b.f0, 0.9318181818 * b.f0, b.f0, 1.0136363636 * b.f0,
       2.0045454545 * b.f0, 3.0136363636 * b.f0, 6.0090909091 * b.f0,
       5.0181818182 * b.f0] }

/-- Embeds `ModalURB::updateParams` (`modalURB.cpp`, lines 13-18).  The source
writes `filters[i].setFc(f[i], true)` with `f` the `double` parameter; the array
filled by `updateFreqs(f)` on the line before is `freqs`, and element `i` of it
is what is passed here. -/
def ModalURB.updateParams (lm : Libm α) (b : ModalURB α) (f : α) : ModalURB α :=
  let b := ModalURB.updateFreqs b f
  { b with filters := List.zipWith (fun flt fr => (setFc lm flt fr true).1) b.filters b.freqs }

/-- The impulse buffer built by `ModalURB::generateNote` (`modalURB.cpp`,
lines 36-41): `impulse[0] = 1` and every later sample is 0.  The buffer has
`nFrames` samples; for `nFrames = 0` the source writes outside the allocation,
which is not modelled. -/
def impulse : Nat → List α
  | 0 => []
  | k + 1 => 1 :: List.replicate k 0

/-- The loop "apply impulse to each filter" of `ModalURB::generateNote`
(`modalURB.cpp`, lines 48-57): filter `i` processes the impulse and its output,
scaled by `amps[i]`, is added sample by sample to `output`.  The result is the
filters with their advanced history and the accumulated buffer. -/
def mixLoop (imp : List α) : List (Biquad α) → List α → List α → List (Biquad α) × List α
  | flt :: flts, a :: amps, output =>
    let r := processBuffer flt imp
    let output := List.zipWith (fun o y => o + a * y) output r.2
    let rest := mixLoop imp flts amps output
    (r.1 :: rest.1, rest.2)
  | flts, _, output => (flts, output)

/-- The loop "apply a linear envelope to the output" of
`ModalURB::generateNote` (`modalURB.cpp`, lines 59-62), from index `i` on:
`output[i] *= (nFrames - (i+1)) / nFrames`, where both operands of `/` are
`int`, so the quotient is the truncating integer division, converted to
`double` for the product. -/
def envelopeFrom (nFrames : Int) (i : Int) : List α → List α
  | [] => []
  | o :: rest =>
    o * ((Int.tdiv (nFrames - (i + 1)) nFrames : Int) : α) :: envelopeFrom nFrames (i + 1) rest

/-- Embeds `ModalURB::generateNote` (`modalURB.cpp`, lines 33-63): the bank after
the call and the `nFrames` samples written to `output`, in exact arithmetic.
It agrees with the code as long as every quotient the code evaluates has a
nonzero divisor; where the code divides by zero (for example `0/0` in
`updateAlpha` for the fundamental 0) its `double`s are NaN, which this
embedding does not have: `Ieee.generateNote` is the embedding with NaN. -/
def ModalURB.generateNote (lm : Libm α) (b : ModalURB α) (f : α) (nFrames : Nat) :
    ModalURB α × List α :=
  let b := ModalURB.updateParams lm b f
  let imp : List α := impulse nFrames
  let output : List α := List.replicate nFrames 0
  let r := mixLoop imp b.filters b.amps output
  let output := envelopeFrom (nFrames : Int) 0 r.2
  ({ b with filters := r.1 }, output)

/-- Sample `k` of a buffer for a signed index, with the convention that every
sample before the start of the buffer (`k < 0`) is `0`. -/
def sampleAt (l : List α) (k : Int) : α :=
  if k < 0 then 0 else l.getD k.toNat 0

/-- A fully populated filter state used to run the definitions on concrete
data: every field holds a distinct value, the response `m` and the bandwidth
convention `bwm` are chosen by the caller. -/
def sampleState (m bwm : Nat) : Biquad α :=
  { mode := m, Fs := 8, fc := 1, BWMode := bwm, Q := 1 / 2, BW := 2, slope := 1,
    alpha := 1 / 4, alphaPrime := 1 / 3, dBG := 6, gain := 2, omega0 := 3 / 4,
    cosW0 := 3 / 5, sinW0 := 4 / 5,
    b0 := 11, b1 := 12, b2 := 13, a0 := 14, a1 := 15, a2 := 16,
    x0 := 21, x1 := 22, x2 := 23, y1 := 24, y2 := 25 }

/-- A fully populated resonator bank used to run the definitions on concrete
data: eight band-pass filters in bandwidth mode (`sampleState 0 1`, sample rate
8, bandwidth 2) with zeroed history, and the amplitude and bandwidth tables of
the constructor. -/
def sampleBank : ModalURB α :=
  { Fs := 8, f0 := 0,
    filters := List.replicate 8 (initHist (sampleState 0 1)),
    freqs := List.replicate 8 0,
    amps := [0.0885, 0.3393, 0.5523, 0.4367, 0.9, 0.121, 0.2951, 0.0369],
    bws := [3, 1, 2, 2, 2, 2, 4, 3] }

/-- Embeds `Biquad::updateBs` (`Biquad.cpp`, lines 451-493). -/
def updateBs (s : Biquad α) : Biquad α :=
  match s.mode with
  | 1 =>
    let s := { s with b1 := 1 - s.cosW0 }
    let s := { s with b0 := s.b1 / 2 }
    { s with b2 := s.b0 }
  | 2 =>
    let s := { s with b1 := 1 + s.cosW0 }
    let s := { s with b0 := s.b1 / 2 }
    let s := { s with b1 := s.b1 * -1 }
    { s with b2 := s.b0 }
  | 3 =>
    let s := { s with b0 := 1 }
    let s := { s with b1 := -2 * s.cosW0 }
    { s with b2 := 1 }
  | 4 =>
    let s := { s with b0 := 1 - s.alpha }
    let s := { s with b1 := -2 * s.cosW0 }
    { s with b2 := 1 + s.alpha }
  | 5 =>
    let tmp := (s.gain + 1) - (s.gain - 1) * s.cosW0
    let s := { s with b0 := s.gain * (tmp + s.alphaPrime) }
    let s := { s with b1 := 2 * s.gain * ((s.gain - 1) - (s.gain + 1) * s.cosW0) }
    { s with b2 := s.gain * (tmp - s.alphaPrime) }
  | 6 =>
    let tmp := (s.gain + 1) + (s.gain - 1) * s.cosW0
    let s := { s with b0 := s.gain * (tmp + s.alphaPrime) }
    let s := { s with b1 := -2 * s.gain * ((s.gain - 1) + (s.gain + 1) * s.cosW0) }
    { s with b2 := s.gain * (tmp - s.alphaPrime) }
  | _ =>
    let s := { s with b0 := s.alpha }
    let s := { s with b1 := 0 }
    { s with b2 := -1 * s.alpha }

/-- The pointwise combination `c * u + d * v` of two buffers. -/
def linComb (c d : α) (u v : List α) : List α :=
  List.zipWith (fun a b => c * a + d * b) u v

/-- The value of `std::numeric_limits<double>::max()`, the largest finite
binary64 number `(2 - 2^(-52)) * 2^1023`. -/
def DBL_MAX : α := 2 ^ 1024 - 2 ^ 971

/-- The value of `std::numeric_limits<double>::lowest()`, which is `-DBL_MAX`. -/
def DBL_LOWEST : α := -DBL_MAX

/-- Embeds `geometricMean` (`Averages.cpp`, lines 34-38) on the buffer `input` with
`nFrames = input.length`.  The exponent `1/nFrames` is a quotient of two
`int`s (truncated), converted to `double` for `pow`.  On an empty buffer the
code reads `input[0]` and divides by zero: no result (`none`). -/
def geometricMean (lm : Libm α) : List α → Option α
  | [] => none
  | x :: rest =>
    let nFrames : Int := ((x :: rest).length : Int)
    let acc := rest.foldl (fun acc y => acc * y) x
    some (lm.pow acc ((Int.tdiv 1 nFrames : Int) : α))

/-- The product of the samples of a buffer. -/
def product (input : List α) : α :=
  input.foldl (fun acc y => acc * y) 1

/-- The geometric mean as the documentation of `geometricMean` describes it: the
`nFrames`-th root of the product of the samples. -/
def geometricMeanSpec (lm : Libm α) (input : List α) : α :=
  lm.pow (product input) (1 / ((input.length : Int) : α))

/-- Embeds `peak` (`Averages.cpp`, lines 77-88). -/
def peak (input : List α) : α :=
  input.foldl
    (fun max x =>
      if x > 0 then (if x > max then x else max)
      else (if -1 * x > max then -1 * x else max))
    DBL_LOWEST

/-- Embeds `absAvg` (`Averages.cpp`, lines 97-104).  The accumulator `double acc;` is
declared without an initialiser: its starting content is the parameter
`raw`. -/
def absAvg (raw : α) (input : List α) : α :=
  let acc := input.foldl (fun acc x => if x ≥ 0 then acc + x else acc - x) raw
  acc / ((input.length : Int) : α)

/-- Embeds `rms` (`Averages.cpp`, lines 115-121). -/
def rms (lm : Libm α) (input : List α) : α :=
  let acc := input.foldl (fun acc x => acc + x * x) 0
  lm.sqrt (acc / ((input.length : Int) : α))

/-- One pass of the loop body of `absMidPoint` (`Averages.cpp`, lines 151-159) on the
pair `(max, min)`. -/
def absMidPointStep (acc : α × α) (x : α) : α × α :=
  if x ≥ 0 then
    let max := if x > acc.1 then x else acc.1
    let min := if x < acc.2 then x else acc.2
    (max, min)
  else
    let tmp := -1 * x
    let max := if tmp > acc.1 then x else acc.1
    let min := if tmp < acc.2 then x else acc.2
    (max, min)

/-- Embeds `absMidPoint` (`Averages.cpp`, lines 147-162). -/
def absMidPoint (input : List α) : α :=
  let r := input.foldl absMidPointStep (DBL_LOWEST, DBL_MAX)
  (r.1 + r.2) / 2

/-- The midpoint of the absolute values of the samples, as the documentation of
`absMidPoint` describes it: half the sum of the largest and the smallest
`|x_i|`; `none` on an empty buffer. -/
def absMidPointSpec : List α → Option α
  | [] => none
  | x :: rest =>
    some ((rest.foldl (fun m y => max m |y|) |x| + rest.foldl (fun m y => min m |y|) |x|) / 2)

/-- Embeds `Dynamics::Dynamics()` (`Dynamics.cpp`, lines 8-14): the members that the
constructor does not assign keep the content `raw` of the storage. -/
def Dynamics.ctor0 (raw : Dynamics α) : Dynamics α :=
  let s := { raw with mode := 0 }
  let s := { s with Fs := 44100.00 }
  let s := { s with atkSample := -1 }
  let s := { s with relSample := -1 }
  { s with effRatio := 1 }

/-- Embeds `Dynamics::Dynamics(unsigned int m)` (`Dynamics.cpp`, lines 26-33). -/
def Dynamics.ctor1 (raw : Dynamics α) (m : Nat) : Dynamics α :=
  let s := { raw with Fs := 44100.00 }
  let s := if m < 5 then { s with mode := m } else { s with mode := 0 }
  let s := { s with atkSample := -1 }
  let s := { s with relSample := -1 }
  { s with effRatio := 1 }

/-- Embeds `Dynamics::Dynamics(unsigned int m, double fs)` (`Dynamics.cpp`,
lines 46-53). -/
def Dynamics.ctor2 (raw : Dynamics α) (m : Nat) (fs : α) : Dynamics α :=
  let s := { raw with Fs := fs }
  let s := if m < 5 then { s with mode := 5 } else { s with mode := 0 }
  let s := { s with atkSample := -1 }
  let s := { s with relSample := -1 }
  { s with effRatio := 1 }

/-- Embeds `Dynamics::getMode` (`Dynamics.h`, line 107). -/
def Dynamics.getMode (s : Dynamics α) : Nat := s.mode

/-- Embeds `Dynamics::getFs` (`Dynamics.h`, line 108). -/
def Dynamics.getFs (s : Dynamics α) : α := s.Fs

/-- Embeds `Dynamics::getThresh` (`Dynamics.h`, line 109). -/
def Dynamics.getThresh (s : Dynamics α) : α := s.thresh

/-- Embeds `Dynamics::getRatio` (`Dynamics.h`, line 111). -/
def Dynamics.getRatio (s : Dynamics α) : α := s.ratio

/-- Embeds `Dynamics::getEffRatio` (`Dynamics.h`, line 127). -/
def Dynamics.getEffRatio (s : Dynamics α) : α := s.effRatio

/-- Embeds `Dynamics::setRatio` (`Dynamics.h`, line 96): `thresh = r;`. -/
def Dynamics.setRatio (s : Dynamics α) (r : α) : Dynamics α :=
  { s with thresh := r }

/-- Embeds `Dynamics::setThreshPc` (`Dynamics.h`, line 94). -/
def Dynamics.setThreshPc (s : Dynamics α) (t : α) : Dynamics α :=
  { s with thresh := t }

/-- Embeds `Dynamics::setParamsPc(double, double, int, int, double, double)`
(`Dynamics.cpp`, lines 66-73). -/
def Dynamics.setParamsPc (s : Dynamics α) (t rat : α) (a r : Int) (k g : α) : Dynamics α :=
  let s := { s with thresh := t }
  let s := { s with ratio := rat }
  let s := { s with atk := a }
  let s := { s with rel := r }
  let s := { s with knee := k }
  { s with gain := g }

/-- Embeds `Dynamics::getBufferLevel` (`Dynamics.cpp`, lines 128-141); `raw` is the
indeterminate start value of the accumulator of `absAvg`. -/
def Dynamics.getBufferLevel (lm : Libm α) (raw : α) (s : Dynamics α) (input : List α) : α :=
  match s.mode with
  | 1 => absAvg raw input
  | 2 => rms lm input
  | 4 => absMidPoint input
  | _ => peak input

/-- One pass of the loop body of `Dynamics::processBuffer` (`Dynamics.cpp`,
lines 153-200) for the buffer level `l` and the input sample `x`: the new
object state and the sample written to `output[i]`.  The `int` members `atk`
and `rel` are converted to `double` by the divisions. -/
def Dynamics.processSample (l : α) (s : Dynamics α) (x : α) : Dynamics α × α :=
  if s.ratio < 1 then
    let s :=
      if l > s.thresh then
        let s := if s.effRatio > s.ratio then
            { s with effRatio := s.effRatio - s.effRatio / (s.atk : α) } else s
        if s.effRatio < s.ratio then { s with effRatio := s.ratio } else s
      else
        let s := if s.effRatio < 1 then
            { s with effRatio := s.effRatio + s.effRatio / (s.rel : α) } else s
        if s.effRatio > 1 then { s with effRatio := 1 } else s
    let s := if l - s.thresh > s.knee then { s with kMod := 1 }
             else { s with kMod := s.knee / (l - s.thresh) }
    let effGain := 1 - (s.knee * s.effRatio)
    (s, s.gain * effGain * x)
  else
    let s :=
      if l > s.thresh then
        let s := if s.effRatio < s.ratio then
            { s with effRatio := s.effRatio + s.effRatio / (s.atk : α) } else s
        if s.effRatio > s.ratio then { s with effRatio := s.ratio } else s
      else
        let s := if s.effRatio > 1 then
            { s with effRatio := s.effRatio - s.effRatio / (s.rel : α) } else s
        if s.effRatio < 1 then { s with effRatio := 1 } else s
    let s := if l - s.thresh > s.knee then { s with kMod := 1 }
             else { s with kMod := (l - s.thresh) / s.knee }
    let effGain := 1 + (s.kMod * s.effRatio)
    (s, s.gain * effGain * x)

/-- The `for` loop of `Dynamics::processBuffer` (`Dynamics.cpp`, lines 153-201) over
the input samples, in order. -/
def Dynamics.processLoop (l : α) (s : Dynamics α) : List α → Dynamics α × List α
  | [] => (s, [])
  | x :: rest =>
    let r := Dynamics.processSample l s x
    let t := Dynamics.processLoop l r.1 rest
    (t.1, r.2 :: t.2)

/-- Embeds `Dynamics::processBuffer(double*, double*, int)` (`Dynamics.cpp`,
lines 149-202): the final object state and the contents written to `output`. -/
def Dynamics.processBuffer (lm : Libm α) (raw : α) (s : Dynamics α) (input : List α) :
    Dynamics α × List α :=
  let l := Dynamics.getBufferLevel lm raw s input
  Dynamics.processLoop l s input

/-- A sequence of `processBuffer` calls on one object; each call comes with its
buffer and with the indeterminate value `raw` that `absAvg` would start
from. -/
def Dynamics.processCalls (lm : Libm α) (s : Dynamics α) (calls : List (α × List α)) :
    Dynamics α :=
  calls.foldl (fun s c => (Dynamics.processBuffer lm c.1 s c.2).1) s

/-- A fully populated `Dynamics` state used to run the definitions on concrete
data. -/
def sampleDynamics : Dynamics α :=
  { Fs := 8, thresh := 1 / 2, ratio := 2, atk := 3, rel := 4, knee := 1 / 4, gain := 5,
    atkSample := 6, relSample := 7, atkMod := 9, relMod := 10, kMod := 11,
    effRatio := 12, mode := 3 }

/-- Macro `#define M_PI 3.14159265359` (`LinkwitzRiley.h`, line 5). -/
def LinkwitzRiley.M_PI : α := 3.14159265359

/-- Macro `#define SQRT2 1.41421356237` (`LinkwitzRiley.h`, line 7). -/
def LinkwitzRiley.SQRT2 : α := 1.41421356237

/-- Embeds `LinkwitzRiley::updateParams` (`LinkwitzRiley.cpp`, lines 57-97); `tan` is
the `<cmath>` tangent.  Each `let` is one assignment of the source, in order;
the members are stored at the end, the history members are not touched. -/
def LinkwitzRiley.updateParams (tan : α → α) (s : LinkwitzRiley α) (fs f : α) :
    LinkwitzRiley α :=
  let Fs := if fs > 0 then fs else s.Fs
  let fc := if f > 0 then f else s.fc
  let w0 := 2 * LinkwitzRiley.M_PI * fc
  let w2 := w0 * w0
  let w3 := w2 * w0
  let w4 := w2 * w2
  let c1 := w0 / (tan (LinkwitzRiley.M_PI * fc / Fs))
  let c2 := c1 * c1
  let c3 := c2 * c1
  let c4 := c2 * c2
  let bt1 := LinkwitzRiley.SQRT2 * w3 * c1
  let bt2 := LinkwitzRiley.SQRT2 * w0 * c3
  let at_ := 4 * w2 * c2 + 2 * bt1 + c4 + 2 * bt2 + w4
  let b1 := (4 * (w4 + bt1 - c4 - bt2)) / at_
  let b2 := (6 * w4 - 8 * w2 * c2 + 6 * c4) / at_
  let b3 := (4 * (w4 - bt1 + bt2 - c4)) / at_
  let b4 := (c4 - 2 * bt1 + w4 - 2 * bt2 + 4 * w2 * c2) / at_
  let la0 := w4 / at_
  let la1 := 4 * w4 / at_
  let la2 := 6 * w4 / at_
  let la3 := la1
  let la4 := la0
  let ha0 := c4 / at_
  let ha1 := -4 * c4 / at_
  let ha2 := 6 * c4 / at_
  let ha3 := ha1
  let ha4 := ha0
  { s with
    Fs := Fs, fc := fc, w0 := w0, w2 := w2, w3 := w3, w4 := w4,
    c1 := c1, c2 := c2, c3 := c3, c4 := c4, at_ := at_, bt1 := bt1, bt2 := bt2,
    b1 := b1, b2 := b2, b3 := b3, b4 := b4,
    la0 := la0, la1 := la1, la2 := la2, la3 := la3, la4 := la4,
    ha0 := ha0, ha1 := ha1, ha2 := ha2, ha3 := ha3, ha4 := ha4 }

/-- A fully populated `LinkwitzRiley` state used to run the definitions on
concrete data. -/
def sampleCrossover : LinkwitzRiley α :=
  { Fs := 8, fc := 1, w0 := 1, w2 := 2, w3 := 3, w4 := 4, c1 := 5, c2 := 6, c3 := 7,
    c4 := 8, at_ := 9, bt1 := 10, bt2 := 11, b1 := 12, b2 := 13, b3 := 14, b4 := 15,
    ha0 := 16, ha1 := 17, ha2 := 18, ha3 := 19, ha4 := 20,
    la0 := 21, la1 := 22, la2 := 23, la3 := 24, la4 := 25,
    x4 := 0, x3 := 0, x2 := 0, x1 := 0, h4 := 0, h3 := 0, h2 := 0, h1 := 0,
    l4 := 0, l3 := 0, l2 := 0, l1 := 0 }

/-- A read `buffer[i]` of the lag buffer of a `Yin` object: `none` when the index is
outside the array. -/
def Yin.read (s : Yin α) (i : Int) : Option α :=
  if i < 0 then none else s.buffer[i.toNat]?

/-- The element `buffer[i]` of the lag buffer, for an index inside the array (`0`
outside). -/
def Yin.val (s : Yin α) (i : Int) : α :=
  s.buffer.getD i.toNat 0

/-- The state invariant that `Yin::setBufSize` (`Yin.cpp`, lines 55-60) establishes:
`buffer` points to an array of `bufSize` elements. -/
def Yin.WellFormed (s : Yin α) : Prop :=
  (s.buffer.length : Int) = s.bufSize

/-- The inner `while` loop of `Yin::absThresh` (`Yin.cpp`, lines 105-108), started at
`tau`: the value of `tau` when the loop exits.  The loop runs at most
`bufSize - tau` times; `none` if a read leaves the array or `fuel` passes do
not reach the exit. -/
def Yin.descend (s : Yin α) : Nat → Int → Option Int
  | 0, _ => none
  | fuel + 1, tau =>
    if tau + 1 < s.bufSize then do
      let next ← s.read (tau + 1)
      let cur ← s.read tau
      if next < cur then Yin.descend s fuel (tau + 1) else pure tau
    else pure tau

/-- The `for` loop of `Yin::absThresh` (`Yin.cpp`, lines 103-113), started at `tau`:
the values of `tau` and `prob` when the loop exits (through its condition or
through `break`).  The loop runs at most `bufSize - tau` times, so
`fuel = bufSize - tau + 1` passes reach the exit. -/
def Yin.searchFrom (s : Yin α) : Nat → Int → Option (Int × α)
  | 0, _ => none
  | fuel + 1, tau =>
    if tau < s.bufSize then do
      let cur ← s.read tau
      if cur < s.thresh then do
        let tau ← Yin.descend s ((s.bufSize - tau).toNat + 1) tau
        let found ← s.read tau
        pure (tau, 1 - found)
      else Yin.searchFrom s fuel (tau + 1)
    else pure (tau, s.prob)

/-- Embeds `Yin::absThresh` (`Yin.cpp`, lines 99-121): the new object state and the
returned lag; `none` if a read leaves the array. -/
def Yin.absThresh (s : Yin α) : Option (Yin α × Int) := do
  let r ← Yin.searchFrom s ((s.bufSize - 2).toNat + 1) 2
  let tau := r.1
  let s := { s with prob := r.2 }
  if tau = s.bufSize then pure ({ s with prob := 0 }, -1)
  else do
    let cur ← s.read tau
    if cur ≥ s.thresh then pure ({ s with prob := 0 }, -1)
    else pure (s, tau)

/-- Embeds `Yin::interpolate` (`Yin.cpp`, lines 128-161): the returned lag; `none` if
a read leaves the array.  The `int` lags are converted to `double` by the
assignments to `newTau`. -/
def Yin.interpolate (s : Yin α) (tauEst : Int) : Option α :=
  let z0 := if tauEst < 1 then tauEst else tauEst - 1
  let z2 := if tauEst + 1 < s.bufSize then tauEst + 1 else tauEst
  if z0 = tauEst then do
    let cur ← s.read tauEst
    let right ← s.read z2
    if cur ≤ right then pure (tauEst : α) else pure (z2 : α)
  else if z2 = tauEst then do
    let cur ← s.read tauEst
    let left ← s.read z0
    if cur ≤ left then pure (tauEst : α) else pure (z0 : α)
  else do
    let s0 ← s.read z0
    let s1 ← s.read tauEst
    let s2 ← s.read z2
    pure ((tauEst : α) + (s2 - s0) / (2 * (2 * s1 - s2 - s0)))

/-- A `Yin` object with an eight-element lag buffer, used to run the definitions on
concrete data. -/
def sampleYin : Yin α :=
  { Fs := 8, buffer := [1, 1, 9 / 10, 1 / 2, 1 / 4, 1 / 8, 3 / 8, 1], bufSize := 8,
    prob := 7, thresh := 4 / 5 }

/-- The sum of two `double`s: exact on finite numbers, NaN if an operand is NaN. -/
def Dbl.add : Dbl α → Dbl α → Dbl α
  | .fin x, .fin y => .fin (x + y)
  | _, _ => .nan

/-- The difference of two `double`s: exact on finite numbers, NaN if an operand is
NaN. -/
def Dbl.sub : Dbl α → Dbl α → Dbl α
  | .fin x, .fin y => .fin (x - y)
  | _, _ => .nan

/-- The product of two `double`s: exact on finite numbers, NaN if an operand is
NaN (in particular `NaN * 0.0` is NaN). -/
def Dbl.mul : Dbl α → Dbl α → Dbl α
  | .fin x, .fin y => .fin (x * y)
  | _, _ => .nan

instance Dbl.instAdd : Add (Dbl α) := ⟨Dbl.add⟩

instance Dbl.instSub : Sub (Dbl α) := ⟨Dbl.sub⟩

instance Dbl.instMul : Mul (Dbl α) := ⟨Dbl.mul⟩

/-- The quotient of two `double`s.  NaN if an operand is NaN; exact for finite
operands with a nonzero divisor; `0/0` is NaN; a nonzero finite number divided
by zero is an infinity, which the embedding does not represent (`none`). -/
def Dbl.div : Dbl α → Dbl α → Option (Dbl α)
  | .fin x, .fin y =>
    if y = 0 then (if x = 0 then some .nan else none) else some (.fin (x / y))
  | _, _ => some .nan

/-- The comparison `x >= y` of two `double`s: false if an operand is NaN. -/
def Dbl.ge : Dbl α → Dbl α → Bool
  | .fin x, .fin y => decide (x ≥ y)
  | _, _ => false

/-- The `<cmath>` sine on a `double`: NaN on NaN. -/
def Dbl.sin (lm : Libm α) : Dbl α → Dbl α
  | .fin x => .fin (lm.sin x)
  | .nan => .nan

/-- The `<cmath>` cosine on a `double`: NaN on NaN. -/
def Dbl.cos (lm : Libm α) : Dbl α → Dbl α
  | .fin x => .fin (lm.cos x)
  | .nan => .nan

/-- The `<cmath>` hyperbolic sine on a `double`: NaN on NaN. -/
def Dbl.sinh (lm : Libm α) : Dbl α → Dbl α
  | .fin x => .fin (lm.sinh x)
  | .nan => .nan

/-- The `<cmath>` square root on a `double`: NaN on NaN and on a negative
number. -/
def Dbl.sqrt (lm : Libm α) : Dbl α → Dbl α
  | .fin x => if x < 0 then .nan else .fin (lm.sqrt x)
  | .nan => .nan

/-- The `<cmath>` power function on `double`s.  `pow(x, 0)` and `pow(1, y)` are `1`
for every operand, NaN included; otherwise a NaN operand gives NaN; a positive
finite base gives the finite power; the other cases (a base `<= 0`) are not
represented (`none`). -/
def Dbl.pow (lm : Libm α) : Dbl α → Dbl α → Option (Dbl α)
  | .fin x, .fin y =>
    if y = 0 then some (.fin 1) else if x = 1 then some (.fin 1)
    else if 0 < x then some (.fin (lm.pow x y)) else none
  | .fin x, .nan => if x = 1 then some (.fin 1) else some .nan
  | .nan, .fin y => if y = 0 then some (.fin 1) else some .nan
  | .nan, .nan => some .nan

/-- NaN-aware embedding of `Biquad::initHist` (`Biquad.cpp`, lines 117-123). -/
def Ieee.initHist (s : Biquad (Dbl α)) : Biquad (Dbl α) :=
  { s with x0 := .fin 0, x1 := .fin 0, x2 := .fin 0, y1 := .fin 0, y2 := .fin 0 }

/-- NaN-aware embedding of `Biquad::updateXs` (`Biquad.cpp`, lines 716-720). -/
def Ieee.updateXs (s : Biquad (Dbl α)) (x : Dbl α) : Biquad (Dbl α) :=
  let s := { s with x2 := s.x1 }
  let s := { s with x1 := s.x0 }
  { s with x0 := x }

/-- NaN-aware embedding of `Biquad::updateYs` (`Biquad.cpp`, lines 728-731). -/
def Ieee.updateYs (s : Biquad (Dbl α)) (y : Dbl α) : Biquad (Dbl α) :=
  let s := { s with y2 := s.y1 }
  { s with y1 := y }

/-- NaN-aware embedding of `Biquad::generateOutputSample` (`Biquad.cpp`,
lines 752-759). -/
def Ieee.generateOutputSample (s : Biquad (Dbl α)) : Option (Dbl α) :=
  let acc := s.b0 * s.x0
  let acc := acc + s.b1 * s.x1
  let acc := acc + s.b2 * s.x2
  let acc := acc - s.a1 * s.y1
  let acc := acc - s.a2 * s.y2
  Dbl.div acc s.a0

/-- NaN-aware embedding of `Biquad::processBuffer` (`Biquad.cpp`, lines 739-745):
the final object state and the contents written to `output`. -/
def Ieee.processBuffer (s : Biquad (Dbl α)) :
    List (Dbl α) → Option (Biquad (Dbl α) × List (Dbl α))
  | [] => some (s, [])
  | x :: rest => do
    let s := Ieee.updateXs s x
    let y ← Ieee.generateOutputSample s
    let s := Ieee.updateYs s y
    let r ← Ieee.processBuffer s rest
    pure (r.1, y :: r.2)

/-- NaN-aware embedding of `Biquad::updateCosW0` (`Biquad.cpp`, lines 353-355). -/
def Ieee.updateCosW0 (lm : Libm α) (s : Biquad (Dbl α)) : Biquad (Dbl α) :=
  { s with cosW0 := Dbl.cos lm s.omega0 }

/-- NaN-aware embedding of `Biquad::updateSinW0` (`Biquad.cpp`, lines 363-365). -/
def Ieee.updateSinW0 (lm : Libm α) (s : Biquad (Dbl α)) : Biquad (Dbl α) :=
  { s with sinW0 := Dbl.sin lm s.omega0 }

/-- NaN-aware embedding of `Biquad::updateOmega` (`Biquad.cpp`, lines 338-345). -/
def Ieee.updateOmega (lm : Libm α) (s : Biquad (Dbl α)) (updateTrigs : Bool) :
    Option (Biquad (Dbl α)) := do
  let w ← Dbl.div (Dbl.fin 2 * Dbl.fin M_PI * s.fc) s.Fs
  let s := { s with omega0 := w }
  if updateTrigs then
    let s := Ieee.updateCosW0 lm s
    pure (Ieee.updateSinW0 lm s)
  else pure s

/-- NaN-aware embedding of `Biquad::updateAlpha` (`Biquad.cpp`, lines 286-298). -/
def Ieee.updateAlpha (lm : Libm α) (s : Biquad (Dbl α)) : Option (Biquad (Dbl α)) :=
  match s.BWMode with
  | 1 => do
    let h ← Dbl.div (Dbl.fin LN2) (Dbl.fin 2)
    let q ← Dbl.div (h * s.BW * s.omega0) s.sinW0
    pure { s with alpha := s.sinW0 * Dbl.sinh lm q }
  | 2 => do
    let h ← Dbl.div s.sinW0 (Dbl.fin 2)
    let g ← Dbl.div (Dbl.fin 1) s.gain
    let r ← Dbl.div (Dbl.fin 1) s.slope
    pure { s with alpha := h * Dbl.sqrt lm ((s.gain + g) * (r - Dbl.fin 1) + Dbl.fin 2) }
  | _ => do
    let q ← Dbl.div s.sinW0 (Dbl.fin 2 * s.Q)
    pure { s with alpha := q }

/-- NaN-aware embedding of `Biquad::updateAlphaPrime` (`Biquad.cpp`,
lines 307-313). -/
def Ieee.updateAlphaPrime (lm : Libm α) (s : Biquad (Dbl α)) : Biquad (Dbl α) × Bool :=
  if s.mode = 5 ∨ s.mode = 6 then
    ({ s with alphaPrime := Dbl.fin 2 * Dbl.sqrt lm s.gain * s.alpha }, true)
  else (s, false)

/-- NaN-aware embedding of `Biquad::updateGain` (`Biquad.cpp`, lines 323-329). -/
def Ieee.updateGain (lm : Libm α) (s : Biquad (Dbl α)) : Option (Biquad (Dbl α) × Bool) :=
  if s.mode = 5 ∨ s.mode = 6 then do
    let e ← Dbl.div s.dBG (Dbl.fin 40)
    let g ← Dbl.pow lm (Dbl.fin 10) e
    pure ({ s with gain := g }, true)
  else pure (s, false)

/-- NaN-aware embedding of `Biquad::updateAs` (`Biquad.cpp`, lines 607-632). -/
def Ieee.updateAs (s : Biquad (Dbl α)) : Biquad (Dbl α) :=
  match s.mode with
  | 5 =>
    let tmp := (s.gain + Dbl.fin 1) + (s.gain - Dbl.fin 1) * s.cosW0
    let s := { s with a0 := tmp + s.alphaPrime }
    let s :=
      { s with a1 := Dbl.fin (-2) * ((s.gain - Dbl.fin 1) + (s.gain + Dbl.fin 1) * s.cosW0) }
    { s with a2 := tmp - s.alphaPrime }
  | 6 =>
    let tmp := (s.gain + Dbl.fin 1) - (s.gain - Dbl.fin 1) * s.cosW0
    let s := { s with a0 := tmp + s.alphaPrime }
    let s :=
      { s with a1 := Dbl.fin 2 * ((s.gain - Dbl.fin 1) - (s.gain + Dbl.fin 1) * s.cosW0) }
    { s with a2 := tmp - s.alphaPrime }
  | _ =>
    let s := { s with a0 := Dbl.fin 1 + s.alpha }
    let s := { s with a1 := Dbl.fin (-2) * s.cosW0 }
    { s with a2 := Dbl.fin 1 - s.alpha }

/-- NaN-aware embedding of the statements under `case 4:` of the second switch of
`Biquad::updateCoFs` (`Biquad.cpp`, lines 399-404). -/
def Ieee.updateCoFsCase4 (s : Biquad (Dbl α)) : Biquad (Dbl α) :=
  let s := { s with b1 := s.a1 }
  if s.mode = 3 then s
  else
    let s := { s with b0 := s.a2 }
    { s with b2 := s.a0 }

/-- NaN-aware embedding of the body of `case 5: case 6:` of the second switch of
`Biquad::updateCoFs` (`Biquad.cpp`, lines 405-434). -/
def Ieee.updateCoFsShelf (s : Biquad (Dbl α)) : Biquad (Dbl α) :=
  let gp := s.gain + Dbl.fin 1
  let gm := s.gain - Dbl.fin 1
  let mc := gm * s.cosW0
  let pc := gp * s.cosW0
  let pmm := gp - mc
  let mmp := gm - pc
  let ppm := gp + mc
  let mpp := gm + pc
  if s.mode = 5 then
    let s := { s with b0 := s.gain * (pmm + s.alphaPrime) }
    let s := { s with b1 := Dbl.fin 2 * s.gain * mmp }
    let s := { s with b2 := s.gain * (pmm - s.alphaPrime) }
    let s := { s with a0 := ppm + s.alphaPrime }
    let s := { s with a1 := Dbl.fin (-2) * mpp }
    { s with a2 := ppm - s.alphaPrime }
  else if s.mode = 6 then
    let s := { s with b0 := s.gain * (ppm + s.alphaPrime) }
    let s := { s with b1 := Dbl.fin (-2) * s.gain * mpp }
    let s := { s with b2 := s.gain * (ppm - s.alphaPrime) }
    let s := { s with a0 := pmm + s.alphaPrime }
    let s := { s with a1 := Dbl.fin (-2) * mmp }
    { s with a2 := pmm - s.alphaPrime }
  else s

/-- NaN-aware embedding of `Biquad::updateCoFs` (`Biquad.cpp`, lines 372-441). -/
def Ieee.updateCoFs (s : Biquad (Dbl α)) : Option (Biquad (Dbl α)) :=
  let s :=
    match s.mode with
    | 5 => s
    | 6 => s
    | _ => Ieee.updateAs s
  match s.mode with
  | 1 | 2 => do
    let s := if s.mode = 1 then { s with b1 := Dbl.fin 1 - s.cosW0 }
             else if s.mode = 2 then { s with b1 := Dbl.fin 1 + s.cosW0 } else s
    let h ← Dbl.div s.b1 (Dbl.fin 2)
    let s := { s with b0 := h }
    let s := { s with b2 := s.b0 }
    if s.mode = 2 then pure { s with b1 := s.b1 * Dbl.fin (-1) } else pure s
  | 3 =>
    let s := { s with b0 := Dbl.fin 1 }
    let s := { s with b2 := Dbl.fin 1 }
    pure (Ieee.updateCoFsCase4 s)
  | 4 => pure (Ieee.updateCoFsCase4 s)
  | 5 | 6 => pure (Ieee.updateCoFsShelf s)
  | _ =>
    let s := { s with b0 := s.alpha }
    let s := { s with b1 := Dbl.fin 0 }
    pure { s with b2 := Dbl.fin (-1) * s.alpha }

/-- NaN-aware embedding of `Biquad::setParamsSlope` (`Biquad.cpp`, lines 102-115); as
in `setParamsSlope`, the path that updates the filter defines no result
value. -/
def Ieee.setParamsSlope (lm : Libm α) (s : Biquad (Dbl α)) (fs f sl dbg : Dbl α) :
    Option (Biquad (Dbl α) × Option Bool) :=
  if s.mode ≠ 5 ∧ s.mode ≠ 6 then pure (s, some false)
  else if s.BWMode ≠ 2 then pure (s, some false)
  else do
    let s := if Dbl.ge fs (Dbl.fin 0) then { s with Fs := fs } else s
    let s := if Dbl.ge f (Dbl.fin 0) then { s with fc := f } else s
    let s := if Dbl.ge sl (Dbl.fin 0) then { s with slope := sl } else s
    let s := { s with dBG := dbg }
    let s ← Ieee.updateOmega lm s true
    let r ← Ieee.updateGain lm s
    let s ← Ieee.updateAlpha lm r.1
    let s := (Ieee.updateAlphaPrime lm s).1
    let s ← Ieee.updateCoFs s
    pure (s, none)

/-- NaN-aware embedding of `Biquad::setParamsBW` (`Biquad.cpp`, lines 125-135). -/
def Ieee.setParamsBW (lm : Libm α) (s : Biquad (Dbl α)) (fs f b : Dbl α) :
    Option (Biquad (Dbl α) × Bool) :=
  if s.mode ≠ 0 ∧ s.mode ≠ 3 then pure (s, false)
  else if s.BWMode ≠ 1 then pure (s, false)
  else do
    let s := if Dbl.ge fs (Dbl.fin 0) then { s with Fs := fs } else s
    let s := if Dbl.ge f (Dbl.fin 0) then { s with fc := f } else s
    let s := if Dbl.ge b (Dbl.fin 0) then { s with BW := b } else s
    let s ← Ieee.updateOmega lm s true
    let s ← Ieee.updateAlpha lm s
    let s ← Ieee.updateCoFs s
    pure (s, true)

/-- NaN-aware embedding of `Biquad::setParamsQ` (`Biquad.cpp`, lines 137-144). -/
def Ieee.setParamsQ (lm : Libm α) (s : Biquad (Dbl α)) (fs f q : Dbl α) :
    Option (Biquad (Dbl α)) := do
  let s := if Dbl.ge fs (Dbl.fin 0) then { s with Fs := fs } else s
  let s := if Dbl.ge f (Dbl.fin 0) then { s with fc := f } else s
  let s := if Dbl.ge q (Dbl.fin 0) then { s with Q := q } else s
  let s ← Ieee.updateOmega lm s true
  let s ← Ieee.updateAlpha lm s
  Ieee.updateCoFs s

/-- NaN-aware embedding of `Biquad::setFs` (`Biquad.cpp`, lines 165-177). -/
def Ieee.setFs (lm : Libm α) (s : Biquad (Dbl α)) (f : Dbl α) (updateDeps : Bool) :
    Option (Biquad (Dbl α) × Bool) :=
  if Dbl.ge f (Dbl.fin 0) then
    let s := { s with Fs := f }
    if updateDeps then do
      let s ← Ieee.updateOmega lm s true
      let s := Ieee.updateSinW0 lm s
      let s := Ieee.updateCosW0 lm s
      let s ← Ieee.updateAlpha lm s
      let s := if s.BWMode = 2 ∧ (s.mode = 5 ∨ s.mode = 6) then
          (Ieee.updateAlphaPrime lm s).1 else s
      let s ← Ieee.updateCoFs s
      pure (s, true)
    else pure (s, true)
  else pure (s, false)

/-- NaN-aware embedding of `Biquad::setFc` (`Biquad.cpp`, lines 198-210). -/
def Ieee.setFc (lm : Libm α) (s : Biquad (Dbl α)) (f : Dbl α) (updateDeps : Bool) :
    Option (Biquad (Dbl α) × Bool) :=
  if Dbl.ge f (Dbl.fin 0) then
    let s := { s with fc := f }
    if updateDeps then do
      let s ← Ieee.updateOmega lm s true
      let s := Ieee.updateSinW0 lm s
      let s := Ieee.updateCosW0 lm s
      let s ← Ieee.updateAlpha lm s
      let s := if s.BWMode = 2 ∧ (s.mode = 5 ∨ s.mode = 6) then
          (Ieee.updateAlphaPrime lm s).1 else s
      let s ← Ieee.updateCoFs s
      pure (s, true)
    else pure (s, true)
  else pure (s, false)

/-- NaN-aware embedding of `Biquad::Biquad(unsigned int m, unsigned int bwm)`
(`Biquad.cpp`, lines 18-34); `raw` is the indeterminate content of the object
before the constructor body runs. -/
def Ieee.ctor2 (lm : Libm α) (raw : Biquad (Dbl α)) (m bwm : Nat) :
    Option (Biquad (Dbl α)) :=
  let s := { raw with mode := m }
  let s := { s with BWMode := bwm }
  let s := Ieee.initHist s
  match s.BWMode with
  | 1 => do
    let r ← Ieee.setParamsBW lm s (Dbl.fin 0) (Dbl.fin 0) (Dbl.fin 0)
    pure r.1
  | 2 => do
    let r ← Ieee.setParamsSlope lm s (Dbl.fin 0) (Dbl.fin 0) (Dbl.fin 0) (Dbl.fin 0)
    pure r.1
  | _ => Ieee.setParamsQ lm s (Dbl.fin 0) (Dbl.fin 0) (Dbl.fin 0)

/-- The loop of `ModalURB::ModalURB(double fs)` (`modalURB.cpp`, lines 7-10) over the
elements of `filters`, in the NaN-aware embedding: element `i` becomes the
object built by `Biquad(0, 1)` and then receives `setFs(Fs)`. -/
def Ieee.ctorLoop (lm : Libm α) (fs : Dbl α) (updateDeps : Bool) :
    List (Biquad (Dbl α)) → Option (List (Biquad (Dbl α)))
  | [] => some []
  | r :: rest => do
    let c ← Ieee.ctor2 lm r 0 1
    let t ← Ieee.setFs lm c fs updateDeps
    let ts ← Ieee.ctorLoop lm fs updateDeps rest
    pure (t.1 :: ts)

/-- NaN-aware embedding of `ModalURB::ModalURB(double fs)` (`modalURB.cpp`,
lines 3-11), with the conventions of `ModalURB.ctor`. -/
def Ieee.ctor (lm : Libm α) (raw : ModalURB (Dbl α)) (fs : Dbl α) (updateDeps : Bool) :
    Option (ModalURB (Dbl α)) := do
  let b := { raw with Fs := fs }
  let b := { b with bws :=
    [Dbl.fin 3, Dbl.fin 1, Dbl.fin 2, Dbl.fin 2, Dbl.fin 2, Dbl.fin 2, Dbl.fin 4, Dbl.fin 3] }
  let b := { b with amps :=
    [Dbl.fin 0.0885, Dbl.fin 0.3393, Dbl.fin 0.5523, Dbl.fin 0.4367, Dbl.fin 0.9,
     Dbl.fin 0.121, Dbl.fin 0.2951, Dbl.fin 0.0369] }
  let flts ← Ieee.ctorLoop lm b.Fs updateDeps b.filters
  pure { b with filters := flts }

/-- NaN-aware embedding of `ModalURB::updateFreqs` (`modalURB.cpp`, lines 21-31). -/
def Ieee.updateFreqs (b : ModalURB (Dbl α)) (f : Dbl α) : ModalURB (Dbl α) :=
  let b := { b with f0 := f }
  { b with freqs :=
      [Dbl.fin 0.4863636364 * b.f0, Dbl.fin 0.9318181818 * b.f0, b.f0,
       Dbl.fin 1.0136363636 * b.f0, Dbl.fin 2.0045454545 * b.f0,
       Dbl.fin 3.0136363636 * b.f0, Dbl.fin 6.0090909091 * b.f0,
       Dbl.fin 5.0181818182 * b.f0] }

/-- The loop of `ModalURB::updateParams` (`modalURB.cpp`, lines 15-17) in the
NaN-aware embedding: filter `i` receives `setFc(freqs[i], true)`. -/
def Ieee.retuneLoop (lm : Libm α) :
    List (Biquad (Dbl α)) → List (Dbl α) → Option (List (Biquad (Dbl α)))
  | flt :: flts, fr :: frs => do
    let r ← Ieee.setFc lm flt fr true
    let rest ← Ieee.retuneLoop lm flts frs
    pure (r.1 :: rest)
  | _, _ => some []

/-- NaN-aware embedding of `ModalURB::updateParams` (`modalURB.cpp`, lines 13-18),
with the reading of `f[i]` as `freqs[i]` of `ModalURB.updateParams`. -/
def Ieee.updateParams (lm : Libm α) (b : ModalURB (Dbl α)) (f : Dbl α) :
    Option (ModalURB (Dbl α)) := do
  let b := Ieee.updateFreqs b f
  let flts ← Ieee.retuneLoop lm b.filters b.freqs
  pure { b with filters := flts }

/-- The impulse buffer of `ModalURB::generateNote` (`modalURB.cpp`, lines 36-41) in
the NaN-aware embedding. -/
def Ieee.impulse : Nat → List (Dbl α)
  | 0 => []
  | k + 1 => Dbl.fin 1 :: List.replicate k (Dbl.fin 0)

/-- The loop "apply impulse to each filter" of `ModalURB::generateNote`
(`modalURB.cpp`, lines 48-57) in the NaN-aware embedding. -/
def Ieee.mixLoop (imp : List (Dbl α)) :
    List (Biquad (Dbl α)) → List (Dbl α) → List (Dbl α) →
      Option (List (Biquad (Dbl α)) × List (Dbl α))
  | flt :: flts, a :: amps, output => do
    let r ← Ieee.processBuffer flt imp
    let output := List.zipWith (fun o y => o + a * y) output r.2
    let rest ← Ieee.mixLoop imp flts amps output
    pure (r.1 :: rest.1, rest.2)
  | flts, _, output => some (flts, output)

/-- The envelope loop of `ModalURB::generateNote` (`modalURB.cpp`, lines 59-62) in
the NaN-aware embedding, from index `i` on: the factor is the truncated `int`
quotient `(nFrames - (i+1)) / nFrames`, converted to `double`. -/
def Ieee.envelopeFrom (nFrames : Int) (i : Int) : List (Dbl α) → List (Dbl α)
  | [] => []
  | o :: rest =>
    o * Dbl.fin ((Int.tdiv (nFrames - (i + 1)) nFrames : Int) : α) ::
      Ieee.envelopeFrom nFrames (i + 1) rest

/-- NaN-aware embedding of `ModalURB::generateNote` (`modalURB.cpp`, lines 33-63):
the bank after the call and the `nFrames` samples written to `output`; `none`
if an infinity arises on the way. -/
def Ieee.generateNote (lm : Libm α) (b : ModalURB (Dbl α)) (f : Dbl α) (nFrames : Nat) :
    Option (ModalURB (Dbl α) × List (Dbl α)) := do
  let b ← Ieee.updateParams lm b f
  let imp : List (Dbl α) := Ieee.impulse nFrames
  let output : List (Dbl α) := List.replicate nFrames (Dbl.fin 0)
  let r ← Ieee.mixLoop imp b.filters b.amps output
  let output := Ieee.envelopeFrom (nFrames : Int) 0 r.2
  pure ({ b with filters := r.1 }, output)

/-- The content of a filter object with every `double` member a finite number. -/
def Ieee.liftBiquad (s : Biquad α) : Biquad (Dbl α) :=
  { mode := s.mode, Fs := Dbl.fin s.Fs, fc := Dbl.fin s.fc, BWMode := s.BWMode,
    Q := Dbl.fin s.Q, BW := Dbl.fin s.BW, slope := Dbl.fin s.slope,
    alpha := Dbl.fin s.alpha, alphaPrime := Dbl.fin s.alphaPrime, dBG := Dbl.fin s.dBG,
    gain := Dbl.fin s.gain, omega0 := Dbl.fin s.omega0, cosW0 := Dbl.fin s.cosW0,
    sinW0 := Dbl.fin s.sinW0,
    b0 := Dbl.fin s.b0, b1 := Dbl.fin s.b1, b2 := Dbl.fin s.b2,
    a0 := Dbl.fin s.a0, a1 := Dbl.fin s.a1, a2 := Dbl.fin s.a2,
    x0 := Dbl.fin s.x0, x1 := Dbl.fin s.x1, x2 := Dbl.fin s.x2,
    y1 := Dbl.fin s.y1, y2 := Dbl.fin s.y2 }

/-- The storage of a resonator bank before its constructor runs, used to run the
NaN-aware definitions on concrete data: eight filter objects with the content
of `sampleState 3 2`. -/
def Ieee.rawBank : ModalURB (Dbl α) :=
  { Fs := Dbl.fin 8, f0 := Dbl.fin 0,
    filters := List.replicate 8 (Ieee.liftBiquad (sampleState 3 2)),
    freqs := List.replicate 8 (Dbl.fin 0),
    amps := List.replicate 8 (Dbl.fin 0),
    bws := List.replicate 8 (Dbl.fin 0) }

/-- Every sample of a buffer is a finite number. -/
def Ieee.AllFin (l : List (Dbl α)) : Prop :=
  ∀ x ∈ l, ∃ v : α, x = Dbl.fin v

/-- The parameter state that the constructor of the bank gives to each of its
filters, for the sample rate `fs`: band-pass, bandwidth mode, bandwidth 0. -/
def Ieee.Tuned (fs : α) (s : Biquad (Dbl α)) : Prop :=
  s.mode = 0 ∧ s.BWMode = 1 ∧ s.Fs = Dbl.fin fs ∧ s.BW = Dbl.fin 0

/-- The five history members of a filter are finite numbers. -/
def Ieee.FinHist (s : Biquad (Dbl α)) : Prop :=
  (∃ v : α, s.x0 = Dbl.fin v) ∧ (∃ v : α, s.x1 = Dbl.fin v) ∧ (∃ v : α, s.x2 = Dbl.fin v) ∧
  (∃ v : α, s.y1 = Dbl.fin v) ∧ (∃ v : α, s.y2 = Dbl.fin v)

/-- The six coefficients of a filter are finite numbers and `a0` is not zero. -/
def Ieee.FinCoFs (s : Biquad (Dbl α)) : Prop :=
  (∃ v : α, s.b0 = Dbl.fin v) ∧ (∃ v : α, s.b1 = Dbl.fin v) ∧ (∃ v : α, s.b2 = Dbl.fin v) ∧
  (∃ v : α, s.a0 = Dbl.fin v ∧ v ≠ 0) ∧ (∃ v : α, s.a1 = Dbl.fin v) ∧
  (∃ v : α, s.a2 = Dbl.fin v)

/-- The filter holds a NaN that reaches every output sample: `a0` is NaN or the
last output `y1` is NaN. -/
def Ieee.Tainted (s : Biquad (Dbl α)) : Prop :=
  s.a0 = Dbl.nan ∨ s.y1 = Dbl.nan

end Defs

/-- The interpretation of the `<cmath>` functions by the functions of real
analysis: `lm` is the record of `Real.sin`, `Real.cos`, `Real.sinh`,
`Real.sqrt` and the real power function. -/
def IsRealLibm (lm : Libm ℝ) : Prop :=
  lm = Libm.mk Real.sin Real.cos Real.sinh Real.sqrt Real.rpow

section Processing

variable {α : Type} [LinearOrderedField α]

theorem processBuffer_nil (s : Biquad α) : processBuffer s [] = (s, []) := rfl

theorem processBuffer_cons (s : Biquad α) (x : α) (rest : List α) :
    processBuffer s (x :: rest) =
      ((processBuffer (updateYs (updateXs s x) (generateOutputSample (updateXs s x))) rest).1,
        generateOutputSample (updateXs s x) ::
          (processBuffer (updateYs (updateXs s x) (generateOutputSample (updateXs s x))) rest).2) :=
  rfl

theorem processBuffer_length (s : Biquad α) (xs : List α) :
    (processBuffer s xs).2.length = xs.length := by
  induction xs generalizing s with
  | nil => rfl
  | cons x rest ih => simp [processBuffer_cons, ih]

/-- The recurrence computed by `processBuffer` from an arbitrary history, in
terms of the history-extended input `x1 :: x0 :: xs` and output
`y2 :: y1 :: out`. -/
theorem processBuffer_recurrence (s : Biquad α) (xs : List α) (n : Nat)
    (hn : n < xs.length) :
    (s.y2 :: s.y1 :: (processBuffer s xs).2).getD (n + 2) 0 =
      (s.b0 * (s.x1 :: s.x0 :: xs).getD (n + 2) 0
        + s.b1 * (s.x1 :: s.x0 :: xs).getD (n + 1) 0
        + s.b2 * (s.x1 :: s.x0 :: xs).getD n 0
        - s.a1 * (s.y2 :: s.y1 :: (processBuffer s xs).2).getD (n + 1) 0
        - s.a2 * (s.y2 :: s.y1 :: (processBuffer s xs).2).getD n 0) / s.a0 := by
  induction xs generalizing s n with
  | nil => simp at hn
  | cons x rest ih =>
    rw [processBuffer_cons]
    cases n with
    | zero => simp [generateOutputSample, updateXs]
    | succ m =>
      have hm : m < rest.length := by simpa using hn
      have key := ih (updateYs (updateXs s x) (generateOutputSample (updateXs s x))) m hm
      simp only [updateYs, updateXs] at key
      simpa [updateXs] using key

/-- The state left by `processBuffer`: only the history changes, and it holds
the last three entries of `x2 :: x1 :: x0 :: xs` and the last two entries of
`y2 :: y1 :: out`. -/
theorem processBuffer_final_state (s : Biquad α) (xs : List α) :
    (processBuffer s xs).1 =
      { s with
        x0 := (s.x2 :: s.x1 :: s.x0 :: xs).getD (xs.length + 2) 0
        x1 := (s.x2 :: s.x1 :: s.x0 :: xs).getD (xs.length + 1) 0
        x2 := (s.x2 :: s.x1 :: s.x0 :: xs).getD xs.length 0
        y1 := (s.y2 :: s.y1 :: (processBuffer s xs).2).getD (xs.length + 1) 0
        y2 := (s.y2 :: s.y1 :: (processBuffer s xs).2).getD xs.length 0 } := by
  induction xs generalizing s with
  | nil => rfl
  | cons x rest ih =>
    rw [processBuffer_cons]
    have key := ih (updateYs (updateXs s x) (generateOutputSample (updateXs s x)))
    rw [key]
    simp only [updateYs, updateXs, List.length_cons, List.getD_cons_succ]

theorem sampleAt_natCast (l : List α) (n : Nat) : sampleAt l (n : Int) = l.getD n 0 := by
  simp [sampleAt]

theorem sampleAt_sub_one (l : List α) (n : Nat) :
    sampleAt l ((n : Int) - 1) = (0 :: l).getD n 0 := by
  cases n with
  | zero => simp [sampleAt]
  | succ m => simp [sampleAt]

theorem sampleAt_sub_two (l : List α) (n : Nat) :
    sampleAt l ((n : Int) - 2) = (0 :: 0 :: l).getD n 0 := by
  rcases n with _ | _ | m
  · simp [sampleAt]
  · simp [sampleAt]
  · have h : ((m + 1 + 1 : Nat) : Int) - 2 = (m : Int) := by push_cast; ring
    rw [h, sampleAt_natCast]; simp


/-- C1: started from zeroed history, `processBuffer` writes the outputs of the
difference equation `y[n] = (b0 x[n] + b1 x[n-1] + b2 x[n-2] - a1 y[n-1] -
a2 y[n-2]) / a0` with `x[k] = y[k] = 0` for `k < 0`; started from an arbitrary
history it writes one output per input sample, the same equation holds with the
two previous inputs (`x0`, `x1`) and the two previous outputs (`y1`, `y2`) taken
from the stored history, and afterwards the history holds the last three inputs
and the last two outputs while every other field is unchanged. -/
theorem processBuffer_difference_equation (s : Biquad α) (xs : List α) :
    (∀ n : Nat, n < xs.length →
      (processBuffer (initHist s) xs).2.getD n 0 =
        (s.b0 * sampleAt xs n + s.b1 * sampleAt xs ((n : Int) - 1)
          + s.b2 * sampleAt xs ((n : Int) - 2)
          - s.a1 * sampleAt (processBuffer (initHist s) xs).2 ((n : Int) - 1)
          - s.a2 * sampleAt (processBuffer (initHist s) xs).2 ((n : Int) - 2)) / s.a0) ∧
    (processBuffer s xs).2.length = xs.length ∧
    (∀ n : Nat, n < xs.length →
      (s.y2 :: s.y1 :: (processBuffer s xs).2).getD (n + 2) 0 =
        (s.b0 * (s.x1 :: s.x0 :: xs).getD (n + 2) 0
          + s.b1 * (s.x1 :: s.x0 :: xs).getD (n + 1) 0
          + s.b2 * (s.x1 :: s.x0 :: xs).getD n 0
          - s.a1 * (s.y2 :: s.y1 :: (processBuffer s xs).2).getD (n + 1) 0
          - s.a2 * (s.y2 :: s.y1 :: (processBuffer s xs).2).getD n 0) / s.a0) ∧
    (processBuffer s xs).1 =
      { s with
        x0 := (s.x2 :: s.x1 :: s.x0 :: xs).getD (xs.length + 2) 0
        x1 := (s.x2 :: s.x1 :: s.x0 :: xs).getD (xs.length + 1) 0
        x2 := (s.x2 :: s.x1 :: s.x0 :: xs).getD xs.length 0
        y1 := (s.y2 :: s.y1 :: (processBuffer s xs).2).getD (xs.length + 1) 0
        y2 := (s.y2 :: s.y1 :: (processBuffer s xs).2).getD xs.length 0 } := by
  refine ⟨?_, processBuffer_length s xs, processBuffer_recurrence s xs,
    processBuffer_final_state s xs⟩
  intro n hn
  have key := processBuffer_recurrence (initHist s) xs n hn
  rw [sampleAt_natCast, sampleAt_sub_one, sampleAt_sub_two, sampleAt_sub_one, sampleAt_sub_two]
  simpa [initHist] using key

end Processing

section Coefficients

variable {α : Type} [LinearOrderedField α]

/-- C2: in band-pass mode (mode 0) `updateCoFs` leaves `b0 = alpha`, `b1 = 0`,
`b2 = -alpha`, `a0 = 1 + alpha`, `a1 = -2 cosW0`, `a2 = 1 - alpha`, for every
stored `alpha` and `cosW0`. -/
theorem updateCoFs_bandPass (s : Biquad α) (h : s.mode = 0) :
    (updateCoFs s).b0 = s.alpha ∧ (updateCoFs s).b1 = 0 ∧ (updateCoFs s).b2 = -s.alpha ∧
    (updateCoFs s).a0 = 1 + s.alpha ∧ (updateCoFs s).a1 = -2 * s.cosW0 ∧
    (updateCoFs s).a2 = 1 - s.alpha := by
  simp [updateCoFs, updateAs, h]

theorem updateCoFs_bandPass_witness :
    (sampleState 0 0 : Biquad ℚ).mode = 0 ∧
    (updateCoFs (sampleState 0 0 : Biquad ℚ)).b0 = (sampleState 0 0 : Biquad ℚ).alpha ∧
    (updateCoFs (sampleState 0 0 : Biquad ℚ)).b1 = 0 ∧
    (updateCoFs (sampleState 0 0 : Biquad ℚ)).b2 = -(sampleState 0 0 : Biquad ℚ).alpha ∧
    (updateCoFs (sampleState 0 0 : Biquad ℚ)).a0 = 1 + (sampleState 0 0 : Biquad ℚ).alpha ∧
    (updateCoFs (sampleState 0 0 : Biquad ℚ)).a1 = -2 * (sampleState 0 0 : Biquad ℚ).cosW0 ∧
    (updateCoFs (sampleState 0 0 : Biquad ℚ)).a2 = 1 - (sampleState 0 0 : Biquad ℚ).alpha :=
  ⟨rfl, updateCoFs_bandPass (sampleState 0 0) rfl⟩

/-- C3: in low-pass mode (mode 1) `updateCoFs` leaves `b1 = 1 - cosW0`,
`b0 = b2 = (1 - cosW0) / 2`, `a0 = 1 + alpha`, `a1 = -2 cosW0`,
`a2 = 1 - alpha`, for every stored `alpha` and `cosW0`. -/
theorem updateCoFs_lowPass (s : Biquad α) (h : s.mode = 1) :
    (updateCoFs s).b1 = 1 - s.cosW0 ∧ (updateCoFs s).b0 = (1 - s.cosW0) / 2 ∧
    (updateCoFs s).b2 = (1 - s.cosW0) / 2 ∧
    (updateCoFs s).a0 = 1 + s.alpha ∧ (updateCoFs s).a1 = -2 * s.cosW0 ∧
    (updateCoFs s).a2 = 1 - s.alpha := by
  simp [updateCoFs, updateAs, h]

theorem updateCoFs_lowPass_witness :
    (sampleState 1 0 : Biquad ℚ).mode = 1 ∧
    (updateCoFs (sampleState 1 0 : Biquad ℚ)).b1 = 1 - (sampleState 1 0 : Biquad ℚ).cosW0 ∧
    (updateCoFs (sampleState 1 0 : Biquad ℚ)).b0 = (1 - (sampleState 1 0 : Biquad ℚ).cosW0) / 2 ∧
    (updateCoFs (sampleState 1 0 : Biquad ℚ)).b2 = (1 - (sampleState 1 0 : Biquad ℚ).cosW0) / 2 ∧
    (updateCoFs (sampleState 1 0 : Biquad ℚ)).a0 = 1 + (sampleState 1 0 : Biquad ℚ).alpha ∧
    (updateCoFs (sampleState 1 0 : Biquad ℚ)).a1 = -2 * (sampleState 1 0 : Biquad ℚ).cosW0 ∧
    (updateCoFs (sampleState 1 0 : Biquad ℚ)).a2 = 1 - (sampleState 1 0 : Biquad ℚ).alpha :=
  ⟨rfl, updateCoFs_lowPass (sampleState 1 0) rfl⟩

/-- C4: in high-pass mode (mode 2) `updateCoFs` leaves `b1 = -(1 + cosW0)`,
`b0 = b2 = (1 + cosW0) / 2`, `a0 = 1 + alpha`, `a1 = -2 cosW0`,
`a2 = 1 - alpha`, for every stored `alpha` and `cosW0`. -/
theorem updateCoFs_highPass (s : Biquad α) (h : s.mode = 2) :
    (updateCoFs s).b1 = -(1 + s.cosW0) ∧ (updateCoFs s).b0 = (1 + s.cosW0) / 2 ∧
    (updateCoFs s).b2 = (1 + s.cosW0) / 2 ∧
    (updateCoFs s).a0 = 1 + s.alpha ∧ (updateCoFs s).a1 = -2 * s.cosW0 ∧
    (updateCoFs s).a2 = 1 - s.alpha := by
  simp [updateCoFs, updateAs, h]

theorem updateCoFs_highPass_witness :
    (sampleState 2 0 : Biquad ℚ).mode = 2 ∧
    (updateCoFs (sampleState 2 0 : Biquad ℚ)).b1 = -(1 + (sampleState 2 0 : Biquad ℚ).cosW0) ∧
    (updateCoFs (sampleState 2 0 : Biquad ℚ)).b0 = (1 + (sampleState 2 0 : Biquad ℚ).cosW0) / 2 ∧
    (updateCoFs (sampleState 2 0 : Biquad ℚ)).b2 = (1 + (sampleState 2 0 : Biquad ℚ).cosW0) / 2 ∧
    (updateCoFs (sampleState 2 0 : Biquad ℚ)).a0 = 1 + (sampleState 2 0 : Biquad ℚ).alpha ∧
    (updateCoFs (sampleState 2 0 : Biquad ℚ)).a1 = -2 * (sampleState 2 0 : Biquad ℚ).cosW0 ∧
    (updateCoFs (sampleState 2 0 : Biquad ℚ)).a2 = 1 - (sampleState 2 0 : Biquad ℚ).alpha :=
  ⟨rfl, updateCoFs_highPass (sampleState 2 0) rfl⟩

/-- C5: in notch mode (mode 3) `updateCoFs` leaves `b0 = 1`, `b1 = -2 cosW0`,
`b2 = 1`, `a0 = 1 + alpha`, `a1 = -2 cosW0`, `a2 = 1 - alpha`, for every stored
`alpha` and `cosW0` and whatever the previous coefficients were: falling
through from `case 3` into `case 4` does not overwrite `b0` or `b2`. -/
theorem updateCoFs_notch (s : Biquad α) (h : s.mode = 3) :
    (updateCoFs s).b0 = 1 ∧ (updateCoFs s).b1 = -2 * s.cosW0 ∧ (updateCoFs s).b2 = 1 ∧
    (updateCoFs s).a0 = 1 + s.alpha ∧ (updateCoFs s).a1 = -2 * s.cosW0 ∧
    (updateCoFs s).a2 = 1 - s.alpha := by
  simp [updateCoFs, updateCoFsCase4, updateAs, h]

theorem updateCoFs_notch_witness :
    (sampleState 3 0 : Biquad ℚ).mode = 3 ∧
    (updateCoFs (sampleState 3 0 : Biquad ℚ)).b0 = 1 ∧
    (updateCoFs (sampleState 3 0 : Biquad ℚ)).b1 = -2 * (sampleState 3 0 : Biquad ℚ).cosW0 ∧
    (updateCoFs (sampleState 3 0 : Biquad ℚ)).b2 = 1 ∧
    (updateCoFs (sampleState 3 0 : Biquad ℚ)).a0 = 1 + (sampleState 3 0 : Biquad ℚ).alpha ∧
    (updateCoFs (sampleState 3 0 : Biquad ℚ)).a1 = -2 * (sampleState 3 0 : Biquad ℚ).cosW0 ∧
    (updateCoFs (sampleState 3 0 : Biquad ℚ)).a2 = 1 - (sampleState 3 0 : Biquad ℚ).alpha :=
  ⟨rfl, updateCoFs_notch (sampleState 3 0) rfl⟩

/-- C6: in all-pass mode (mode 4) `updateCoFs` leaves `b0 = 1 - alpha`,
`b1 = -2 cosW0`, `b2 = 1 + alpha`, `a0 = 1 + alpha`, `a1 = -2 cosW0`,
`a2 = 1 - alpha`, for every stored `alpha` and `cosW0`; the numerator is the
denominator reversed (`b0 = a2`, `b1 = a1`, `b2 = a0`). -/
theorem updateCoFs_allPass (s : Biquad α) (h : s.mode = 4) :
    ((updateCoFs s).b0 = 1 - s.alpha ∧ (updateCoFs s).b1 = -2 * s.cosW0 ∧
      (updateCoFs s).b2 = 1 + s.alpha ∧
      (updateCoFs s).a0 = 1 + s.alpha ∧ (updateCoFs s).a1 = -2 * s.cosW0 ∧
      (updateCoFs s).a2 = 1 - s.alpha) ∧
    ((updateCoFs s).b0 = (updateCoFs s).a2 ∧ (updateCoFs s).b1 = (updateCoFs s).a1 ∧
      (updateCoFs s).b2 = (updateCoFs s).a0) := by
  simp [updateCoFs, updateCoFsCase4, updateAs, h]

theorem updateCoFs_allPass_witness :
    (sampleState 4 0 : Biquad ℚ).mode = 4 ∧
    ((updateCoFs (sampleState 4 0 : Biquad ℚ)).b0 = 1 - (sampleState 4 0 : Biquad ℚ).alpha ∧
      (updateCoFs (sampleState 4 0 : Biquad ℚ)).b1 = -2 * (sampleState 4 0 : Biquad ℚ).cosW0 ∧
      (updateCoFs (sampleState 4 0 : Biquad ℚ)).b2 = 1 + (sampleState 4 0 : Biquad ℚ).alpha ∧
      (updateCoFs (sampleState 4 0 : Biquad ℚ)).a0 = 1 + (sampleState 4 0 : Biquad ℚ).alpha ∧
      (updateCoFs (sampleState 4 0 : Biquad ℚ)).a1 = -2 * (sampleState 4 0 : Biquad ℚ).cosW0 ∧
      (updateCoFs (sampleState 4 0 : Biquad ℚ)).a2 = 1 - (sampleState 4 0 : Biquad ℚ).alpha) ∧
    ((updateCoFs (sampleState 4 0 : Biquad ℚ)).b0 = (updateCoFs (sampleState 4 0 : Biquad ℚ)).a2 ∧
      (updateCoFs (sampleState 4 0 : Biquad ℚ)).b1 = (updateCoFs (sampleState 4 0 : Biquad ℚ)).a1 ∧
      (updateCoFs (sampleState 4 0 : Biquad ℚ)).b2 = (updateCoFs (sampleState 4 0 : Biquad ℚ)).a0) :=
  ⟨rfl, updateCoFs_allPass (sampleState 4 0) rfl⟩


/-- C7: `updateAlpha` sets `alpha` (and nothing else) from the stored `sinW0`
and `omega0` according to `BWMode`: mode 1 gives
`sinW0 * sinh((LN2/2) * BW * omega0 / sinW0)`, mode 2 gives
`(sinW0/2) * sqrt((gain + 1/gain) * (1/slope - 1) + 2)`, every other mode gives
`sinW0 / (2 Q)`; and `setParamsSlope` on a shelving filter in slope mode leaves
`gain = pow(10, dBG/40)` with `dBG` the argument, and `alpha` given by the
mode-2 formula on the stored `sinW0`, `gain` and `slope`. -/
theorem updateAlpha_by_BWMode (lm : Libm α) (s : Biquad α) :
    (s.BWMode = 1 → updateAlpha lm s =
      { s with alpha := s.sinW0 * lm.sinh (LN2 / 2 * s.BW * s.omega0 / s.sinW0) }) ∧
    (s.BWMode = 2 → updateAlpha lm s =
      { s with alpha :=
          s.sinW0 / 2 * lm.sqrt ((s.gain + 1 / s.gain) * (1 / s.slope - 1) + 2) }) ∧
    (s.BWMode ≠ 1 → s.BWMode ≠ 2 → updateAlpha lm s =
      { s with alpha := s.sinW0 / (2 * s.Q) }) ∧
    (∀ fs f sl dbg : α, s.mode = 5 ∨ s.mode = 6 → s.BWMode = 2 →
      (setParamsSlope lm s fs f sl dbg).1.dBG = dbg ∧
      (setParamsSlope lm s fs f sl dbg).1.gain = lm.pow 10 (dbg / 40) ∧
      (setParamsSlope lm s fs f sl dbg).1.alpha =
        (setParamsSlope lm s fs f sl dbg).1.sinW0 / 2 *
          lm.sqrt (((setParamsSlope lm s fs f sl dbg).1.gain
              + 1 / (setParamsSlope lm s fs f sl dbg).1.gain)
            * (1 / (setParamsSlope lm s fs f sl dbg).1.slope - 1) + 2)) := by
  refine ⟨?_, ?_, ?_, ?_⟩
  · intro h
    simp [updateAlpha, h]
  · intro h
    simp [updateAlpha, h]
  · intro h1 h2
    unfold updateAlpha
    split
    · exact absurd (by assumption) h1
    · exact absurd (by assumption) h2
    · rfl
  · intro fs f sl dbg hm hb
    rcases hm with hm | hm <;>
      by_cases h1 : fs ≥ 0 <;> by_cases h2 : f ≥ 0 <;> by_cases h3 : sl ≥ 0 <;>
      simp [setParamsSlope, updateOmega, updateCosW0, updateSinW0, updateGain, updateAlpha,
        updateAlphaPrime, updateCoFs, updateCoFsShelf, hm, hb, h1, h2, h3]

end Coefficients

section RealShelf

open Real

/-- The angular frequency `2 * M_PI * fc / Fs` of a centre frequency strictly
between 0 and Nyquist lies strictly between 0 and `π`. -/
theorem omega_pos_lt_pi (Fs fc : ℝ) (hFs : 0 < Fs) (hfc : 0 < fc) (hny : fc < Fs / 2) :
    0 < 2 * M_PI * fc / Fs ∧ 2 * M_PI * fc / Fs < π := by
  have hM : (0 : ℝ) < M_PI := by unfold M_PI; norm_num
  have hMpi : (M_PI : ℝ) < π := by
    have := pi_gt_d20
    unfold M_PI
    norm_num at this ⊢
    linarith
  constructor
  · positivity
  · have h1 : 2 * M_PI * fc / Fs < M_PI := by
      rw [div_lt_iff₀ hFs]
      nlinarith
    linarith

/-- A filter whose numerator equals its denominator (`b = a`, `a0 ≠ 0`) and
whose stored input history equals its stored output history copies its input
buffer to its output. -/
theorem processBuffer_eq_input_of_b_eq_a {α : Type} [LinearOrderedField α] (s : Biquad α)
    (xs : List α) (h0 : s.b0 = s.a0) (h1 : s.b1 = s.a1) (h2 : s.b2 = s.a2) (ha : s.a0 ≠ 0)
    (hx0 : s.x0 = s.y1) (hx1 : s.x1 = s.y2) :
    (processBuffer s xs).2 = xs := by
  induction xs generalizing s with
  | nil => rfl
  | cons x rest ih =>
    have hy : generateOutputSample (updateXs s x) = x := by
      simp only [generateOutputSample, updateXs, h0, h1, h2, hx0, hx1]
      field_simp
      ring
    rw [processBuffer_cons, hy]
    have key := ih (updateYs (updateXs s x) x) (by simpa [updateYs, updateXs] using h0)
      (by simpa [updateYs, updateXs] using h1) (by simpa [updateYs, updateXs] using h2)
      (by simpa [updateYs, updateXs] using ha) (by simp [updateYs, updateXs])
      (by simpa [updateYs, updateXs] using hx0)
    rw [key]

/-- The values left by `setParamsSlope` on a low shelf (mode 5) at 0 dB, with
the real-analysis `sin`, `cos`, `sqrt` and `pow`. -/
theorem setParamsSlope_lowShelf_unity (lm : Libm ℝ) (hlm : IsRealLibm lm) (s t : Biquad ℝ)
    (Fs fc sl : ℝ) (hm : s.mode = 5) (hb : s.BWMode = 2) (hFs : 0 ≤ Fs) (hfc : 0 ≤ fc)
    (hsl : 0 ≤ sl) (ht : t = (setParamsSlope lm s Fs fc sl 0).1) :
    t.mode = 5 ∧ t.gain = 1 ∧ t.omega0 = 2 * M_PI * fc / Fs ∧
    t.sinW0 = Real.sin t.omega0 ∧ t.cosW0 = Real.cos t.omega0 ∧
    t.alpha = t.sinW0 / 2 * √(2 * (1 / sl - 1) + 2) ∧ t.alphaPrime = 2 * t.alpha ∧
    t.b0 = 2 + t.alphaPrime ∧ t.b1 = -4 * t.cosW0 ∧ t.b2 = 2 - t.alphaPrime ∧
    t.a0 = 2 + t.alphaPrime ∧ t.a1 = -4 * t.cosW0 ∧ t.a2 = 2 - t.alphaPrime := by
  subst ht
  unfold IsRealLibm at hlm
  subst hlm
  have hrad : (1 + 1 : ℝ) * (sl⁻¹ - 1) + 2 = 2 * (sl⁻¹ - 1) + 2 := by ring
  refine ⟨?_, ?_, ?_, ?_, ?_, ?_, ?_, ?_, ?_, ?_, ?_, ?_, ?_⟩ <;>
    simp [setParamsSlope, updateOmega, updateCosW0, updateSinW0, updateGain, updateAlpha,
        updateAlphaPrime, updateCoFs, updateCoFsShelf, hm, hb, hFs, hfc, hsl, hrad] <;>
    ring

/-- The values left by `setParamsSlope` on a high shelf (mode 6) at 0 dB, with
the real-analysis `sin`, `cos`, `sqrt` and `pow`. -/
theorem setParamsSlope_highShelf_unity (lm : Libm ℝ) (hlm : IsRealLibm lm) (s t : Biquad ℝ)
    (Fs fc sl : ℝ) (hm : s.mode = 6) (hb : s.BWMode = 2) (hFs : 0 ≤ Fs) (hfc : 0 ≤ fc)
    (hsl : 0 ≤ sl) (ht : t = (setParamsSlope lm s Fs fc sl 0).1) :
    t.mode = 6 ∧ t.gain = 1 ∧ t.omega0 = 2 * M_PI * fc / Fs ∧
    t.sinW0 = Real.sin t.omega0 ∧ t.cosW0 = Real.cos t.omega0 ∧
    t.alpha = t.sinW0 / 2 * √(2 * (1 / sl - 1) + 2) ∧ t.alphaPrime = 2 * t.alpha ∧
    t.b0 = 2 + t.alphaPrime ∧ t.b1 = -4 * t.cosW0 ∧ t.b2 = 2 - t.alphaPrime ∧
    t.a0 = 2 + t.alphaPrime ∧ t.a1 = 4 * t.cosW0 ∧ t.a2 = 2 - t.alphaPrime := by
  subst ht
  unfold IsRealLibm at hlm
  subst hlm
  have hrad : (1 + 1 : ℝ) * (sl⁻¹ - 1) + 2 = 2 * (sl⁻¹ - 1) + 2 := by ring
  refine ⟨?_, ?_, ?_, ?_, ?_, ?_, ?_, ?_, ?_, ?_, ?_, ?_, ?_⟩ <;>
    simp [setParamsSlope, updateOmega, updateCosW0, updateSinW0, updateGain, updateAlpha,
        updateAlphaPrime, updateCoFs, updateCoFsShelf, hm, hb, hFs, hfc, hsl, hrad] <;>
    ring

/-- With a centre frequency strictly between 0 and Nyquist and a positive
slope, a shelf configured at 0 dB has `alphaPrime ≥ 0`. -/
theorem alphaPrime_nonneg_of_unity (t : Biquad ℝ) (Fs fc sl : ℝ) (hFs : 0 < Fs) (hfc : 0 < fc)
    (hny : fc < Fs / 2) (hw : t.omega0 = 2 * M_PI * fc / Fs) (hs : t.sinW0 = Real.sin t.omega0)
    (hal : t.alpha = t.sinW0 / 2 * √(2 * (1 / sl - 1) + 2)) (hap : t.alphaPrime = 2 * t.alpha) :
    0 ≤ t.alphaPrime := by
  obtain ⟨h0, hpi⟩ := omega_pos_lt_pi Fs fc hFs hfc hny
  have hsin : 0 < t.sinW0 := by
    rw [hs, hw]
    exact Real.sin_pos_of_pos_of_lt_pi h0 hpi
  rw [hap, hal]
  have := Real.sqrt_nonneg (2 * (1 / sl - 1) + 2)
  positivity

/-- The two outputs of a filter with zeroed history for the input `(1, 0)`. -/
theorem processBuffer_impulse_two {α : Type} [LinearOrderedField α] (s : Biquad α) :
    (processBuffer (initHist s) [1, 0]).2 =
      [s.b0 / s.a0, (s.b1 - s.a1 * (s.b0 / s.a0)) / s.a0] := by
  simp [processBuffer, initHist, updateXs, updateYs, generateOutputSample]

/-- C8 (as stated, refuted): a low shelf in slope mode configured by
`setParamsSlope(8, 1, 1, 0)` has `b0/a0 = 1` but `b1/a0 ≠ 0` and `b2/a0 ≠ 0`. -/
theorem shelf_unity_b1_b2_not_zero :
    (setParamsSlope (Libm.mk Real.sin Real.cos Real.sinh Real.sqrt Real.rpow)
        (sampleState 5 2) 8 1 1 0).1.b0 /
      (setParamsSlope (Libm.mk Real.sin Real.cos Real.sinh Real.sqrt Real.rpow)
        (sampleState 5 2) 8 1 1 0).1.a0 = 1 ∧
    (setParamsSlope (Libm.mk Real.sin Real.cos Real.sinh Real.sqrt Real.rpow)
        (sampleState 5 2) 8 1 1 0).1.b1 /
      (setParamsSlope (Libm.mk Real.sin Real.cos Real.sinh Real.sqrt Real.rpow)
        (sampleState 5 2) 8 1 1 0).1.a0 ≠ 0 ∧
    (setParamsSlope (Libm.mk Real.sin Real.cos Real.sinh Real.sqrt Real.rpow)
        (sampleState 5 2) 8 1 1 0).1.b2 /
      (setParamsSlope (Libm.mk Real.sin Real.cos Real.sinh Real.sqrt Real.rpow)
        (sampleState 5 2) 8 1 1 0).1.a0 ≠ 0 := by
  obtain ⟨-, -, hw, hs, hc, hal, hap, hb0, hb1, hb2, ha0, -, -⟩ :=
    setParamsSlope_lowShelf_unity _ rfl (sampleState 5 2) _ 8 1 1 rfl rfl
      (by norm_num) (by norm_num) (by norm_num) rfl
  generalize (setParamsSlope (Libm.mk Real.sin Real.cos Real.sinh Real.sqrt Real.rpow)
        (sampleState 5 2) 8 1 1 0).1 = t at *
  obtain ⟨h0, hpi⟩ := omega_pos_lt_pi 8 1 (by norm_num) (by norm_num) (by norm_num)
  have hap0 : 0 ≤ t.alphaPrime :=
    alphaPrime_nonneg_of_unity t 8 1 1 (by norm_num) (by norm_num) (by norm_num) hw hs hal hap
  have ha0pos : 0 < t.a0 := by rw [ha0]; linarith
  have hcos : 0 < t.cosW0 := by
    rw [hc, hw]
    apply Real.cos_pos_of_mem_Ioo
    have hM : (M_PI : ℝ) = 3.14159265358 := rfl
    have := Real.pi_gt_three
    constructor
    · linarith
    · rw [hM]; norm_num; linarith
  have hsin1 : t.sinW0 ≤ 1 := by rw [hs]; exact Real.sin_le_one _
  have hsqrt2 : √(2 * (1 / 1 - 1) + 2) < 2 := by
    rw [Real.sqrt_lt' (by norm_num)]; norm_num
  have hsqrt0 : 0 ≤ √(2 * (1 / (1 : ℝ) - 1) + 2) := Real.sqrt_nonneg _
  have hb2pos : 0 < t.b2 := by
    rw [hb2, hap, hal]
    nlinarith
  refine ⟨?_, ?_, ?_⟩
  · rw [hb0, ha0]
    exact div_self (by linarith)
  · rw [hb1]
    exact div_ne_zero (by linarith) ha0pos.ne'
  · exact div_ne_zero hb2pos.ne' ha0pos.ne'

/-- C8 (amended): for a low or high shelf in slope mode configured by
`setParamsSlope` with `Fs > 0`, `0 < fc < Fs/2`, `slope > 0` and `dBG = 0`,
`a0` is nonzero, `b0/a0 = 1` and `b2/a0 = a2/a0`; for the low shelf (mode 5)
also `b1/a0 = a1/a0`. -/
theorem shelf_unity_coefficient_ratios (lm : Libm ℝ) (hlm : IsRealLibm lm) (s : Biquad ℝ)
    (Fs fc sl : ℝ) (hm : s.mode = 5 ∨ s.mode = 6) (hb : s.BWMode = 2) (hFs : 0 < Fs)
    (hfc : 0 < fc) (hny : fc < Fs / 2) (hsl : 0 < sl) :
    (setParamsSlope lm s Fs fc sl 0).1.a0 ≠ 0 ∧
    (setParamsSlope lm s Fs fc sl 0).1.b0 / (setParamsSlope lm s Fs fc sl 0).1.a0 = 1 ∧
    (setParamsSlope lm s Fs fc sl 0).1.b2 / (setParamsSlope lm s Fs fc sl 0).1.a0 =
      (setParamsSlope lm s Fs fc sl 0).1.a2 / (setParamsSlope lm s Fs fc sl 0).1.a0 ∧
    (s.mode = 5 →
      (setParamsSlope lm s Fs fc sl 0).1.b1 / (setParamsSlope lm s Fs fc sl 0).1.a0 =
        (setParamsSlope lm s Fs fc sl 0).1.a1 / (setParamsSlope lm s Fs fc sl 0).1.a0) := by
  have key : ∀ t : Biquad ℝ, t = (setParamsSlope lm s Fs fc sl 0).1 →
      0 < t.a0 ∧ t.b0 = t.a0 ∧ t.b2 = t.a2 ∧ (s.mode = 5 → t.b1 = t.a1) := by
    intro t ht
    rcases hm with hm | hm
    · obtain ⟨-, -, hw, hs, -, hal, hap, hb0, hb1, hb2, ha0, ha1, ha2⟩ :=
        setParamsSlope_lowShelf_unity lm hlm s t Fs fc sl hm hb hFs.le hfc.le hsl.le ht
      have := alphaPrime_nonneg_of_unity t Fs fc sl hFs hfc hny hw hs hal hap
      exact ⟨by rw [ha0]; linarith, by rw [hb0, ha0], by rw [hb2, ha2], fun _ => by rw [hb1, ha1]⟩
    · obtain ⟨-, -, hw, hs, -, hal, hap, hb0, -, hb2, ha0, -, ha2⟩ :=
        setParamsSlope_highShelf_unity lm hlm s t Fs fc sl hm hb hFs.le hfc.le hsl.le ht
      have := alphaPrime_nonneg_of_unity t Fs fc sl hFs hfc hny hw hs hal hap
      exact ⟨by rw [ha0]; linarith, by rw [hb0, ha0], by rw [hb2, ha2],
        fun h5 => absurd (h5.symm.trans hm) (by decide)⟩
  obtain ⟨hpos, h0, h2, h1⟩ := key _ rfl
  refine ⟨hpos.ne', ?_, ?_, ?_⟩
  · rw [h0]; exact div_self hpos.ne'
  · rw [h2]
  · intro h5; rw [h1 h5]

theorem shelf_unity_coefficient_ratios_witness :
    IsRealLibm (Libm.mk Real.sin Real.cos Real.sinh Real.sqrt Real.rpow) ∧
    ((sampleState 6 2 : Biquad ℝ).mode = 5 ∨ (sampleState 6 2 : Biquad ℝ).mode = 6) ∧
    (sampleState 6 2 : Biquad ℝ).BWMode = 2 ∧
    (0 : ℝ) < 8 ∧ (0 : ℝ) < 1 ∧ (1 : ℝ) < 8 / 2 ∧ (0 : ℝ) < 3 ∧
    (setParamsSlope (Libm.mk Real.sin Real.cos Real.sinh Real.sqrt Real.rpow)
        (sampleState 6 2) 8 1 3 0).1.b0 /
      (setParamsSlope (Libm.mk Real.sin Real.cos Real.sinh Real.sqrt Real.rpow)
        (sampleState 6 2) 8 1 3 0).1.a0 = 1 :=
  ⟨rfl, Or.inr rfl, rfl, by norm_num, by norm_num, by norm_num, by norm_num,
    (shelf_unity_coefficient_ratios _ rfl (sampleState 6 2) 8 1 3 (Or.inr rfl) rfl
      (by norm_num) (by norm_num) (by norm_num) (by norm_num)).2.1⟩

/-- C9: a low shelf (mode 5) in slope mode configured by `setParamsSlope` with
`dBG = 0`, any `slope > 0`, `Fs > 0` and `0 < fc < Fs/2` has `gain = 1`, its
derived numerator equals its derived denominator (`b0 = a0`, `b1 = a1`,
`b2 = a2`) with `a0` nonzero, and from zeroed history `processBuffer` returns
every input buffer unchanged. -/
theorem lowShelf_unity_is_identity (lm : Libm ℝ) (hlm : IsRealLibm lm) (s : Biquad ℝ)
    (Fs fc sl : ℝ) (hm : s.mode = 5) (hb : s.BWMode = 2) (hFs : 0 < Fs)
    (hfc : 0 < fc) (hny : fc < Fs / 2) (hsl : 0 < sl) :
    (setParamsSlope lm s Fs fc sl 0).1.gain = 1 ∧
    (setParamsSlope lm s Fs fc sl 0).1.b0 = (setParamsSlope lm s Fs fc sl 0).1.a0 ∧
    (setParamsSlope lm s Fs fc sl 0).1.b1 = (setParamsSlope lm s Fs fc sl 0).1.a1 ∧
    (setParamsSlope lm s Fs fc sl 0).1.b2 = (setParamsSlope lm s Fs fc sl 0).1.a2 ∧
    (setParamsSlope lm s Fs fc sl 0).1.a0 ≠ 0 ∧
    ∀ xs : List ℝ, (processBuffer (initHist (setParamsSlope lm s Fs fc sl 0).1) xs).2 = xs := by
  obtain ⟨-, hg, hw, hs, -, hal, hap, hb0, hb1, hb2, ha0, ha1, ha2⟩ :=
    setParamsSlope_lowShelf_unity lm hlm s _ Fs fc sl hm hb hFs.le hfc.le hsl.le rfl
  generalize (setParamsSlope lm s Fs fc sl 0).1 = t at *
  have hap0 := alphaPrime_nonneg_of_unity t Fs fc sl hFs hfc hny hw hs hal hap
  have hne : t.a0 ≠ 0 := by rw [ha0]; linarith
  refine ⟨hg, by rw [hb0, ha0], by rw [hb1, ha1], by rw [hb2, ha2], hne, fun xs => ?_⟩
  apply processBuffer_eq_input_of_b_eq_a
  · show t.b0 = t.a0
    rw [hb0, ha0]
  · show t.b1 = t.a1
    rw [hb1, ha1]
  · show t.b2 = t.a2
    rw [hb2, ha2]
  · exact hne
  · rfl
  · rfl

theorem lowShelf_unity_is_identity_witness :
    IsRealLibm (Libm.mk Real.sin Real.cos Real.sinh Real.sqrt Real.rpow) ∧
    (sampleState 5 2 : Biquad ℝ).mode = 5 ∧ (sampleState 5 2 : Biquad ℝ).BWMode = 2 ∧
    (0 : ℝ) < 8 ∧ (0 : ℝ) < 1 ∧ (1 : ℝ) < 8 / 2 ∧ (0 : ℝ) < 3 ∧
    (processBuffer (initHist (setParamsSlope
        (Libm.mk Real.sin Real.cos Real.sinh Real.sqrt Real.rpow)
        (sampleState 5 2) 8 1 3 0).1) [1, -2, 5]).2 = [1, -2, 5] :=
  ⟨rfl, rfl, rfl, by norm_num, by norm_num, by norm_num, by norm_num,
    (lowShelf_unity_is_identity _ rfl (sampleState 5 2) 8 1 3 rfl rfl
      (by norm_num) (by norm_num) (by norm_num) (by norm_num)).2.2.2.2.2 [1, -2, 5]⟩

/-- C10 (the code at the failing input): a high shelf (mode 6) in slope mode
configured by `setParamsSlope(8, 1, 1, 0)` has `b0 = a0` and `b2 = a2` but
`a1 = -b1` with `b1 ≠ 0`, so `b1 ≠ a1`, and from zeroed history `processBuffer`
does not return the input `(1, 0)` unchanged. -/
theorem highShelf_unity_not_identity :
    (setParamsSlope (Libm.mk Real.sin Real.cos Real.sinh Real.sqrt Real.rpow)
        (sampleState 6 2) 8 1 1 0).1.a1 =
      -(setParamsSlope (Libm.mk Real.sin Real.cos Real.sinh Real.sqrt Real.rpow)
        (sampleState 6 2) 8 1 1 0).1.b1 ∧
    (setParamsSlope (Libm.mk Real.sin Real.cos Real.sinh Real.sqrt Real.rpow)
        (sampleState 6 2) 8 1 1 0).1.b1 ≠
      (setParamsSlope (Libm.mk Real.sin Real.cos Real.sinh Real.sqrt Real.rpow)
        (sampleState 6 2) 8 1 1 0).1.a1 ∧
    (processBuffer (initHist (setParamsSlope
        (Libm.mk Real.sin Real.cos Real.sinh Real.sqrt Real.rpow)
        (sampleState 6 2) 8 1 1 0).1) [1, 0]).2 ≠ [1, 0] := by
  obtain ⟨-, -, hw, hs, hc, hal, hap, hb0, hb1, -, ha0, ha1, -⟩ :=
    setParamsSlope_highShelf_unity _ rfl (sampleState 6 2) _ 8 1 1 rfl rfl
      (by norm_num) (by norm_num) (by norm_num) rfl
  rw [processBuffer_impulse_two]
  generalize (setParamsSlope (Libm.mk Real.sin Real.cos Real.sinh Real.sqrt Real.rpow)
        (sampleState 6 2) 8 1 1 0).1 = t at *
  obtain ⟨h0, hpi⟩ := omega_pos_lt_pi 8 1 (by norm_num) (by norm_num) (by norm_num)
  have hap0 : 0 ≤ t.alphaPrime :=
    alphaPrime_nonneg_of_unity t 8 1 1 (by norm_num) (by norm_num) (by norm_num) hw hs hal hap
  have ha0pos : 0 < t.a0 := by rw [ha0]; linarith
  have hcos : 0 < t.cosW0 := by
    rw [hc, hw]
    apply Real.cos_pos_of_mem_Ioo
    have hM : (M_PI : ℝ) = 3.14159265358 := rfl
    have := Real.pi_gt_three
    constructor
    · linarith
    · rw [hM]; norm_num; linarith
  refine ⟨by rw [ha1, hb1]; ring, by rw [ha1, hb1]; intro h; linarith, ?_⟩
  intro h
  have h2 : (t.b1 - t.a1 * (t.b0 / t.a0)) / t.a0 = 0 := by
    simpa using (List.cons.inj (List.cons.inj h).2).1
  have hb0a0 : t.b0 / t.a0 = 1 := by rw [hb0, ha0]; exact div_self (by linarith)
  rw [hb0a0, div_eq_zero_iff] at h2
  rcases h2 with h2 | h2
  · rw [ha1, hb1] at h2; linarith
  · exact ha0pos.ne' h2

end RealShelf

section Buffers

variable {α : Type} [LinearOrderedField α]

theorem processBuffer_append (s : Biquad α) (xs ys : List α) :
    processBuffer s (xs ++ ys) =
      ((processBuffer (processBuffer s xs).1 ys).1,
        (processBuffer s xs).2 ++ (processBuffer (processBuffer s xs).1 ys).2) := by
  induction xs generalizing s with
  | nil => rfl
  | cons x rest ih =>
    rw [List.cons_append, processBuffer_cons, processBuffer_cons, ih]
    rfl

theorem processOneByOne_eq (s : Biquad α) (xs : List α) :
    processOneByOne s xs = processBuffer s xs := by
  induction xs generalizing s with
  | nil => rfl
  | cons x rest ih =>
    have h := processBuffer_append s [x] rest
    rw [List.singleton_append] at h
    rw [h]
    simp only [processOneByOne, ih]

/-- C11: for every state and all buffers `xs`, `ys`, `processBuffer` on
`xs ++ ys` writes the outputs of `processBuffer` on `xs` followed by the outputs
of `processBuffer` on `ys` run from the state the first call left, and ends in
the same state; in particular a buffer of `N` samples gives the same outputs
and final state as `N` one-sample calls made in order. -/
theorem processBuffer_concat_and_one_by_one (s : Biquad α) (xs ys : List α) :
    (processBuffer s (xs ++ ys)).2 =
      (processBuffer s xs).2 ++ (processBuffer (processBuffer s xs).1 ys).2 ∧
    (processBuffer s (xs ++ ys)).1 = (processBuffer (processBuffer s xs).1 ys).1 ∧
    processOneByOne s xs = processBuffer s xs := by
  rw [processBuffer_append]
  exact ⟨rfl, rfl, processOneByOne_eq s xs⟩

/-- C15: `initHist` sets `x0`, `x1`, `x2`, `y1`, `y2` to 0 and leaves `mode`,
`BWMode`, `Fs`, `fc`, `Q`, `BW`, `slope`, `dBG`, `gain`, `omega0`, `cosW0`,
`sinW0`, `alpha`, `alphaPrime` and the six coefficients unchanged. -/
theorem initHist_zeroes_only_history (s : Biquad α) :
    ((initHist s).x0 = 0 ∧ (initHist s).x1 = 0 ∧ (initHist s).x2 = 0 ∧
      (initHist s).y1 = 0 ∧ (initHist s).y2 = 0) ∧
    ((initHist s).mode = s.mode ∧ (initHist s).BWMode = s.BWMode ∧
      (initHist s).Fs = s.Fs ∧ (initHist s).fc = s.fc ∧ (initHist s).Q = s.Q ∧
      (initHist s).BW = s.BW ∧ (initHist s).slope = s.slope ∧ (initHist s).dBG = s.dBG ∧
      (initHist s).gain = s.gain ∧ (initHist s).omega0 = s.omega0 ∧
      (initHist s).cosW0 = s.cosW0 ∧ (initHist s).sinW0 = s.sinW0 ∧
      (initHist s).alpha = s.alpha ∧ (initHist s).alphaPrime = s.alphaPrime) ∧
    ((initHist s).b0 = s.b0 ∧ (initHist s).b1 = s.b1 ∧ (initHist s).b2 = s.b2 ∧
      (initHist s).a0 = s.a0 ∧ (initHist s).a1 = s.a1 ∧ (initHist s).a2 = s.a2) := by
  simp [initHist]

theorem processBuffer_zeros (s : Biquad α) (n : Nat) (hx0 : s.x0 = 0) (hx1 : s.x1 = 0)
    (hy1 : s.y1 = 0) (hy2 : s.y2 = 0) :
    (processBuffer s (List.replicate n 0)).2 = List.replicate n 0 ∧
    (processBuffer s (List.replicate n 0)).1 = (if n = 0 then s else { s with x2 := 0 }) := by
  induction n generalizing s with
  | zero => exact ⟨rfl, rfl⟩
  | succ k ih =>
    have hy : generateOutputSample (updateXs s 0) = 0 := by
      simp [generateOutputSample, updateXs, hx0, hx1, hy1, hy2]
    rw [List.replicate_succ, processBuffer_cons, hy]
    obtain ⟨h1, h2⟩ := ih (updateYs (updateXs s 0) 0) (by simp [updateYs, updateXs])
      (by simpa [updateYs, updateXs] using hx0) (by simp [updateYs, updateXs])
      (by simpa [updateYs, updateXs] using hy1)
    refine ⟨by rw [h1], ?_⟩
    rw [h2]
    cases k with
    | zero => simp [updateYs, updateXs, hx0, hx1, hy1, hy2]
    | succ j => simp [updateYs, updateXs, hx0, hx1, hy1, hy2]

end Buffers

section Setters

variable {α : Type} [LinearOrderedField α]

/-- C14: for every state and every `f ≥ 0`, `setFc(f, false)` returns true, sets
`fc` to `f` and changes nothing else (`omega0`, `cosW0`, `sinW0`, `alpha`,
`alphaPrime`, `gain`, the six coefficients, the other parameters and the
history keep their values). -/
theorem setFc_deferred_sets_only_fc (lm : Libm α) (s : Biquad α) (f : α) (hf : 0 ≤ f) :
    setFc lm s f false = ({ s with fc := f }, true) := by
  simp [setFc, hf]

theorem setFc_deferred_sets_only_fc_witness :
    (0 : ℝ) ≤ 3 ∧
    setFc (Libm.mk Real.sin Real.cos Real.sinh Real.sqrt Real.rpow) (sampleState 0 1 : Biquad ℝ) 3 false =
      ({ (sampleState 0 1 : Biquad ℝ) with fc := 3 }, true) :=
  ⟨by norm_num, setFc_deferred_sets_only_fc _ (sampleState 0 1) 3 (by norm_num)⟩

/-- C17 (as stated, refuted): `setQ(0, false)` returns true and stores `Q = 0`
in a filter whose `Q` was `1/2`. -/
theorem setQ_zero_accepted :
    (setQ (Libm.mk Real.sin Real.cos Real.sinh Real.sqrt Real.rpow) (sampleState 0 0 : Biquad ℝ) 0 false).2 = true ∧
    (setQ (Libm.mk Real.sin Real.cos Real.sinh Real.sqrt Real.rpow) (sampleState 0 0 : Biquad ℝ) 0 false).1.Q = 0 ∧
    (sampleState 0 0 : Biquad ℝ).Q ≠ 0 := by
  norm_num [setQ, sampleState]

/-- C17 (amended): a negative `Q` is rejected without mutation: for every state,
every `q < 0` and either value of `updateDeps`, `setQ(q, updateDeps)` returns
false and leaves the whole filter (so `Q`, `alpha` and all six coefficients)
unchanged. -/
theorem setQ_negative_rejected (lm : Libm α) (s : Biquad α) (q : α) (updateDeps : Bool)
    (hq : q < 0) :
    setQ lm s q updateDeps = (s, false) := by
  simp [setQ, hq]

theorem setQ_negative_rejected_witness :
    (-1 : ℝ) < 0 ∧
    setQ (Libm.mk Real.sin Real.cos Real.sinh Real.sqrt Real.rpow) (sampleState 0 0 : Biquad ℝ) (-1) true =
      (sampleState 0 0, false) :=
  ⟨by norm_num, setQ_negative_rejected _ (sampleState 0 0) (-1) true (by norm_num)⟩

/-- C18 (as stated, refuted): on a filter with `Fs = 8` and `fc = 1`,
`setFc(4, false)` (a frequency equal to Nyquist) returns true and stores
`fc = 4`. -/
theorem setFc_nyquist_accepted :
    (0 : ℝ) < (sampleState 0 0 : Biquad ℝ).Fs ∧
    (4 : ℝ) ≥ (sampleState 0 0 : Biquad ℝ).Fs / 2 ∧
    (setFc (Libm.mk Real.sin Real.cos Real.sinh Real.sqrt Real.rpow) (sampleState 0 0 : Biquad ℝ) 4 false).2 = true ∧
    (setFc (Libm.mk Real.sin Real.cos Real.sinh Real.sqrt Real.rpow) (sampleState 0 0 : Biquad ℝ) 4 false).1.fc = 4 ∧
    (sampleState 0 0 : Biquad ℝ).fc ≠ 4 := by
  norm_num [setFc, sampleState]

/-- C18 (amended): a negative centre frequency is rejected without mutation: for
every state, every `f < 0` and either value of `updateDeps`,
`setFc(f, updateDeps)` returns false and leaves the whole filter (so `fc`,
`omega0` and all six coefficients) unchanged; a frequency at or above Nyquist
(`Fs > 0`, `f ≥ Fs/2`) is not rejected: `setFc` returns true and stores
`fc = f`. -/
theorem setFc_rejects_only_negative (lm : Libm α) (s : Biquad α) (f : α) (updateDeps : Bool) :
    (f < 0 → setFc lm s f updateDeps = (s, false)) ∧
    (0 < s.Fs → f ≥ s.Fs / 2 →
      (setFc lm s f updateDeps).2 = true ∧ (setFc lm s f updateDeps).1.fc = f) := by
  constructor
  · intro hf
    simp [setFc, not_le.mpr hf]
  · intro hFs hny
    have hf : 0 ≤ f := le_trans (by positivity) hny
    have hfr : ∀ t : Biquad α, (updateCoFs t).fc = t.fc := by
      intro t
      simp only [updateCoFs, updateAs, updateCoFsCase4, updateCoFsShelf]
      repeat' split
      all_goals rfl
    cases updateDeps
    · simp [setFc, hf]
    · simp only [setFc, hf, ge_iff_le, if_true]
      refine ⟨trivial, ?_⟩
      rw [hfr]
      simp only [updateAlpha, updateAlphaPrime, updateCosW0, updateSinW0, updateOmega]
      repeat' split
      all_goals rfl

end Setters

section Consistency

variable {α : Type} [LinearOrderedField α]

theorem updateOmega_closed (lm : Libm α) (s : Biquad α) :
    updateOmega lm s true =
      { s with omega0 := 2 * M_PI * s.fc / s.Fs, cosW0 := lm.cos (2 * M_PI * s.fc / s.Fs),
               sinW0 := lm.sin (2 * M_PI * s.fc / s.Fs) } := rfl

theorem updateGain_closed (lm : Libm α) (s : Biquad α) :
    (updateGain lm s).1 =
      { s with gain := if s.mode = 5 ∨ s.mode = 6 then lm.pow 10 (s.dBG / 40) else s.gain } := by
  unfold updateGain
  split <;> rfl

theorem updateAlphaPrime_closed (lm : Libm α) (s : Biquad α) :
    (updateAlphaPrime lm s).1 =
      { s with alphaPrime :=
          if s.mode = 5 ∨ s.mode = 6 then 2 * lm.sqrt s.gain * s.alpha else s.alphaPrime } := by
  unfold updateAlphaPrime
  split <;> rfl

theorem updateAlpha_closed (lm : Libm α) (s : Biquad α) :
    updateAlpha lm s =
      { s with alpha :=
          if s.BWMode = 1 then s.sinW0 * lm.sinh (LN2 / 2 * s.BW * s.omega0 / s.sinW0)
          else if s.BWMode = 2 then
            s.sinW0 / 2 * lm.sqrt ((s.gain + 1 / s.gain) * (1 / s.slope - 1) + 2)
          else s.sinW0 / (2 * s.Q) } := by
  unfold updateAlpha
  split
  · next h => simp [h]
  · next h => simp [h]
  · next h1 h2 => rw [if_neg (fun h => h1 h), if_neg (fun h => h2 h)]

theorem updateCoFs_closed (s : Biquad α) :
    updateCoFs s =
      { s with
        a0 := if s.mode = 5 then (s.gain + 1) + (s.gain - 1) * s.cosW0 + s.alphaPrime
              else if s.mode = 6 then (s.gain + 1) - (s.gain - 1) * s.cosW0 + s.alphaPrime
              else 1 + s.alpha
        a1 := if s.mode = 5 then -2 * ((s.gain - 1) + (s.gain + 1) * s.cosW0)
              else if s.mode = 6 then -2 * ((s.gain - 1) - (s.gain + 1) * s.cosW0)
              else -2 * s.cosW0
        a2 := if s.mode = 5 then (s.gain + 1) + (s.gain - 1) * s.cosW0 - s.alphaPrime
              else if s.mode = 6 then (s.gain + 1) - (s.gain - 1) * s.cosW0 - s.alphaPrime
              else 1 - s.alpha
        b0 := if s.mode = 1 then (1 - s.cosW0) / 2
              else if s.mode = 2 then (1 + s.cosW0) / 2
              else if s.mode = 3 then 1
              else if s.mode = 4 then 1 - s.alpha
              else if s.mode = 5 then
                s.gain * ((s.gain + 1) - (s.gain - 1) * s.cosW0 + s.alphaPrime)
              else if s.mode = 6 then
                s.gain * ((s.gain + 1) + (s.gain - 1) * s.cosW0 + s.alphaPrime)
              else s.alpha
        b1 := if s.mode = 1 then 1 - s.cosW0
              else if s.mode = 2 then (1 + s.cosW0) * -1
              else if s.mode = 3 then -2 * s.cosW0
              else if s.mode = 4 then -2 * s.cosW0
              else if s.mode = 5 then 2 * s.gain * ((s.gain - 1) - (s.gain + 1) * s.cosW0)
              else if s.mode = 6 then -2 * s.gain * ((s.gain - 1) + (s.gain + 1) * s.cosW0)
              else 0
        b2 := if s.mode = 1 then (1 - s.cosW0) / 2
              else if s.mode = 2 then (1 + s.cosW0) / 2
              else if s.mode = 3 then 1
              else if s.mode = 4 then 1 + s.alpha
              else if s.mode = 5 then
                s.gain * ((s.gain + 1) - (s.gain - 1) * s.cosW0 - s.alphaPrime)
              else if s.mode = 6 then
                s.gain * ((s.gain + 1) + (s.gain - 1) * s.cosW0 - s.alphaPrime)
              else -1 * s.alpha } := by
  obtain ⟨mode, Fs, fc, BWMode, Q, BW, slope, alpha, alphaPrime, dBG, gain, omega0, cosW0,
    sinW0, b0, b1, b2, a0, a1, a2, x0, x1, x2, y1, y2⟩ := s
  rcases mode with _ | _ | _ | _ | _ | _ | _ | m <;>
    simp [updateCoFs, updateAs, updateCoFsCase4, updateCoFsShelf]


/-- Re-deriving `omega0`, the trigonometric values, `alpha`, `alphaPrime` (in
slope mode on a shelf) and the coefficients, as `setFs` and `setFc` do with
`updateDeps = true`, gives a consistent state when `gain` is up to date and the
filter is not a shelf outside slope mode. -/
theorem consistent_after_omega_cascade (lm : Libm α) (u : Biquad α)
    (hG : (updateGain lm u).1 = u)
    (hm : ¬((u.mode = 5 ∨ u.mode = 6) ∧ u.BWMode ≠ 2)) :
    Consistent lm (updateCoFs
      (if (updateAlpha lm (updateCosW0 lm (updateSinW0 lm (updateOmega lm u true)))).BWMode = 2 ∧
          ((updateAlpha lm (updateCosW0 lm (updateSinW0 lm (updateOmega lm u true)))).mode = 5 ∨
           (updateAlpha lm (updateCosW0 lm (updateSinW0 lm (updateOmega lm u true)))).mode = 6)
        then (updateAlphaPrime lm
          (updateAlpha lm (updateCosW0 lm (updateSinW0 lm (updateOmega lm u true))))).1
        else updateAlpha lm (updateCosW0 lm (updateSinW0 lm (updateOmega lm u true))))) := by
  obtain ⟨mode, Fs, fc, BWMode, Q, BW, slope, alpha, alphaPrime, dBG, gain, omega0, cosW0,
    sinW0, b0, b1, b2, a0, a1, a2, x0, x1, x2, y1, y2⟩ := u
  simp only [updateGain_closed, Biquad.mk.injEq, true_and, and_true] at hG
  simp only [not_and, not_not] at hm
  by_cases hsh : mode = 5 ∨ mode = 6
  · have hb : BWMode = 2 := hm hsh
    subst hb
    simp only [hsh, if_true] at hG
    simp only [updateSinW0, updateCosW0, Consistent,
      updateOmega_closed, updateGain_closed, updateAlpha_closed,
      updateAlphaPrime_closed, updateCoFs_closed, Biquad.mk.injEq, true_and, and_true,
      hsh, if_true, hG]
  · simp only [updateSinW0, updateCosW0, Consistent,
      updateOmega_closed, updateGain_closed, updateAlpha_closed,
      updateAlphaPrime_closed, updateCoFs_closed, Biquad.mk.injEq, true_and, and_true,
      hsh, if_false, and_false]

/-- Re-deriving `alpha` and the coefficients, as `setQ` and `setBW` do with
`updateDeps = true`, gives a consistent state when `omega0`, the trigonometric
values and `gain` are up to date and, on a shelf, `alphaPrime` matches the new
`alpha`. -/
theorem consistent_after_alpha (lm : Libm α) (u : Biquad α)
    (hO : updateOmega lm u true = u) (hG : (updateGain lm u).1 = u)
    (hP : u.mode = 5 ∨ u.mode = 6 →
      u.alphaPrime = 2 * lm.sqrt u.gain * (updateAlpha lm u).alpha) :
    Consistent lm (updateCoFs (updateAlpha lm u)) := by
  obtain ⟨mode, Fs, fc, BWMode, Q, BW, slope, alpha, alphaPrime, dBG, gain, omega0, cosW0,
    sinW0, b0, b1, b2, a0, a1, a2, x0, x1, x2, y1, y2⟩ := u
  simp only [updateOmega_closed, updateGain_closed, updateAlpha_closed, Biquad.mk.injEq,
    true_and, and_true] at hO hG hP
  obtain ⟨hO1, hO2, hO3⟩ := hO
  subst hO1 hO2 hO3
  by_cases hsh : mode = 5 ∨ mode = 6
  · have hP2 := (hP hsh).symm
    simp only [hsh, if_true] at hG
    simp only [Consistent, updateOmega_closed, updateGain_closed, updateAlpha_closed,
      updateAlphaPrime_closed, updateCoFs_closed, Biquad.mk.injEq, true_and, and_true,
      hsh, if_true, hG, hP2]
  · simp only [Consistent, updateOmega_closed, updateGain_closed, updateAlpha_closed,
      updateAlphaPrime_closed, updateCoFs_closed, Biquad.mk.injEq, true_and, and_true,
      hsh, if_false]

/-- Re-deriving `alpha`, `alphaPrime` and the coefficients, as `setSlope` does
with `updateDeps = true`, gives a consistent state when `omega0`, the
trigonometric values and `gain` are up to date. -/
theorem consistent_after_alpha_alphaPrime (lm : Libm α) (u : Biquad α)
    (hO : updateOmega lm u true = u) (hG : (updateGain lm u).1 = u) :
    Consistent lm (updateCoFs (updateAlphaPrime lm (updateAlpha lm u)).1) := by
  obtain ⟨mode, Fs, fc, BWMode, Q, BW, slope, alpha, alphaPrime, dBG, gain, omega0, cosW0,
    sinW0, b0, b1, b2, a0, a1, a2, x0, x1, x2, y1, y2⟩ := u
  simp only [updateOmega_closed, updateGain_closed, Biquad.mk.injEq,
    true_and, and_true] at hO hG
  obtain ⟨hO1, hO2, hO3⟩ := hO
  subst hO1 hO2 hO3
  by_cases hsh : mode = 5 ∨ mode = 6
  · simp only [hsh, if_true] at hG
    simp only [Consistent, updateOmega_closed, updateGain_closed, updateAlpha_closed,
      updateAlphaPrime_closed, updateCoFs_closed, Biquad.mk.injEq, true_and, and_true,
      hsh, if_true, hG]
  · simp only [Consistent, updateOmega_closed, updateGain_closed, updateAlpha_closed,
      updateAlphaPrime_closed, updateCoFs_closed, Biquad.mk.injEq, true_and, and_true,
      hsh, if_false]

/-- The full derivation cascade always ends in a consistent state. -/
theorem derive_consistent (lm : Libm α) (s : Biquad α) : Consistent lm (derive lm s) := by
  obtain ⟨mode, Fs, fc, BWMode, Q, BW, slope, alpha, alphaPrime, dBG, gain, omega0, cosW0,
    sinW0, b0, b1, b2, a0, a1, a2, x0, x1, x2, y1, y2⟩ := s
  by_cases hsh : mode = 5 ∨ mode = 6
  · simp only [derive, Consistent, updateOmega_closed, updateGain_closed, updateAlpha_closed,
      updateAlphaPrime_closed, updateCoFs_closed, Biquad.mk.injEq, true_and, and_true,
      hsh, if_true]
  · simp only [derive, Consistent, updateOmega_closed, updateGain_closed, updateAlpha_closed,
      updateAlphaPrime_closed, updateCoFs_closed, Biquad.mk.injEq, true_and, and_true,
      hsh, if_false]

/-- A state is consistent exactly when the derivation cascade leaves it as it
is. -/
theorem consistent_iff_derive (lm : Libm α) (s : Biquad α) :
    Consistent lm s ↔ derive lm s = s := by
  constructor
  · rintro ⟨hO, hG, hA, hP, hC⟩
    simp only [derive, hO, hG, hA, hP, hC]
  · intro h
    rw [← h]
    exact derive_consistent lm s

end Consistency

section Propagation

variable {α : Type} [LinearOrderedField α]

theorem updateOmega_fix_congr (lm : Libm α) (s u : Biquad α)
    (h : updateOmega lm s true = s) (h1 : u.fc = s.fc) (h2 : u.Fs = s.Fs)
    (h3 : u.omega0 = s.omega0) (h4 : u.cosW0 = s.cosW0) (h5 : u.sinW0 = s.sinW0) :
    updateOmega lm u true = u := by
  rw [updateOmega_closed] at h ⊢
  obtain ⟨mode, Fs, fc, BWMode, Q, BW, slope, alpha, alphaPrime, dBG, gain, omega0, cosW0,
    sinW0, b0, b1, b2, a0, a1, a2, x0, x1, x2, y1, y2⟩ := s
  obtain ⟨mode', Fs', fc', BWMode', Q', BW', slope', alpha', alphaPrime', dBG', gain', omega0',
    cosW0', sinW0', b0', b1', b2', a0', a1', a2', x0', x1', x2', y1', y2'⟩ := u
  simp only at h1 h2 h3 h4 h5
  subst h1 h2 h3 h4 h5
  simp only [Biquad.mk.injEq, true_and, and_true] at h ⊢
  exact h

theorem updateGain_fix_congr (lm : Libm α) (s u : Biquad α)
    (h : (updateGain lm s).1 = s) (h1 : u.mode = s.mode) (h2 : u.dBG = s.dBG)
    (h3 : u.gain = s.gain) :
    (updateGain lm u).1 = u := by
  rw [updateGain_closed] at h ⊢
  obtain ⟨mode, Fs, fc, BWMode, Q, BW, slope, alpha, alphaPrime, dBG, gain, omega0, cosW0,
    sinW0, b0, b1, b2, a0, a1, a2, x0, x1, x2, y1, y2⟩ := s
  obtain ⟨mode', Fs', fc', BWMode', Q', BW', slope', alpha', alphaPrime', dBG', gain', omega0',
    cosW0', sinW0', b0', b1', b2', a0', a1', a2', x0', x1', x2', y1', y2'⟩ := u
  simp only at h1 h2 h3
  subst h1 h2 h3
  simp only [Biquad.mk.injEq, true_and, and_true] at h ⊢
  exact h

theorem setFs_consistent (lm : Libm α) (s : Biquad α) (v : α) (hs : Consistent lm s)
    (hm : ¬((s.mode = 5 ∨ s.mode = 6) ∧ s.BWMode ≠ 2))
    (hr : (setFs lm s v true).2 = true) : Consistent lm (setFs lm s v true).1 := by
  have hv : v ≥ 0 := by
    by_contra h
    simp [setFs, h] at hr
  simp only [setFs, hv, if_true]
  exact consistent_after_omega_cascade lm { s with Fs := v }
    (updateGain_fix_congr lm s _ hs.2.1 rfl rfl rfl) hm

theorem setFc_consistent (lm : Libm α) (s : Biquad α) (v : α) (hs : Consistent lm s)
    (hm : ¬((s.mode = 5 ∨ s.mode = 6) ∧ s.BWMode ≠ 2))
    (hr : (setFc lm s v true).2 = true) : Consistent lm (setFc lm s v true).1 := by
  have hv : v ≥ 0 := by
    by_contra h
    simp [setFc, h] at hr
  simp only [setFc, hv, if_true]
  exact consistent_after_omega_cascade lm { s with fc := v }
    (updateGain_fix_congr lm s _ hs.2.1 rfl rfl rfl) hm

theorem setQ_consistent (lm : Libm α) (s : Biquad α) (v : α) (hs : Consistent lm s)
    (hm : ¬((s.mode = 5 ∨ s.mode = 6) ∧ s.BWMode ≠ 1 ∧ s.BWMode ≠ 2))
    (hr : (setQ lm s v true).2 = true) : Consistent lm (setQ lm s v true).1 := by
  have hv : ¬ v < 0 := by
    intro h
    simp [setQ, h] at hr
  simp only [setQ, hv, if_false, if_true]
  apply consistent_after_alpha lm { s with Q := v }
    (updateOmega_fix_congr lm s _ hs.1 rfl rfl rfl rfl rfl)
    (updateGain_fix_congr lm s _ hs.2.1 rfl rfl rfl)
  intro hsh
  obtain ⟨-, -, hA, hP, -⟩ := hs
  rw [updateAlpha_closed] at hA ⊢
  rw [updateAlphaPrime_closed] at hP
  obtain ⟨mode, Fs, fc, BWMode, Q, BW, slope, alpha, alphaPrime, dBG, gain, omega0, cosW0,
    sinW0, b0, b1, b2, a0, a1, a2, x0, x1, x2, y1, y2⟩ := s
  simp only [Biquad.mk.injEq, true_and, and_true] at hA hP hsh hm ⊢
  simp only [hsh, if_true, true_and, not_and, not_not] at hP hm
  rw [← hP]
  by_cases h1 : BWMode = 1
  · simp only [h1, if_true] at hA ⊢
    rw [hA]
  · have h2 : BWMode = 2 := hm h1
    simp only [h2, if_true] at hA ⊢
    simp only [show ¬ (2 : ℕ) = 1 by decide, if_false] at hA ⊢
    rw [hA]

theorem setBW_consistent (lm : Libm α) (s : Biquad α) (v : α) (hs : Consistent lm s)
    (hr : (setBW lm s v true).2 = true) : Consistent lm (setBW lm s v true).1 := by
  by_cases hm : s.mode ≠ 0 ∧ s.mode ≠ 3
  · simp [setBW, hm] at hr
  by_cases hb : s.BWMode ≠ 1
  · simp [setBW, hm, hb] at hr
  by_cases hv : v < 0
  · simp [setBW, hm, hb, hv] at hr
  simp only [setBW, hm, hb, hv, if_false, if_true]
  apply consistent_after_alpha lm { s with BW := v }
    (updateOmega_fix_congr lm s _ hs.1 rfl rfl rfl rfl rfl)
    (updateGain_fix_congr lm s _ hs.2.1 rfl rfl rfl)
  intro hsh
  exfalso
  apply hm
  rcases hsh with h | h <;> (change s.mode = _ at h; rw [h]; decide)

theorem setSlope_consistent (lm : Libm α) (s : Biquad α) (v : α) (hs : Consistent lm s)
    (hr : (setSlope lm s v true).2 = true) : Consistent lm (setSlope lm s v true).1 := by
  by_cases hm : s.mode ≠ 5 ∧ s.mode ≠ 6
  · simp [setSlope, hm] at hr
  by_cases hb : s.BWMode ≠ 2
  · simp [setSlope, hm, hb] at hr
  by_cases hv : v < 0
  · simp [setSlope, hm, hb, hv] at hr
  simp only [setSlope, hm, hb, hv, if_false, if_true]
  exact consistent_after_alpha_alphaPrime lm { s with slope := v }
    (updateOmega_fix_congr lm s _ hs.1 rfl rfl rfl rfl rfl)
    (updateGain_fix_congr lm s _ hs.2.1 rfl rfl rfl)

end Propagation

section SetterContracts

variable {α : Type} [LinearOrderedField α]

/-- C20: `setBW(b, updateDeps)` returns true exactly when the filter is
band-pass or notch (mode 0 or 3), `BWMode` is 1 and `b ≥ 0`, and then `BW = b`;
in every other case it returns false and leaves the whole filter unchanged. -/
theorem setBW_accepts_exactly (lm : Libm α) (s : Biquad α) (b : α) (updateDeps : Bool) :
    ((s.mode = 0 ∨ s.mode = 3) ∧ s.BWMode = 1 ∧ 0 ≤ b →
      (setBW lm s b updateDeps).2 = true ∧ (setBW lm s b updateDeps).1.BW = b) ∧
    (¬((s.mode = 0 ∨ s.mode = 3) ∧ s.BWMode = 1 ∧ 0 ≤ b) →
      setBW lm s b updateDeps = (s, false)) := by
  constructor
  · rintro ⟨hm, hb, hv⟩
    have hm2 : ¬(s.mode ≠ 0 ∧ s.mode ≠ 3) := by
      rintro ⟨h0, h3⟩
      exact hm.elim h0 h3
    cases updateDeps
    · simp [setBW, hm2, hb, not_lt.mpr hv]
    · simp only [setBW, hm2, hb, not_lt.mpr hv, ne_eq, not_true_eq_false, if_false, if_true,
        updateAlpha_closed, updateCoFs_closed, and_self]
  · intro h
    unfold setBW
    split
    · rfl
    · next hm =>
      split
      · rfl
      · next hb =>
        split
        · rfl
        · next hv =>
          exfalso
          apply h
          refine ⟨?_, not_not.mp hb, not_lt.mp hv⟩
          by_contra hc
          exact hm ⟨fun h0 => hc (Or.inl h0), fun h3 => hc (Or.inr h3)⟩

/-- C19 (amended): `setParamsBW(fs, f, b)` does not validate its arguments
together.  When the filter is not band-pass or notch (mode 0 or 3) or `BWMode`
is not 1 it returns false and changes nothing; otherwise it returns true,
stores each non-negative argument, keeps the previous value of the parameter of
each negative argument, and the state it leaves is the full derivation from the
resulting parameters. -/
theorem setParamsBW_per_argument (lm : Libm α) (s : Biquad α) (fs f b : α) :
    ((s.mode ≠ 0 ∧ s.mode ≠ 3) ∨ s.BWMode ≠ 1 → setParamsBW lm s fs f b = (s, false)) ∧
    ((s.mode = 0 ∨ s.mode = 3) → s.BWMode = 1 →
      (setParamsBW lm s fs f b).2 = true ∧
      (setParamsBW lm s fs f b).1.Fs = (if fs ≥ 0 then fs else s.Fs) ∧
      (setParamsBW lm s fs f b).1.fc = (if f ≥ 0 then f else s.fc) ∧
      (setParamsBW lm s fs f b).1.BW = (if b ≥ 0 then b else s.BW) ∧
      (setParamsBW lm s fs f b).1 =
        derive lm { s with Fs := if fs ≥ 0 then fs else s.Fs,
                           fc := if f ≥ 0 then f else s.fc,
                           BW := if b ≥ 0 then b else s.BW }) := by
  constructor
  · rintro (hm | hb)
    · simp [setParamsBW, hm]
    · simp [setParamsBW, hb]
  · intro hm hb
    have hm2 : ¬(s.mode ≠ 0 ∧ s.mode ≠ 3) := by
      rintro ⟨h0, h3⟩
      exact hm.elim h0 h3
    have hsh : ¬(s.mode = 5 ∨ s.mode = 6) := by
      rcases hm with h | h <;> rw [h] <;> decide
    obtain ⟨mode, Fs, fc, BWMode, Q, BW, slope, alpha, alphaPrime, dBG, gain, omega0, cosW0,
      sinW0, b0, b1, b2, a0, a1, a2, x0, x1, x2, y1, y2⟩ := s
    simp only at hm2 hb hsh
    by_cases h1 : fs ≥ 0 <;> by_cases h2 : f ≥ 0 <;> by_cases h3 : b ≥ 0 <;>
      simp only [setParamsBW, derive, hm2, hb, h1, h2, h3, hsh, ne_eq, not_true_eq_false,
        if_false, if_true, updateOmega_closed, updateGain_closed, updateAlpha_closed,
        updateAlphaPrime_closed, updateCoFs_closed, and_self]

/-- C12 (amended): on a band-pass filter in bandwidth mode (mode 0, `BWMode` 1)
and for `f ≥ 0`, `b ≥ 0`, `setFc(f, false)` followed by `setBW(b, true)` (both
return true) stores `fc = f` and `BW = b` and re-derives only `alpha` and the six
coefficients, from the stored `omega0`, `cosW0` and `sinW0`, which keep their
values; the state equals the one left by the full update
`setParamsBW(Fs, f, b)` whenever the stored `omega0`, `cosW0`, `sinW0` already
are `2 * M_PI * f / Fs` and its cosine and sine. -/
theorem setFc_deferred_then_setBW (lm : Libm α) (s : Biquad α) (f b : α)
    (hm : s.mode = 0) (hb : s.BWMode = 1) (hf : 0 ≤ f) (hbb : 0 ≤ b) :
    (setFc lm s f false).2 = true ∧
    (setBW lm (setFc lm s f false).1 b true).2 = true ∧
    (setBW lm (setFc lm s f false).1 b true).1 =
      updateCoFs (updateAlpha lm { s with fc := f, BW := b }) ∧
    ((setBW lm (setFc lm s f false).1 b true).1.omega0 = s.omega0 ∧
      (setBW lm (setFc lm s f false).1 b true).1.cosW0 = s.cosW0 ∧
      (setBW lm (setFc lm s f false).1 b true).1.sinW0 = s.sinW0) ∧
    (s.omega0 = 2 * M_PI * f / s.Fs → s.cosW0 = lm.cos s.omega0 → s.sinW0 = lm.sin s.omega0 →
      (setBW lm (setFc lm s f false).1 b true).1 = (setParamsBW lm s s.Fs f b).1) := by
  obtain ⟨mode, Fs, fc, BWMode, Q, BW, slope, alpha, alphaPrime, dBG, gain, omega0, cosW0,
    sinW0, b0, b1, b2, a0, a1, a2, x0, x1, x2, y1, y2⟩ := s
  simp only at hm hb
  subst hm hb
  have hbb2 : ¬ b < 0 := not_lt.mpr hbb
  refine ⟨?_, ?_, ?_, ?_, ?_⟩
  · simp [setFc, hf]
  · simp [setFc, setBW, hf, hbb2]
  · simp [setFc, setBW, hf, hbb2]
  · simp [setFc, setBW, hf, hbb2, updateAlpha_closed, updateCoFs_closed]
  · intro h1 h2 h3
    simp only at h1 h2 h3
    subst h1
    subst h2 h3
    by_cases hFs : Fs ≥ 0 <;>
      simp [setFc, setBW, setParamsBW, hf, hbb, hbb2, hFs, updateOmega_closed,
        updateAlpha_closed, updateCoFs_closed]

end SetterContracts

section Stale

variable {α : Type} [LinearOrderedField α]

/-- In a consistent shelving filter `alphaPrime` is `2 * sqrt(gain) * alpha`. -/
theorem consistent_alphaPrime (lm : Libm α) (t : Biquad α) (h : Consistent lm t)
    (hm : t.mode = 5 ∨ t.mode = 6) : t.alphaPrime = 2 * lm.sqrt t.gain * t.alpha := by
  have hP := h.2.2.2.1
  rw [updateAlphaPrime_closed] at hP
  have h2 := congrArg Biquad.alphaPrime hP
  simp only [hm, if_true] at h2
  exact h2.symm

/-- The values of the full derivation on a shelving filter in Q mode. -/
theorem derive_shelf_Q_fields (lm : Libm α) (s : Biquad α) (hm : s.mode = 5) (hb : s.BWMode = 0) :
    (derive lm s).mode = 5 ∧ (derive lm s).BWMode = 0 ∧ (derive lm s).Fs = s.Fs ∧
    (derive lm s).fc = s.fc ∧ (derive lm s).Q = s.Q ∧
    (derive lm s).gain = lm.pow 10 (s.dBG / 40) ∧
    (derive lm s).sinW0 = lm.sin (2 * M_PI * s.fc / s.Fs) ∧
    (derive lm s).alphaPrime =
      2 * lm.sqrt (lm.pow 10 (s.dBG / 40)) * (lm.sin (2 * M_PI * s.fc / s.Fs) / (2 * s.Q)) := by
  obtain ⟨mode, Fs, fc, BWMode, Q, BW, slope, alpha, alphaPrime, dBG, gain, omega0, cosW0,
    sinW0, b0, b1, b2, a0, a1, a2, x0, x1, x2, y1, y2⟩ := s
  simp only at hm hb
  subst hm hb
  simp [derive, updateOmega_closed, updateGain_closed, updateAlpha_closed,
    updateAlphaPrime_closed, updateCoFs_closed]

/-- On a shelving filter in Q mode the setters `setFs`, `setFc` and `setQ` with
`updateDeps = true` recompute `alpha` but leave `gain` and `alphaPrime` as they
were. -/
theorem shelf_Q_setters_fields (lm : Libm α) (t : Biquad α) (v : α) (hm : t.mode = 5)
    (hb : t.BWMode = 0) (hv : 0 ≤ v) :
    ((setFs lm t v true).2 = true ∧ (setFs lm t v true).1.mode = 5 ∧
      (setFs lm t v true).1.gain = t.gain ∧ (setFs lm t v true).1.alphaPrime = t.alphaPrime ∧
      (setFs lm t v true).1.alpha = lm.sin (2 * M_PI * t.fc / v) / (2 * t.Q)) ∧
    ((setFc lm t v true).2 = true ∧ (setFc lm t v true).1.mode = 5 ∧
      (setFc lm t v true).1.gain = t.gain ∧ (setFc lm t v true).1.alphaPrime = t.alphaPrime ∧
      (setFc lm t v true).1.alpha = lm.sin (2 * M_PI * v / t.Fs) / (2 * t.Q)) ∧
    ((setQ lm t v true).2 = true ∧ (setQ lm t v true).1.mode = 5 ∧
      (setQ lm t v true).1.gain = t.gain ∧ (setQ lm t v true).1.alphaPrime = t.alphaPrime ∧
      (setQ lm t v true).1.alpha = t.sinW0 / (2 * v)) := by
  obtain ⟨mode, Fs, fc, BWMode, Q, BW, slope, alpha, alphaPrime, dBG, gain, omega0, cosW0,
    sinW0, b0, b1, b2, a0, a1, a2, x0, x1, x2, y1, y2⟩ := t
  simp only at hm hb
  subst hm hb
  have hv2 : ¬ v < 0 := not_lt.mpr hv
  simp [setFs, setFc, setQ, hv, hv2, updateSinW0, updateCosW0, updateOmega_closed,
    updateAlpha_closed, updateCoFs_closed]

end Stale

section PropagationClaims

open Real

/-- C13 (amended): each setter called with `updateDeps = true` on a consistent
state and returning true yields a consistent state, for every mode and every
`BWMode` in the case of `setBW` and `setSlope`, whenever the filter is not a
shelving filter (mode 5 or 6) with `BWMode ≠ 2` in the case of `setFs` and
`setFc`, and whenever it is not a shelving filter with `BWMode` other than 1
and 2 in the case of `setQ`. -/
theorem setters_keep_consistency {α : Type} [LinearOrderedField α] (lm : Libm α)
    (s : Biquad α) (v : α) (hs : Consistent lm s) :
    (¬((s.mode = 5 ∨ s.mode = 6) ∧ s.BWMode ≠ 2) →
      ((setFs lm s v true).2 = true → Consistent lm (setFs lm s v true).1) ∧
      ((setFc lm s v true).2 = true → Consistent lm (setFc lm s v true).1)) ∧
    (¬((s.mode = 5 ∨ s.mode = 6) ∧ s.BWMode ≠ 1 ∧ s.BWMode ≠ 2) →
      ((setQ lm s v true).2 = true → Consistent lm (setQ lm s v true).1)) ∧
    ((setBW lm s v true).2 = true → Consistent lm (setBW lm s v true).1) ∧
    ((setSlope lm s v true).2 = true → Consistent lm (setSlope lm s v true).1) :=
  ⟨fun hm => ⟨setFs_consistent lm s v hs hm, setFc_consistent lm s v hs hm⟩,
    fun hm => setQ_consistent lm s v hs hm,
    setBW_consistent lm s v hs, setSlope_consistent lm s v hs⟩

theorem setters_keep_consistency_witness :
    Consistent (Libm.mk Real.sin Real.cos Real.sinh Real.sqrt Real.rpow)
      (derive (Libm.mk Real.sin Real.cos Real.sinh Real.sqrt Real.rpow) (sampleState 0 1)) ∧
    Consistent (Libm.mk Real.sin Real.cos Real.sinh Real.sqrt Real.rpow)
      (setFc (Libm.mk Real.sin Real.cos Real.sinh Real.sqrt Real.rpow)
        (derive (Libm.mk Real.sin Real.cos Real.sinh Real.sqrt Real.rpow) (sampleState 0 1))
        2 true).1 :=
  ⟨derive_consistent _ _,
    ((setters_keep_consistency _ (derive _ (sampleState 0 1)) 2 (derive_consistent _ _)).1
      (by simp [derive, updateOmega_closed, updateGain_closed, updateAlpha_closed,
        updateAlphaPrime_closed, updateCoFs_closed, sampleState])).2
      (by simp [setFc])⟩

/-- The angular frequencies `2 * M_PI * 1 / 8` and `2 * M_PI * 2 / 8` lie in
`(0, π/2]`, where the sine is positive and strictly increasing. -/
theorem sin_quarter_facts :
    0 < Real.sin (2 * M_PI * 1 / 8) ∧
    Real.sin (2 * M_PI * 1 / 8) < Real.sin (2 * M_PI * 2 / 8) ∧
    Real.sin (2 * M_PI * 1 / 8) < Real.sin (2 * M_PI * 1 / 4) := by
  have hM : (M_PI : ℝ) = 3.14159265358 := rfl
  have hpi := Real.pi_gt_d20
  have hpi0 := Real.pi_pos
  have h1 : (0 : ℝ) < 2 * M_PI * 1 / 8 := by rw [hM]; norm_num
  have h2 : (2 * M_PI * 1 / 8 : ℝ) < 2 * M_PI * 2 / 8 := by rw [hM]; norm_num
  have h3 : (2 * M_PI * 2 / 8 : ℝ) ≤ π / 2 := by rw [hM]; norm_num at hpi ⊢; linarith
  have h4 : (2 * M_PI * 1 / 4 : ℝ) = 2 * M_PI * 2 / 8 := by ring
  refine ⟨Real.sin_pos_of_pos_of_lt_pi h1 (by linarith), ?_, ?_⟩
  · exact Real.sin_lt_sin_of_lt_of_le_pi_div_two (by linarith) h3 h2
  · rw [h4]
    exact Real.sin_lt_sin_of_lt_of_le_pi_div_two (by linarith) h3 h2

/-- C13 (as stated, refuted): the full derivation of a low shelf in Q mode
(mode 5, `BWMode` 0, `Fs = 8`, `fc = 1`, `Q = 1/2`, `dBG = 6`) is consistent,
and `setFs(4, true)`, `setFc(2, true)` and `setQ(1, true)` each return true on
it and leave an inconsistent state (`alphaPrime` is not re-derived). -/
theorem shelf_Q_setters_break_consistency :
    Consistent (Libm.mk Real.sin Real.cos Real.sinh Real.sqrt Real.rpow)
      (derive (Libm.mk Real.sin Real.cos Real.sinh Real.sqrt Real.rpow) (sampleState 5 0)) ∧
    ((setFs (Libm.mk Real.sin Real.cos Real.sinh Real.sqrt Real.rpow)
        (derive (Libm.mk Real.sin Real.cos Real.sinh Real.sqrt Real.rpow) (sampleState 5 0))
        4 true).2 = true ∧
      ¬ Consistent (Libm.mk Real.sin Real.cos Real.sinh Real.sqrt Real.rpow)
        (setFs (Libm.mk Real.sin Real.cos Real.sinh Real.sqrt Real.rpow)
          (derive (Libm.mk Real.sin Real.cos Real.sinh Real.sqrt Real.rpow) (sampleState 5 0))
          4 true).1) ∧
    ((setFc (Libm.mk Real.sin Real.cos Real.sinh Real.sqrt Real.rpow)
        (derive (Libm.mk Real.sin Real.cos Real.sinh Real.sqrt Real.rpow) (sampleState 5 0))
        2 true).2 = true ∧
      ¬ Consistent (Libm.mk Real.sin Real.cos Real.sinh Real.sqrt Real.rpow)
        (setFc (Libm.mk Real.sin Real.cos Real.sinh Real.sqrt Real.rpow)
          (derive (Libm.mk Real.sin Real.cos Real.sinh Real.sqrt Real.rpow) (sampleState 5 0))
          2 true).1) ∧
    ((setQ (Libm.mk Real.sin Real.cos Real.sinh Real.sqrt Real.rpow)
        (derive (Libm.mk Real.sin Real.cos Real.sinh Real.sqrt Real.rpow) (sampleState 5 0))
        1 true).2 = true ∧
      ¬ Consistent (Libm.mk Real.sin Real.cos Real.sinh Real.sqrt Real.rpow)
        (setQ (Libm.mk Real.sin Real.cos Real.sinh Real.sqrt Real.rpow)
          (derive (Libm.mk Real.sin Real.cos Real.sinh Real.sqrt Real.rpow) (sampleState 5 0))
          1 true).1) := by
  obtain ⟨hDm, hDb, hDFs, hDfc, hDQ, hDg, hDs, hDap⟩ :=
    derive_shelf_Q_fields (Libm.mk Real.sin Real.cos Real.sinh Real.sqrt Real.rpow)
      (sampleState 5 0) rfl rfl
  have hcons := derive_consistent (Libm.mk Real.sin Real.cos Real.sinh Real.sqrt Real.rpow)
    (sampleState 5 0 : Biquad ℝ)
  generalize derive (Libm.mk Real.sin Real.cos Real.sinh Real.sqrt Real.rpow)
    (sampleState 5 0 : Biquad ℝ) = D at *
  obtain ⟨⟨hFs1, hFs2, hFs3, hFs4, hFs5⟩, -, -⟩ := shelf_Q_setters_fields
    (Libm.mk Real.sin Real.cos Real.sinh Real.sqrt Real.rpow) D 4 hDm hDb (by norm_num)
  obtain ⟨-, ⟨hFc1, hFc2, hFc3, hFc4, hFc5⟩, -⟩ := shelf_Q_setters_fields
    (Libm.mk Real.sin Real.cos Real.sinh Real.sqrt Real.rpow) D 2 hDm hDb (by norm_num)
  obtain ⟨-, -, ⟨hQ1, hQ2, hQ3, hQ4, hQ5⟩⟩ := shelf_Q_setters_fields
    (Libm.mk Real.sin Real.cos Real.sinh Real.sqrt Real.rpow) D 1 hDm hDb (by norm_num)
  obtain ⟨hs0, hs2, hs4⟩ := sin_quarter_facts
  have hg : (0 : ℝ) < √(Real.rpow 10 ((sampleState 5 0 : Biquad ℝ).dBG / 40)) :=
    Real.sqrt_pos.2 (Real.rpow_pos_of_pos (by norm_num) _)
  simp only [sampleState] at hDFs hDfc hDQ hDg hDs hDap hg
  refine ⟨hcons, ⟨hFs1, fun hc => ?_⟩, ⟨hFc1, fun hc => ?_⟩, ⟨hQ1, fun hc => ?_⟩⟩
  · have h := consistent_alphaPrime _ _ hc (Or.inl hFs2)
    rw [hFs4, hFs3, hFs5, hDap, hDg, hDfc, hDQ] at h
    have h2 := mul_left_cancel₀ (by positivity) h
    exact absurd ((div_left_inj' (by norm_num : (2 * (1 / 2) : ℝ) ≠ 0)).mp h2) (ne_of_lt hs4)
  · have h := consistent_alphaPrime _ _ hc (Or.inl hFc2)
    rw [hFc4, hFc3, hFc5, hDap, hDg, hDFs, hDQ] at h
    have h2 := mul_left_cancel₀ (by positivity) h
    exact absurd ((div_left_inj' (by norm_num : (2 * (1 / 2) : ℝ) ≠ 0)).mp h2) (ne_of_lt hs2)
  · have h := consistent_alphaPrime _ _ hc (Or.inl hQ2)
    rw [hQ4, hQ3, hQ5, hDap, hDg, hDs] at h
    have h2 := mul_left_cancel₀ (by positivity) h
    generalize Real.sin (2 * M_PI * 1 / 8) = x at h2 hs0
    norm_num at h2
    linarith

/-- C12 (as stated, refuted): on the full derivation of a band-pass filter in
bandwidth mode with `Fs = 8`, `fc = 1`, `setFc(2, false)` followed by
`setBW(3, true)` leaves `omega0 = 2 * M_PI * 1 / 8`, while `setParamsBW(8, 2, 3)`
leaves `omega0 = 2 * M_PI * 2 / 8`. -/
theorem setFc_deferred_then_setBW_keeps_stale_omega :
    (derive (Libm.mk Real.sin Real.cos Real.sinh Real.sqrt Real.rpow)
      (sampleState 0 1)).mode = 0 ∧
    (derive (Libm.mk Real.sin Real.cos Real.sinh Real.sqrt Real.rpow)
      (sampleState 0 1)).BWMode = 1 ∧
    (derive (Libm.mk Real.sin Real.cos Real.sinh Real.sqrt Real.rpow)
      (sampleState 0 1)).Fs = 8 ∧
    (setBW (Libm.mk Real.sin Real.cos Real.sinh Real.sqrt Real.rpow)
      (setFc (Libm.mk Real.sin Real.cos Real.sinh Real.sqrt Real.rpow)
        (derive (Libm.mk Real.sin Real.cos Real.sinh Real.sqrt Real.rpow) (sampleState 0 1))
        2 false).1 3 true).1.omega0 = 2 * M_PI * 1 / 8 ∧
    (setParamsBW (Libm.mk Real.sin Real.cos Real.sinh Real.sqrt Real.rpow)
      (derive (Libm.mk Real.sin Real.cos Real.sinh Real.sqrt Real.rpow) (sampleState 0 1))
      8 2 3).1.omega0 = 2 * M_PI * 2 / 8 ∧
    (2 * M_PI * 1 / 8 : ℝ) ≠ 2 * M_PI * 2 / 8 := by
  refine ⟨?_, ?_, ?_, ?_, ?_, ?_⟩
  · simp [derive, updateOmega_closed, updateGain_closed, updateAlpha_closed,
      updateAlphaPrime_closed, updateCoFs_closed, sampleState]
  · simp [derive, updateOmega_closed, updateGain_closed, updateAlpha_closed,
      updateAlphaPrime_closed, updateCoFs_closed, sampleState]
  · simp [derive, updateOmega_closed, updateGain_closed, updateAlpha_closed,
      updateAlphaPrime_closed, updateCoFs_closed, sampleState]
  · norm_num [derive, setFc, setBW, updateOmega_closed, updateGain_closed, updateAlpha_closed,
      updateAlphaPrime_closed, updateCoFs_closed, sampleState]
  · norm_num [derive, setParamsBW, updateOmega_closed, updateGain_closed, updateAlpha_closed,
      updateAlphaPrime_closed, updateCoFs_closed, sampleState]
  · have hM : (M_PI : ℝ) = 3.14159265358 := rfl
    rw [hM]
    norm_num

theorem setFc_deferred_then_setBW_witness :
    (sampleState 0 1 : Biquad ℝ).mode = 0 ∧ (sampleState 0 1 : Biquad ℝ).BWMode = 1 ∧
    (0 : ℝ) ≤ 2 ∧ (0 : ℝ) ≤ 3 ∧
    (setBW (Libm.mk Real.sin Real.cos Real.sinh Real.sqrt Real.rpow)
      (setFc (Libm.mk Real.sin Real.cos Real.sinh Real.sqrt Real.rpow)
        (sampleState 0 1) 2 false).1 3 true).1 =
      updateCoFs (updateAlpha (Libm.mk Real.sin Real.cos Real.sinh Real.sqrt Real.rpow)
        { (sampleState 0 1 : Biquad ℝ) with fc := 2, BW := 3 }) :=
  ⟨rfl, rfl, by norm_num, by norm_num,
    (setFc_deferred_then_setBW _ (sampleState 0 1) 2 3 rfl rfl (by norm_num)
      (by norm_num)).2.2.1⟩

theorem setBW_accepts_exactly_witness :
    (((sampleState 0 1 : Biquad ℝ).mode = 0 ∨ (sampleState 0 1 : Biquad ℝ).mode = 3) ∧
      (sampleState 0 1 : Biquad ℝ).BWMode = 1 ∧ (0 : ℝ) ≤ 3) ∧
    (setBW (Libm.mk Real.sin Real.cos Real.sinh Real.sqrt Real.rpow)
      (sampleState 0 1) 3 true).2 = true ∧
    (setBW (Libm.mk Real.sin Real.cos Real.sinh Real.sqrt Real.rpow)
      (sampleState 0 1) 3 true).1.BW = 3 :=
  ⟨⟨Or.inl rfl, rfl, by norm_num⟩,
    (setBW_accepts_exactly _ (sampleState 0 1) 3 true).1 ⟨Or.inl rfl, rfl, by norm_num⟩⟩

/-- C19 (as stated, refuted): on a band-pass filter in bandwidth mode with
`fc = 1` and `BW = 2`, `setParamsBW(-1, 2, 3)` (negative `fs`) returns true and
changes `fc` to 2 and `BW` to 3. -/
theorem setParamsBW_negative_fs_still_commits :
    (setParamsBW (Libm.mk Real.sin Real.cos Real.sinh Real.sqrt Real.rpow)
      (sampleState 0 1) (-1) 2 3).2 = true ∧
    (sampleState 0 1 : Biquad ℝ).fc = 1 ∧
    (setParamsBW (Libm.mk Real.sin Real.cos Real.sinh Real.sqrt Real.rpow)
      (sampleState 0 1) (-1) 2 3).1.fc = 2 ∧
    (sampleState 0 1 : Biquad ℝ).BW = 2 ∧
    (setParamsBW (Libm.mk Real.sin Real.cos Real.sinh Real.sqrt Real.rpow)
      (sampleState 0 1) (-1) 2 3).1.BW = 3 := by
  refine ⟨?_, rfl, ?_, rfl, ?_⟩ <;>
    norm_num [setParamsBW, updateOmega_closed, updateAlpha_closed, updateCoFs_closed,
      sampleState]

end PropagationClaims

section Constructors

open Real

/-- C30 (the code at the failing input): the five-argument constructor assigns
no member, so the object keeps its indeterminate content (here a state with
`mode = 3`, `fc = 1`, `x0 = 21`), while the six-argument constructor called
with `dbg = 0.0` on the same content yields `mode = 0`, `fc = 2` and zeroed
history. -/
theorem ctor5_leaves_object_unset :
    Biquad.ctor5 (Libm.mk Real.sin Real.cos Real.sinh Real.sqrt Real.rpow)
      (sampleState 3 2) (sampleState 3 2) 0 0 8 2 (1 / 2) = sampleState 3 2 ∧
    (Biquad.ctor5 (Libm.mk Real.sin Real.cos Real.sinh Real.sqrt Real.rpow)
      (sampleState 3 2) (sampleState 3 2) 0 0 8 2 (1 / 2)).mode = 3 ∧
    (Biquad.ctor6 (Libm.mk Real.sin Real.cos Real.sinh Real.sqrt Real.rpow)
      (sampleState 3 2) 0 0 8 2 (1 / 2) 0).mode = 0 ∧
    (Biquad.ctor5 (Libm.mk Real.sin Real.cos Real.sinh Real.sqrt Real.rpow)
      (sampleState 3 2) (sampleState 3 2) 0 0 8 2 (1 / 2)).fc = 1 ∧
    (Biquad.ctor6 (Libm.mk Real.sin Real.cos Real.sinh Real.sqrt Real.rpow)
      (sampleState 3 2) 0 0 8 2 (1 / 2) 0).fc = 2 ∧
    (Biquad.ctor5 (Libm.mk Real.sin Real.cos Real.sinh Real.sqrt Real.rpow)
      (sampleState 3 2) (sampleState 3 2) 0 0 8 2 (1 / 2)).x0 = 21 ∧
    (Biquad.ctor6 (Libm.mk Real.sin Real.cos Real.sinh Real.sqrt Real.rpow)
      (sampleState 3 2) 0 0 8 2 (1 / 2) 0).x0 = 0 := by
  refine ⟨rfl, rfl, ?_, rfl, ?_, rfl, ?_⟩ <;>
    norm_num [Biquad.ctor6, setParamsQ, initHist, updateOmega_closed, updateAlpha_closed,
      updateCoFs_closed, sampleState]

/-- The macro `M_PI` is smaller than `π`, by less than `10⁻¹¹`. -/
theorem M_PI_lt_pi : (M_PI : ℝ) < π ∧ π - M_PI < 1 / 10 ^ 11 := by
  have hM : (M_PI : ℝ) = 3.14159265358 := rfl
  have h1 := Real.pi_gt_d20
  have h2 := Real.pi_lt_d20
  rw [hM]
  constructor
  · norm_num at h1 ⊢; linarith
  · norm_num at h2 ⊢; linarith

/-- C22 (as stated, refuted): with `Fs = 8` and `fc = 1`, `updateOmega(true)`
stores `2 * M_PI * 1 / 8`, which is not `2 * π * 1 / 8`. -/
theorem updateOmega_not_exact_pi :
    (0 : ℝ) < (sampleState 0 0 : Biquad ℝ).Fs ∧
    (updateOmega (Libm.mk Real.sin Real.cos Real.sinh Real.sqrt Real.rpow)
        (sampleState 0 0) true).omega0 ≠
      2 * π * (sampleState 0 0 : Biquad ℝ).fc / (sampleState 0 0 : Biquad ℝ).Fs := by
  have h := M_PI_lt_pi.1
  constructor
  · norm_num [sampleState]
  · simp only [updateOmega_closed, sampleState]
    intro h2
    have h3 : (M_PI : ℝ) = π := by linarith
    linarith

/-- C22 (amended): for every `Fs > 0` and `fc`, after `updateOmega(true)` the
stored `omega0` equals `2 * M_PI * fc / Fs` with `M_PI` the macro
`3.14159265358` of `Biquad.h` (smaller than `π` by less than `10⁻¹¹`), and
`cosW0 = cos(omega0)`, `sinW0 = sin(omega0)`. -/
theorem updateOmega_uses_M_PI (lm : Libm ℝ) (hlm : IsRealLibm lm) (s : Biquad ℝ)
    (hFs : 0 < s.Fs) :
    (updateOmega lm s true).omega0 = 2 * M_PI * s.fc / s.Fs ∧
    ((M_PI : ℝ) = 3.14159265358 ∧ (M_PI : ℝ) < π ∧ π - M_PI < 1 / 10 ^ 11) ∧
    (updateOmega lm s true).cosW0 = Real.cos (updateOmega lm s true).omega0 ∧
    (updateOmega lm s true).sinW0 = Real.sin (updateOmega lm s true).omega0 := by
  have _ := hFs
  unfold IsRealLibm at hlm
  subst hlm
  exact ⟨rfl, ⟨rfl, M_PI_lt_pi.1, M_PI_lt_pi.2⟩, rfl, rfl⟩

theorem updateOmega_uses_M_PI_witness :
    IsRealLibm (Libm.mk Real.sin Real.cos Real.sinh Real.sqrt Real.rpow) ∧
    (0 : ℝ) < (sampleState 0 0 : Biquad ℝ).Fs ∧
    (updateOmega (Libm.mk Real.sin Real.cos Real.sinh Real.sqrt Real.rpow)
      (sampleState 0 0) true).omega0 =
        2 * M_PI * (sampleState 0 0 : Biquad ℝ).fc / (sampleState 0 0 : Biquad ℝ).Fs :=
  ⟨rfl, by norm_num [sampleState],
    (updateOmega_uses_M_PI _ rfl (sampleState 0 0) (by norm_num [sampleState])).1⟩

/-- C21: for every non-shelving mode (0..4) in Q mode, after
`setParamsQ(fs, f, q)` with `fs > 0`, `0 < f < fs/2` and `q > 0`, `sinW0 > 0`
and `alpha > 0`, hence `a0 = 1 + alpha > 1` and the divisor `a0` of
`generateOutputSample` is nonzero. -/
theorem setParamsQ_a0_gt_one (lm : Libm ℝ) (hlm : IsRealLibm lm) (s : Biquad ℝ)
    (fs f q : ℝ) (hm : s.mode ≤ 4) (hb : s.BWMode ≠ 1 ∧ s.BWMode ≠ 2) (hfs : 0 < fs)
    (hf : 0 < f) (hny : f < fs / 2) (hq : 0 < q) :
    0 < (setParamsQ lm s fs f q).sinW0 ∧ 0 < (setParamsQ lm s fs f q).alpha ∧
    (setParamsQ lm s fs f q).a0 = 1 + (setParamsQ lm s fs f q).alpha ∧
    1 < (setParamsQ lm s fs f q).a0 ∧ (setParamsQ lm s fs f q).a0 ≠ 0 := by
  unfold IsRealLibm at hlm
  subst hlm
  obtain ⟨h0, hpi⟩ := omega_pos_lt_pi fs f hfs hf hny
  have hsin := Real.sin_pos_of_pos_of_lt_pi h0 hpi
  obtain ⟨mode, Fs, fc, BWMode, Q, BW, slope, alpha, alphaPrime, dBG, gain, omega0, cosW0,
    sinW0, b0, b1, b2, a0, a1, a2, x0, x1, x2, y1, y2⟩ := s
  simp only at hm hb
  have h5 : ¬ mode = 5 := by omega
  have h6 : ¬ mode = 6 := by omega
  have key : (setParamsQ (Libm.mk Real.sin Real.cos Real.sinh Real.sqrt Real.rpow)
      { mode := mode, Fs := Fs, fc := fc, BWMode := BWMode, Q := Q, BW := BW, slope := slope,
        alpha := alpha, alphaPrime := alphaPrime, dBG := dBG, gain := gain, omega0 := omega0,
        cosW0 := cosW0, sinW0 := sinW0, b0 := b0, b1 := b1, b2 := b2, a0 := a0, a1 := a1,
        a2 := a2, x0 := x0, x1 := x1, x2 := x2, y1 := y1, y2 := y2 } fs f q).sinW0
        = Real.sin (2 * M_PI * f / fs) ∧
      (setParamsQ (Libm.mk Real.sin Real.cos Real.sinh Real.sqrt Real.rpow)
      { mode := mode, Fs := Fs, fc := fc, BWMode := BWMode, Q := Q, BW := BW, slope := slope,
        alpha := alpha, alphaPrime := alphaPrime, dBG := dBG, gain := gain, omega0 := omega0,
        cosW0 := cosW0, sinW0 := sinW0, b0 := b0, b1 := b1, b2 := b2, a0 := a0, a1 := a1,
        a2 := a2, x0 := x0, x1 := x1, x2 := x2, y1 := y1, y2 := y2 } fs f q).alpha
        = Real.sin (2 * M_PI * f / fs) / (2 * q) ∧
      (setParamsQ (Libm.mk Real.sin Real.cos Real.sinh Real.sqrt Real.rpow)
      { mode := mode, Fs := Fs, fc := fc, BWMode := BWMode, Q := Q, BW := BW, slope := slope,
        alpha := alpha, alphaPrime := alphaPrime, dBG := dBG, gain := gain, omega0 := omega0,
        cosW0 := cosW0, sinW0 := sinW0, b0 := b0, b1 := b1, b2 := b2, a0 := a0, a1 := a1,
        a2 := a2, x0 := x0, x1 := x1, x2 := x2, y1 := y1, y2 := y2 } fs f q).a0
        = 1 + Real.sin (2 * M_PI * f / fs) / (2 * q) := by
    simp [setParamsQ, hfs.le, hf.le, hq.le, updateOmega_closed, updateAlpha_closed,
      updateCoFs_closed, hb.1, hb.2, h5, h6]
  obtain ⟨k1, k2, k3⟩ := key
  rw [k1, k2, k3]
  have hal : 0 < Real.sin (2 * M_PI * f / fs) / (2 * q) := by positivity
  refine ⟨hsin, hal, rfl, by linarith, by linarith⟩

theorem setParamsQ_a0_gt_one_witness :
    IsRealLibm (Libm.mk Real.sin Real.cos Real.sinh Real.sqrt Real.rpow) ∧
    (sampleState 0 0 : Biquad ℝ).mode ≤ 4 ∧
    ((sampleState 0 0 : Biquad ℝ).BWMode ≠ 1 ∧ (sampleState 0 0 : Biquad ℝ).BWMode ≠ 2) ∧
    (0 : ℝ) < 8 ∧ (0 : ℝ) < 1 ∧ (1 : ℝ) < 8 / 2 ∧ (0 : ℝ) < 1 / 2 ∧
    1 < (setParamsQ (Libm.mk Real.sin Real.cos Real.sinh Real.sqrt Real.rpow)
      (sampleState 0 0) 8 1 (1 / 2)).a0 :=
  ⟨rfl, by decide, ⟨by decide, by decide⟩, by norm_num, by norm_num, by norm_num,
    by norm_num,
    (setParamsQ_a0_gt_one _ rfl (sampleState 0 0) 8 1 (1 / 2) (by decide)
      ⟨by decide, by decide⟩ (by norm_num) (by norm_num) (by norm_num) (by norm_num)).2.2.2.1⟩

end Constructors

section Bank

variable {α : Type} [LinearOrderedField α]

/-- The fields that `setFc` never changes, whatever its arguments. -/
theorem setFc_frame (lm : Libm α) (s : Biquad α) (f : α) (ud : Bool) :
    (setFc lm s f ud).1.mode = s.mode ∧ (setFc lm s f ud).1.BWMode = s.BWMode ∧
    (setFc lm s f ud).1.Fs = s.Fs ∧ (setFc lm s f ud).1.BW = s.BW ∧
    (setFc lm s f ud).1.x0 = s.x0 ∧ (setFc lm s f ud).1.x1 = s.x1 ∧
    (setFc lm s f ud).1.x2 = s.x2 ∧ (setFc lm s f ud).1.y1 = s.y1 ∧
    (setFc lm s f ud).1.y2 = s.y2 := by
  obtain ⟨mode, Fs, fc, BWMode, Q, BW, slope, alpha, alphaPrime, dBG, gain, omega0, cosW0,
    sinW0, b0, b1, b2, a0, a1, a2, x0, x1, x2, y1, y2⟩ := s
  by_cases hf : f ≥ 0 <;> cases ud <;>
    by_cases hc : BWMode = 2 ∧ (mode = 5 ∨ mode = 6) <;>
    simp [setFc, hf, hc, updateSinW0, updateCosW0, updateOmega_closed, updateAlpha_closed,
      updateAlphaPrime_closed, updateCoFs_closed]

/-- The fields that `setFs` never changes, whatever its arguments. -/
theorem setFs_frame (lm : Libm α) (s : Biquad α) (f : α) (ud : Bool) :
    (setFs lm s f ud).1.mode = s.mode ∧ (setFs lm s f ud).1.BWMode = s.BWMode ∧
    (setFs lm s f ud).1.fc = s.fc ∧ (setFs lm s f ud).1.BW = s.BW ∧
    (setFs lm s f ud).1.x0 = s.x0 ∧ (setFs lm s f ud).1.x1 = s.x1 ∧
    (setFs lm s f ud).1.x2 = s.x2 ∧ (setFs lm s f ud).1.y1 = s.y1 ∧
    (setFs lm s f ud).1.y2 = s.y2 := by
  obtain ⟨mode, Fs, fc, BWMode, Q, BW, slope, alpha, alphaPrime, dBG, gain, omega0, cosW0,
    sinW0, b0, b1, b2, a0, a1, a2, x0, x1, x2, y1, y2⟩ := s
  by_cases hf : f ≥ 0 <;> cases ud <;>
    by_cases hc : BWMode = 2 ∧ (mode = 5 ∨ mode = 6) <;>
    simp [setFs, hf, hc, updateSinW0, updateCosW0, updateOmega_closed, updateAlpha_closed,
      updateAlphaPrime_closed, updateCoFs_closed]

/-- A non-negative frequency passed to `setFc` is stored in `fc`. -/
theorem setFc_fc (lm : Libm α) (s : Biquad α) (f : α) (ud : Bool) (hf : 0 ≤ f) :
    (setFc lm s f ud).1.fc = f := by
  obtain ⟨mode, Fs, fc, BWMode, Q, BW, slope, alpha, alphaPrime, dBG, gain, omega0, cosW0,
    sinW0, b0, b1, b2, a0, a1, a2, x0, x1, x2, y1, y2⟩ := s
  cases ud <;>
    by_cases hc : BWMode = 2 ∧ (mode = 5 ∨ mode = 6) <;>
    simp [setFc, hf, hc, updateSinW0, updateCosW0, updateOmega_closed, updateAlpha_closed,
      updateAlphaPrime_closed, updateCoFs_closed]

/-- The object built by `Biquad(0, 1)`: a band-pass filter in bandwidth mode with
`Fs = fc = BW = 0` and zeroed history. -/
theorem ctor2_bandPass_BW (lm : Libm α) (raw : Biquad α) :
    (Biquad.ctor2 lm raw 0 1).mode = 0 ∧ (Biquad.ctor2 lm raw 0 1).BWMode = 1 ∧
    (Biquad.ctor2 lm raw 0 1).Fs = 0 ∧ (Biquad.ctor2 lm raw 0 1).fc = 0 ∧
    (Biquad.ctor2 lm raw 0 1).BW = 0 ∧
    (Biquad.ctor2 lm raw 0 1).x0 = 0 ∧ (Biquad.ctor2 lm raw 0 1).x1 = 0 ∧
    (Biquad.ctor2 lm raw 0 1).x2 = 0 ∧ (Biquad.ctor2 lm raw 0 1).y1 = 0 ∧
    (Biquad.ctor2 lm raw 0 1).y2 = 0 := by
  obtain ⟨mode, Fs, fc, BWMode, Q, BW, slope, alpha, alphaPrime, dBG, gain, omega0, cosW0,
    sinW0, b0, b1, b2, a0, a1, a2, x0, x1, x2, y1, y2⟩ := raw
  simp [Biquad.ctor2, initHist, setParamsBW, updateOmega_closed, updateAlpha_closed,
    updateCoFs_closed]

theorem impulse_length (n : Nat) : (impulse n : List α).length = n := by
  cases n <;> simp [impulse]

theorem mixLoop_snd_length (imp : List α) (flts : List (Biquad α)) (amps output : List α)
    (h : output.length = imp.length) :
    (mixLoop imp flts amps output).2.length = imp.length := by
  induction flts generalizing amps output with
  | nil => simpa [mixLoop] using h
  | cons flt rest ih =>
    cases amps with
    | nil => simpa [mixLoop] using h
    | cons a as =>
      simp only [mixLoop]
      apply ih
      simp [List.length_zipWith, processBuffer_length, h]

theorem mixLoop_fst (imp : List α) (flts : List (Biquad α)) (amps output : List α)
    (h : flts.length ≤ amps.length) :
    (mixLoop imp flts amps output).1 = flts.map (fun flt => (processBuffer flt imp).1) := by
  induction flts generalizing amps output with
  | nil => cases amps <;> simp [mixLoop]
  | cons flt rest ih =>
    cases amps with
    | nil => simp at h
    | cons a as =>
      simp only [mixLoop, List.map_cons]
      rw [ih]
      simpa using h

/-- Inside the buffer the integer quotient `(nFrames - (i+1)) / nFrames` is 0, so
the envelope loop writes 0 to every sample. -/
theorem envelopeFrom_zero (n : Int) (l : List α) (i : Int) (hi : 0 ≤ i)
    (hl : i + l.length ≤ n) :
    envelopeFrom n i l = List.replicate l.length 0 := by
  induction l generalizing i with
  | nil => rfl
  | cons o rest ih =>
    have hlen : ((o :: rest).length : Int) = rest.length + 1 := by simp
    have h0 : Int.tdiv (n - (i + 1)) n = 0 :=
      Int.tdiv_eq_zero_of_lt (by omega) (by omega)
    simp only [envelopeFrom, h0, Int.cast_zero, mul_zero, List.length_cons,
      List.replicate_succ]
    rw [ih (i + 1) (by omega) (by omega)]

/-- Every sample written by `generateNote` is 0, whatever the bank, the
fundamental and the buffer length. -/
theorem generateNote_output (lm : Libm α) (b : ModalURB α) (f : α) (n : Nat) :
    (ModalURB.generateNote lm b f n).2 = List.replicate n 0 := by
  simp only [ModalURB.generateNote]
  have hlen := mixLoop_snd_length (impulse n) (ModalURB.updateParams lm b f).filters
    (ModalURB.updateParams lm b f).amps (List.replicate n 0)
    (by simp [impulse_length])
  rw [impulse_length] at hlen
  have := envelopeFrom_zero (n : Int) (mixLoop (impulse n) (ModalURB.updateParams lm b f).filters
    (ModalURB.updateParams lm b f).amps (List.replicate n 0)).2 0 (le_refl 0)
    (by rw [hlen]; simp)
  rw [this, hlen]

end Bank

section BankClaims

variable {α : Type} [LinearOrderedField α]

/-- A projection that `setFc` never changes is unchanged, filter by filter, by
the retuning loop of `updateParams`. -/
theorem zipWith_setFc_map {β : Type} (lm : Libm α) (φ : Biquad α → β)
    (hφ : ∀ g fr, φ (setFc lm g fr true).1 = φ g) (flts : List (Biquad α)) (frs : List α)
    (h : flts.length ≤ frs.length) :
    (List.zipWith (fun flt fr => (setFc lm flt fr true).1) flts frs).map φ = flts.map φ := by
  induction flts generalizing frs with
  | nil => simp
  | cons g rest ih =>
    cases frs with
    | nil => simp at h
    | cons fr frs =>
      simp only [List.zipWith_cons_cons, List.map_cons, hφ]
      rw [ih frs (by simpa using h)]

/-- The retuning loop of `updateParams` stores each non-negative frequency in the
`fc` of its filter. -/
theorem zipWith_setFc_fc (lm : Libm α) (flts : List (Biquad α)) (frs : List α)
    (h : flts.length = frs.length) (hpos : ∀ fr ∈ frs, 0 ≤ fr) :
    (List.zipWith (fun flt fr => (setFc lm flt fr true).1) flts frs).map Biquad.fc = frs := by
  induction flts generalizing frs with
  | nil =>
    cases frs with
    | nil => rfl
    | cons fr frs => simp at h
  | cons g rest ih =>
    cases frs with
    | nil => simp at h
    | cons fr frs =>
      simp only [List.zipWith_cons_cons, List.map_cons]
      rw [setFc_fc lm g fr true (hpos fr (by simp)),
        ih frs (by simpa using h) (fun x hx => hpos x (by simp [hx]))]

/-- A property that `setFc` preserves holds for every filter after the retuning
loop of `updateParams` when it holds for every filter before. -/
theorem zipWith_setFc_forall (lm : Libm α) (P : Biquad α → Prop)
    (hP : ∀ g fr, P g → P (setFc lm g fr true).1) (flts : List (Biquad α)) (frs : List α)
    (h : ∀ g ∈ flts, P g) :
    ∀ t ∈ List.zipWith (fun flt fr => (setFc lm flt fr true).1) flts frs, P t := by
  induction flts generalizing frs with
  | nil => simp
  | cons g rest ih =>
    cases frs with
    | nil => simp
    | cons fr frs =>
      intro t ht
      simp only [List.zipWith_cons_cons, List.mem_cons] at ht
      rcases ht with rfl | ht
      · exact hP g fr (h g (by simp))
      · exact ih frs (fun x hx => h x (by simp [hx])) t ht

/-- Every filter of a freshly constructed bank, retuned by `updateParams`, is a
band-pass filter in bandwidth mode with stored bandwidth 0 and zeroed
history. -/
theorem fresh_filters (lm : Libm α) (raw : ModalURB α) (fs : α) (ud : Bool) (f : α) :
    ∀ flt ∈ (ModalURB.updateParams lm (ModalURB.ctor lm raw fs ud) f).filters,
      (flt.mode = 0 ∧ flt.BWMode = 1 ∧ flt.BW = 0) ∧
      (flt.x0 = 0 ∧ flt.x1 = 0 ∧ flt.x2 = 0 ∧ flt.y1 = 0 ∧ flt.y2 = 0) := by
  simp only [ModalURB.updateParams, ModalURB.updateFreqs, ModalURB.ctor]
  apply zipWith_setFc_forall lm
    (fun t => (t.mode = 0 ∧ t.BWMode = 1 ∧ t.BW = 0) ∧
      (t.x0 = 0 ∧ t.x1 = 0 ∧ t.x2 = 0 ∧ t.y1 = 0 ∧ t.y2 = 0))
  · intro g fr hg
    obtain ⟨k1, k2, -, k3, k4, k5, k6, k7, k8⟩ := setFc_frame lm g fr true
    simp only [k1, k2, k3, k4, k5, k6, k7, k8]
    exact hg
  · intro g hg
    obtain ⟨r, -, rfl⟩ := List.mem_map.mp hg
    obtain ⟨k1, k2, -, k3, k4, k5, k6, k7, k8⟩ := setFs_frame lm (Biquad.ctor2 lm r 0 1) fs ud
    obtain ⟨c1, c2, -, -, c3, c4, c5, c6, c7, c8⟩ := ctor2_bandPass_BW lm r
    simp only [k1, k2, k3, k4, k5, k6, k7, k8, c1, c2, c3, c4, c5, c6, c7, c8, and_self]

theorem updateParams_filters_length (lm : Libm α) (b : ModalURB α) (f : α)
    (h : b.filters.length = 8) : (ModalURB.updateParams lm b f).filters.length = 8 := by
  simp [ModalURB.updateParams, ModalURB.updateFreqs, h]

/-- C24 (amended): for every fundamental `f ≥ 0`, after `updateParams(f)` the
centre frequency of filter `i` (of the eight filters) equals `ratio[i] * f` for
`i = 0..7`, with the ratios `0.4863636364, 0.9318181818, 1, 1.0136363636,
2.0045454545, 3.0136363636, 6.0090909091, 5.0181818182` of `updateFreqs`. -/
theorem updateParams_centre_frequencies (lm : Libm α) (b : ModalURB α) (f : α)
    (hf : 0 ≤ f) (hlen : b.filters.length = 8) :
    (ModalURB.updateParams lm b f).filters.map Biquad.fc =
      [0.4863636364 * f, 0.9318181818 * f, f, 1.0136363636 * f, 2.0045454545 * f,
       3.0136363636 * f, 6.0090909091 * f, 5.0181818182 * f] := by
  simp only [ModalURB.updateParams, ModalURB.updateFreqs]
  apply zipWith_setFc_fc
  · simp [hlen]
  · intro fr hfr
    simp only [List.mem_cons, List.mem_singleton, List.not_mem_nil, or_false] at hfr
    rcases hfr with h | h | h | h | h | h | h | h <;> rw [h] <;> positivity

/-- C26 (amended): on a freshly constructed bank the first `generateNote` feeds
the impulse to filters whose history `x0, x1, x2, y1, y2` is all zero; and
`generateNote` never resets a filter: for every bank state with its eight
filters and every fundamental, at the moment the impulse is fed to filter `i`
its history is the one the filter had when `generateNote` was called. -/
theorem note_start_history (lm : Libm α) (f : α) :
    (∀ (raw : ModalURB α) (fs : α) (ud : Bool),
      (raw.filters.length = 8 →
        (ModalURB.updateParams lm (ModalURB.ctor lm raw fs ud) f).filters.length = 8) ∧
      ∀ flt ∈ (ModalURB.updateParams lm (ModalURB.ctor lm raw fs ud) f).filters,
        flt.x0 = 0 ∧ flt.x1 = 0 ∧ flt.x2 = 0 ∧ flt.y1 = 0 ∧ flt.y2 = 0) ∧
    (∀ b : ModalURB α, b.filters.length = 8 →
      (ModalURB.updateParams lm b f).filters.map
          (fun t => (t.x0, t.x1, t.x2, t.y1, t.y2)) =
        b.filters.map (fun t => (t.x0, t.x1, t.x2, t.y1, t.y2))) := by
  have hframe : ∀ (g : Biquad α) (fr : α),
      (fun t : Biquad α => (t.x0, t.x1, t.x2, t.y1, t.y2)) (setFc lm g fr true).1 =
        (fun t : Biquad α => (t.x0, t.x1, t.x2, t.y1, t.y2)) g := by
    intro g fr
    obtain ⟨-, -, -, -, h0, h1, h2, h3, h4⟩ := setFc_frame lm g fr true
    simp only [h0, h1, h2, h3, h4]
  constructor
  · intro raw fs ud
    refine ⟨fun h8 => ?_, fun flt hflt => (fresh_filters lm raw fs ud f flt hflt).2⟩
    apply updateParams_filters_length
    simpa [ModalURB.ctor] using h8
  · intro b hlen
    simp only [ModalURB.updateParams, ModalURB.updateFreqs]
    exact zipWith_setFc_map lm _ hframe _ _ (by simp [hlen])

end BankClaims

section BankInstances

open Real

theorem updateParams_centre_frequencies_witness :
    (0 : ℝ) ≤ 220 ∧ (sampleBank : ModalURB ℝ).filters.length = 8 ∧
    (ModalURB.updateParams (Libm.mk Real.sin Real.cos Real.sinh Real.sqrt Real.rpow)
      sampleBank 220).filters.map Biquad.fc =
      [0.4863636364 * 220, 0.9318181818 * 220, 220, 1.0136363636 * 220, 2.0045454545 * 220,
       3.0136363636 * 220, 6.0090909091 * 220, 5.0181818182 * 220] :=
  ⟨by norm_num, by simp [sampleBank],
    updateParams_centre_frequencies _ sampleBank 220 (by norm_num) (by simp [sampleBank])⟩

/-- C24 (as stated, refuted): after `updateParams(1)` the centre frequency of
filter 0 is `0.4863636364`, not `0.4864 * 1`; and after `updateParams(-1)` it
still is the previous centre frequency 1, not `0.4864 * (-1)`. -/
theorem updateParams_ratio_not_rounded :
    ((ModalURB.updateParams (Libm.mk Real.sin Real.cos Real.sinh Real.sqrt Real.rpow)
      sampleBank 1).filters.map Biquad.fc)[0]? = some (0.4863636364 : ℝ) ∧
    (0.4863636364 : ℝ) ≠ 0.4864 * 1 ∧
    ((ModalURB.updateParams (Libm.mk Real.sin Real.cos Real.sinh Real.sqrt Real.rpow)
      sampleBank (-1)).filters.map Biquad.fc)[0]? = some (1 : ℝ) ∧
    (1 : ℝ) ≠ 0.4864 * (-1) := by
  refine ⟨?_, by norm_num, ?_, by norm_num⟩
  · simp only [ModalURB.updateParams, ModalURB.updateFreqs, sampleBank, List.replicate,
      List.zipWith_cons_cons, List.map_cons]
    rw [setFc_fc _ _ _ _ (by norm_num)]
    simp
  · norm_num [ModalURB.updateParams, ModalURB.updateFreqs, sampleBank, List.replicate,
      setFc, sampleState, initHist]

theorem ctor_filters_length {α : Type} [LinearOrderedField α] (lm : Libm α) (raw : ModalURB α)
    (fs : α) (ud : Bool) :
    (ModalURB.ctor lm raw fs ud).filters.length = raw.filters.length ∧
    (ModalURB.ctor lm raw fs ud).amps.length = 8 := by
  simp [ModalURB.ctor]

/-- C25 (the code at the failing input): on a bank freshly constructed at
44100 Hz and retuned for the note of 220 Hz, the eight filters are band-pass
(mode 0) in bandwidth mode (`BWMode` 1) and every stored bandwidth `BW` is 0,
while the table `bws` of the bank holds `3, 1, 2, 2, 2, 2, 4, 3`. -/
theorem fresh_bank_bandwidths_are_zero :
    ((ModalURB.updateParams (Libm.mk Real.sin Real.cos Real.sinh Real.sqrt Real.rpow)
      (ModalURB.ctor (Libm.mk Real.sin Real.cos Real.sinh Real.sqrt Real.rpow)
        sampleBank 44100 true) 220).filters.map Biquad.BW = List.replicate 8 0 ∧
     (ModalURB.updateParams (Libm.mk Real.sin Real.cos Real.sinh Real.sqrt Real.rpow)
      (ModalURB.ctor (Libm.mk Real.sin Real.cos Real.sinh Real.sqrt Real.rpow)
        sampleBank 44100 false) 220).filters.map Biquad.BW = List.replicate 8 0) ∧
    (ModalURB.updateParams (Libm.mk Real.sin Real.cos Real.sinh Real.sqrt Real.rpow)
      (ModalURB.ctor (Libm.mk Real.sin Real.cos Real.sinh Real.sqrt Real.rpow)
        sampleBank 44100 true) 220).filters.map Biquad.mode = List.replicate 8 0 ∧
    (ModalURB.updateParams (Libm.mk Real.sin Real.cos Real.sinh Real.sqrt Real.rpow)
      (ModalURB.ctor (Libm.mk Real.sin Real.cos Real.sinh Real.sqrt Real.rpow)
        sampleBank 44100 true) 220).filters.map Biquad.BWMode = List.replicate 8 1 ∧
    (ModalURB.updateParams (Libm.mk Real.sin Real.cos Real.sinh Real.sqrt Real.rpow)
      (ModalURB.ctor (Libm.mk Real.sin Real.cos Real.sinh Real.sqrt Real.rpow)
        sampleBank 44100 true) 220).bws = [3, 1, 2, 2, 2, 2, 4, 3] := by
  have hlen : ∀ ud, (ModalURB.updateParams
      (Libm.mk Real.sin Real.cos Real.sinh Real.sqrt Real.rpow)
      (ModalURB.ctor (Libm.mk Real.sin Real.cos Real.sinh Real.sqrt Real.rpow)
        sampleBank 44100 ud) 220).filters.length = 8 := by
    intro ud
    apply updateParams_filters_length
    rw [(ctor_filters_length _ _ _ _).1]
    simp [sampleBank]
  have key : ∀ ud, ∀ flt ∈ (ModalURB.updateParams
      (Libm.mk Real.sin Real.cos Real.sinh Real.sqrt Real.rpow)
      (ModalURB.ctor (Libm.mk Real.sin Real.cos Real.sinh Real.sqrt Real.rpow)
        sampleBank 44100 ud) 220).filters, flt.mode = 0 ∧ flt.BWMode = 1 ∧ flt.BW = 0 :=
    fun ud flt h => (fresh_filters _ _ _ _ _ flt h).1
  refine ⟨⟨?_, ?_⟩, ?_, ?_, rfl⟩
  · rw [List.eq_replicate_iff]
    refine ⟨by rw [List.length_map, hlen], fun x hx => ?_⟩
    obtain ⟨flt, hflt, rfl⟩ := List.mem_map.mp hx
    exact (key true flt hflt).2.2
  · rw [List.eq_replicate_iff]
    refine ⟨by rw [List.length_map, hlen], fun x hx => ?_⟩
    obtain ⟨flt, hflt, rfl⟩ := List.mem_map.mp hx
    exact (key false flt hflt).2.2
  · rw [List.eq_replicate_iff]
    refine ⟨by rw [List.length_map, hlen], fun x hx => ?_⟩
    obtain ⟨flt, hflt, rfl⟩ := List.mem_map.mp hx
    exact (key true flt hflt).1
  · rw [List.eq_replicate_iff]
    refine ⟨by rw [List.length_map, hlen], fun x hx => ?_⟩
    obtain ⟨flt, hflt, rfl⟩ := List.mem_map.mp hx
    exact (key true flt hflt).2.1

/-- After a note of one frame, every filter of a bank of eight holds the impulse
sample 1 in `x0` when the next note starts. -/
theorem one_frame_note_leaves_x0 {α : Type} [LinearOrderedField α] (lm : Libm α)
    (b : ModalURB α) (f1 f2 : α) (hf : b.filters.length = 8) (ha : b.amps.length = 8) :
    (ModalURB.updateParams lm (ModalURB.generateNote lm b f1 1).1 f2).filters.map Biquad.x0 =
      List.replicate 8 1 := by
  have h8 := updateParams_filters_length lm b f1 hf
  have hamps : (ModalURB.updateParams lm b f1).amps = b.amps := rfl
  have hfl : (ModalURB.generateNote lm b f1 1).1.filters =
      (ModalURB.updateParams lm b f1).filters.map
        (fun flt => (processBuffer flt (impulse 1)).1) := by
    simp only [ModalURB.generateNote]
    exact mixLoop_fst _ _ _ _ (by rw [h8, hamps, ha])
  have hx : (ModalURB.updateParams lm (ModalURB.generateNote lm b f1 1).1 f2).filters.map
      Biquad.x0 = (ModalURB.generateNote lm b f1 1).1.filters.map Biquad.x0 := by
    simp only [ModalURB.updateParams, ModalURB.updateFreqs]
    apply zipWith_setFc_map lm Biquad.x0 (fun g fr => (setFc_frame lm g fr true).2.2.2.2.1)
    rw [hfl, List.length_map, h8]
    simp
  rw [hx, hfl, List.map_map, List.eq_replicate_iff]
  refine ⟨by rw [List.length_map, h8], fun x hx2 => ?_⟩
  obtain ⟨flt, -, rfl⟩ := List.mem_map.mp hx2
  simp [impulse, processBuffer, updateXs, updateYs]

/-- C26 (as stated, refuted): on a bank freshly constructed at 44100 Hz,
after `generateNote(220, 1)` the next `generateNote(220, …)` starts feeding its
impulse to filters whose `x0` is 1. -/
theorem second_note_starts_with_history :
    (ModalURB.updateParams (Libm.mk Real.sin Real.cos Real.sinh Real.sqrt Real.rpow)
      (ModalURB.generateNote (Libm.mk Real.sin Real.cos Real.sinh Real.sqrt Real.rpow)
        (ModalURB.ctor (Libm.mk Real.sin Real.cos Real.sinh Real.sqrt Real.rpow)
          sampleBank 44100 true) 220 1).1 220).filters.map Biquad.x0 =
      List.replicate 8 (1 : ℝ) ∧
    (1 : ℝ) ≠ 0 :=
  ⟨one_frame_note_leaves_x0 _ _ 220 220
    (by rw [(ctor_filters_length _ _ _ _).1]; simp [sampleBank])
    (ctor_filters_length _ _ _ _).2, one_ne_zero⟩

/-- C28 (the code at the failing input): on a bank freshly constructed at
44100 Hz (all eight partials of 220 Hz are below 22050 Hz),
`generateNote(220.0, output, 512)` writes 0 to `output[0]`. -/
theorem first_sample_of_note_is_zero :
    (6.0090909091 * 220 : ℝ) < 44100 / 2 ∧
    (ModalURB.generateNote (Libm.mk Real.sin Real.cos Real.sinh Real.sqrt Real.rpow)
      (ModalURB.ctor (Libm.mk Real.sin Real.cos Real.sinh Real.sqrt Real.rpow)
        sampleBank 44100 true) 220 512).2[0]? = some (0 : ℝ) ∧
    (ModalURB.generateNote (Libm.mk Real.sin Real.cos Real.sinh Real.sqrt Real.rpow)
      (ModalURB.ctor (Libm.mk Real.sin Real.cos Real.sinh Real.sqrt Real.rpow)
        sampleBank 44100 false) 220 512).2[0]? = some (0 : ℝ) := by
  refine ⟨by norm_num, ?_, ?_⟩ <;>
    rw [generateNote_output, List.getElem?_replicate_of_lt (by norm_num)]

end BankInstances

section Envelope

open Real

/-- The first output of a band-pass filter in bandwidth mode with positive
bandwidth and zeroed history, retuned by `setFc` to a frequency strictly
between 0 and Nyquist and fed a buffer that starts with 1, is positive. -/
theorem bandPass_impulse_first_pos (lm : Libm ℝ) (hlm : IsRealLibm lm) (g : Biquad ℝ)
    (fr : ℝ) (rest : List ℝ) (hm : g.mode = 0) (hb : g.BWMode = 1) (hBW : 0 < g.BW)
    (hFs : 0 < g.Fs) (h0 : 0 < fr) (hny : fr < g.Fs / 2)
    (hx0 : g.x0 = 0) (hx1 : g.x1 = 0) (hy1 : g.y1 = 0) (hy2 : g.y2 = 0) :
    0 < ((processBuffer (setFc lm g fr true).1 (1 :: rest)).2).getD 0 0 := by
  unfold IsRealLibm at hlm
  subst hlm
  obtain ⟨mode, Fs, fc, BWMode, Q, BW, slope, alpha, alphaPrime, dBG, gain, omega0, cosW0,
    sinW0, b0, b1, b2, a0, a1, a2, x0, x1, x2, y1, y2⟩ := g
  simp only at hm hb hBW hFs hny hx0 hx1 hy1 hy2
  subst hm hb hx0 hx1 hy1 hy2
  obtain ⟨hw0, hwpi⟩ := omega_pos_lt_pi Fs fr hFs h0 hny
  have hsin := Real.sin_pos_of_pos_of_lt_pi hw0 hwpi
  have hLN : (0 : ℝ) < LN2 := by unfold LN2; norm_num
  have harg : 0 < LN2 / 2 * BW * (2 * M_PI * fr / Fs) / Real.sin (2 * M_PI * fr / Fs) := by
    positivity
  have hsinh := Real.sinh_pos_iff.mpr harg
  have hal : 0 < Real.sin (2 * M_PI * fr / Fs) *
      Real.sinh (LN2 / 2 * BW * (2 * M_PI * fr / Fs) / Real.sin (2 * M_PI * fr / Fs)) := by
    positivity
  have key : ((processBuffer (setFc (Libm.mk Real.sin Real.cos Real.sinh Real.sqrt Real.rpow)
      { mode := 0, Fs := Fs, fc := fc, BWMode := 1, Q := Q, BW := BW, slope := slope,
        alpha := alpha, alphaPrime := alphaPrime, dBG := dBG, gain := gain, omega0 := omega0,
        cosW0 := cosW0, sinW0 := sinW0, b0 := b0, b1 := b1, b2 := b2, a0 := a0, a1 := a1,
        a2 := a2, x0 := 0, x1 := 0, x2 := x2, y1 := 0, y2 := 0 } fr true).1
        (1 :: rest)).2).getD 0 0 =
      Real.sin (2 * M_PI * fr / Fs) *
          Real.sinh (LN2 / 2 * BW * (2 * M_PI * fr / Fs) / Real.sin (2 * M_PI * fr / Fs)) /
        (1 + Real.sin (2 * M_PI * fr / Fs) *
          Real.sinh (LN2 / 2 * BW * (2 * M_PI * fr / Fs) / Real.sin (2 * M_PI * fr / Fs))) := by
    simp [processBuffer_cons, generateOutputSample, updateXs, setFc, h0.le, updateSinW0,
      updateCosW0, updateOmega_closed, updateAlpha_closed, updateCoFs_closed]
  rw [key]
  positivity

end Envelope

section UpdatePaths

variable {α : Type} [LinearOrderedField α]

/-- Outside the high-shelf mode the one-pass update `updateCoFs` leaves the same
object as `updateAs` followed by `updateBs`. -/
theorem updateCoFs_eq_updateBs_updateAs (s : Biquad α) (h : s.mode ≠ 6) :
    updateCoFs s = updateBs (updateAs s) := by
  obtain ⟨mode, Fs, fc, BWMode, Q, BW, slope, alpha, alphaPrime, dBG, gain, omega0, cosW0,
    sinW0, b0, b1, b2, a0, a1, a2, x0, x1, x2, y1, y2⟩ := s
  simp only at h
  rcases mode with _ | _ | _ | _ | _ | _ | _ | n
  · simp [updateCoFs, updateAs, updateBs]
  · simp [updateCoFs, updateAs, updateBs]
  · simp [updateCoFs, updateAs, updateBs]
  · simp [updateCoFs, updateAs, updateBs, updateCoFsCase4]
  · simp [updateCoFs, updateAs, updateBs, updateCoFsCase4]
  · simp [updateCoFs, updateAs, updateBs, updateCoFsShelf]
  · exact absurd rfl h
  · simp [updateCoFs, updateAs, updateBs]

/-- In the high-shelf mode the two paths differ in `a1` only, and there by the
sign. -/
theorem updateCoFs_highShelf_vs_updateBs_updateAs (s : Biquad α) (h : s.mode = 6) :
    updateCoFs s = { updateBs (updateAs s) with a1 := -(updateBs (updateAs s)).a1 } := by
  obtain ⟨mode, Fs, fc, BWMode, Q, BW, slope, alpha, alphaPrime, dBG, gain, omega0, cosW0,
    sinW0, b0, b1, b2, a0, a1, a2, x0, x1, x2, y1, y2⟩ := s
  simp only at h
  subst h
  simp [updateCoFs, updateAs, updateBs, updateCoFsShelf]

/-- C36: the one-pass update `updateCoFs` and the pair `updateAs`, `updateBs` leave
the same `a0`, `a2`, `b0`, `b1`, `b2` in every mode, and the same `a1` in every
mode but the high shelf (mode 6), where `updateCoFs` leaves the opposite of
what `updateAs` computes; on the state `sampleState 6 0` (gain 2, cosW0 3/5)
the two values are `8/5` and `-8/5`. -/
theorem updateCoFs_agrees_with_updateAs_updateBs_except_highShelf_a1 (s : Biquad α) :
    (updateCoFs s).a0 = (updateBs (updateAs s)).a0 ∧
    (updateCoFs s).a2 = (updateBs (updateAs s)).a2 ∧
    (updateCoFs s).b0 = (updateBs (updateAs s)).b0 ∧
    (updateCoFs s).b1 = (updateBs (updateAs s)).b1 ∧
    (updateCoFs s).b2 = (updateBs (updateAs s)).b2 ∧
    (updateCoFs s).a1 =
      (if s.mode = 6 then -(updateBs (updateAs s)).a1 else (updateBs (updateAs s)).a1) ∧
    (updateCoFs (sampleState 6 0 : Biquad α)).a1 = 8 / 5 ∧
    (updateBs (updateAs (sampleState 6 0 : Biquad α))).a1 = -(8 / 5) ∧
    (updateCoFs (sampleState 6 0 : Biquad α)).a1 ≠
      (updateBs (updateAs (sampleState 6 0 : Biquad α))).a1 := by
  have hconc : (updateCoFs (sampleState 6 0 : Biquad α)).a1 = 8 / 5 ∧
      (updateBs (updateAs (sampleState 6 0 : Biquad α))).a1 = -(8 / 5) := by
    constructor <;> norm_num [updateCoFs, updateAs, updateBs, updateCoFsShelf, sampleState]
  have hne : (updateCoFs (sampleState 6 0 : Biquad α)).a1 ≠
      (updateBs (updateAs (sampleState 6 0 : Biquad α))).a1 := by
    rw [hconc.1, hconc.2]; norm_num
  by_cases h : s.mode = 6
  · rw [updateCoFs_highShelf_vs_updateBs_updateAs s h, if_pos h]
    exact ⟨rfl, rfl, rfl, rfl, rfl, rfl, hconc.1, hconc.2, hne⟩
  · rw [updateCoFs_eq_updateBs_updateAs s h, if_neg h]
    exact ⟨rfl, rfl, rfl, rfl, rfl, rfl, hconc.1, hconc.2, hne⟩

end UpdatePaths

section Linearity

variable {α : Type} [LinearOrderedField α]

/-- Three runs of one filter whose histories are related by
`h = c * hu + d * hv` stay so related, and so do their outputs. -/
theorem processBuffer_linear_of_related (c d : α) (u : List α) :
    ∀ (v : List α) (s su sv : Biquad α), u.length = v.length →
      (su.b0 = s.b0 ∧ su.b1 = s.b1 ∧ su.b2 = s.b2 ∧
        su.a0 = s.a0 ∧ su.a1 = s.a1 ∧ su.a2 = s.a2) →
      (sv.b0 = s.b0 ∧ sv.b1 = s.b1 ∧ sv.b2 = s.b2 ∧
        sv.a0 = s.a0 ∧ sv.a1 = s.a1 ∧ sv.a2 = s.a2) →
      (s.x0 = c * su.x0 + d * sv.x0 ∧ s.x1 = c * su.x1 + d * sv.x1 ∧
        s.y1 = c * su.y1 + d * sv.y1 ∧ s.y2 = c * su.y2 + d * sv.y2) →
      (processBuffer s (linComb c d u v)).2 =
        linComb c d (processBuffer su u).2 (processBuffer sv v).2 := by
  induction u with
  | nil =>
    intro v s su sv _ _ _ _
    simp [linComb, processBuffer]
  | cons a u ih =>
    intro v s su sv hlen hsu hsv hh
    cases v with
    | nil => simp at hlen
    | cons b v =>
      obtain ⟨hu0, hu1, hu2, hu3, hu4, hu5⟩ := hsu
      obtain ⟨hv0, hv1, hv2, hv3, hv4, hv5⟩ := hsv
      obtain ⟨hx0, hx1, hy1, hy2⟩ := hh
      have hlen2 : u.length = v.length := by simpa using hlen
      have key : generateOutputSample (updateXs s (c * a + d * b)) =
          c * generateOutputSample (updateXs su a) +
            d * generateOutputSample (updateXs sv b) := by
        simp only [generateOutputSample, updateXs, hu0, hu1, hu2, hu3, hu4, hu5,
          hv0, hv1, hv2, hv3, hv4, hv5, hx0, hx1, hy1, hy2]
        ring
      have step := ih v
        (updateYs (updateXs s (c * a + d * b))
          (generateOutputSample (updateXs s (c * a + d * b))))
        (updateYs (updateXs su a) (generateOutputSample (updateXs su a)))
        (updateYs (updateXs sv b) (generateOutputSample (updateXs sv b)))
        hlen2
        ⟨hu0, hu1, hu2, hu3, hu4, hu5⟩
        ⟨hv0, hv1, hv2, hv3, hv4, hv5⟩
        ⟨rfl, hx0, key, hy1⟩
      simp only [linComb, List.zipWith_cons_cons, processBuffer_cons] at step ⊢
      exact congrArg₂ List.cons key step

/-- C37: the filter is linear.  For every coefficient set (every state `s`, its
history zeroed by `initHist`), all scalars `c`, `d` and all input buffers `u`,
`v` of equal length, `processBuffer` on `c * u + d * v` writes
`c * processBuffer(u) + d * processBuffer(v)`, sample for sample (in exact
arithmetic; the quotient by `a0 = 0` is `0` in the model). -/
theorem processBuffer_linear (s : Biquad α) (c d : α) (u v : List α)
    (h : u.length = v.length) :
    (processBuffer (initHist s) (linComb c d u v)).2 =
      linComb c d (processBuffer (initHist s) u).2 (processBuffer (initHist s) v).2 :=
  processBuffer_linear_of_related c d u v (initHist s) (initHist s) (initHist s) h
    ⟨rfl, rfl, rfl, rfl, rfl, rfl⟩ ⟨rfl, rfl, rfl, rfl, rfl, rfl⟩
    (by simp [initHist])

theorem processBuffer_linear_witness :
    [1, 0, 2].length = [0, 1, 1].length ∧
    (processBuffer (initHist (sampleState 1 0 : Biquad ℚ))
        (linComb 2 3 [1, 0, 2] [0, 1, 1])).2 =
      linComb 2 3 (processBuffer (initHist (sampleState 1 0 : Biquad ℚ)) [1, 0, 2]).2
        (processBuffer (initHist (sampleState 1 0 : Biquad ℚ)) [0, 1, 1]).2 ∧
    linComb (2 : ℚ) 3 [1, 0, 2] [0, 1, 1] = [2, 3, 7] ∧
    (processBuffer (initHist (sampleState 1 0 : Biquad ℚ)) [1, 0, 2]).2 ≠ [0, 0, 0] :=
  ⟨by decide, processBuffer_linear (sampleState 1 0) 2 3 [1, 0, 2] [0, 1, 1] (by decide),
    by norm_num [linComb],
    by norm_num [processBuffer, updateXs, updateYs, generateOutputSample, initHist,
      sampleState]⟩

end Linearity

section Averages

/-- C31: `geometricMean` raises the product of the samples to the truncated `int`
quotient `1/nFrames`, which is `0` for every buffer of two or more samples, so
the result there is `pow(acc, 0) = 1` whatever the samples; only a one-sample
buffer gets the exponent `1`.  On the buffer `{4, 4}` the code returns `1`,
the `nFrames`-th root of the product is `4`. -/
theorem geometricMean_exponent_is_truncated :
    (∀ (x y : ℝ) (rest : List ℝ),
      geometricMean (Libm.mk Real.sin Real.cos Real.sinh Real.sqrt Real.rpow)
        (x :: y :: rest) = some 1) ∧
    (∀ x : ℝ,
      geometricMean (Libm.mk Real.sin Real.cos Real.sinh Real.sqrt Real.rpow) [x] = some x) ∧
    geometricMean (Libm.mk Real.sin Real.cos Real.sinh Real.sqrt Real.rpow) [4, 4] =
      some (1 : ℝ) ∧
    geometricMeanSpec (Libm.mk Real.sin Real.cos Real.sinh Real.sqrt Real.rpow) [4, 4] =
      (4 : ℝ) := by
  have h2 : ∀ (x y : ℝ) (rest : List ℝ),
      geometricMean (Libm.mk Real.sin Real.cos Real.sinh Real.sqrt Real.rpow)
        (x :: y :: rest) = some 1 := by
    intro x y rest
    have hq : Int.tdiv 1 (((x :: y :: rest).length : Nat) : Int) = 0 := by
      apply Int.tdiv_eq_zero_of_lt (by norm_num)
      simp only [List.length_cons]
      push_cast
      omega
    simp only [geometricMean, hq, Int.cast_zero]
    exact congrArg some (Real.rpow_zero _)
  refine ⟨h2, ?_, h2 4 4 [], ?_⟩
  · intro x
    simp only [geometricMean, List.length_singleton, List.foldl_nil]
    have hq : Int.tdiv 1 ((1 : Nat) : Int) = 1 := by decide
    rw [hq, Int.cast_one]
    exact congrArg some (Real.rpow_one x)
  · have h16 : product ([4, 4] : List ℝ) = 4 ^ (2 : ℕ) := by
      norm_num [product]
    have hhalf : (1 / (((([4, 4] : List ℝ).length : Nat) : Int) : ℝ)) = 1 / 2 := by
      norm_num
    simp only [geometricMeanSpec, h16, hhalf]
    show ((4 : ℝ) ^ (2 : ℕ)) ^ ((1 : ℝ) / 2) = 4
    rw [← Real.rpow_natCast, ← Real.rpow_mul (by norm_num)]
    norm_num

/-- C32: in its branch for a negative sample `absMidPoint` compares the absolute
value `tmp` but stores the sample itself, so negative samples enter the
midpoint with their sign.  On the buffers `{-1}` and `{-3, 1}` the code returns
`-1`; the midpoint of the absolute values is `1` and `2`.  The level that
`Dynamics::getBufferLevel` reports in mode 4 is this value. -/
theorem absMidPoint_stores_negative_samples :
    absMidPoint ([-1] : List ℝ) = -1 ∧
    absMidPointSpec ([-1] : List ℝ) = some 1 ∧
    absMidPoint ([-3, 1] : List ℝ) = -1 ∧
    absMidPointSpec ([-3, 1] : List ℝ) = some 2 ∧
    peak ([-3, 1] : List ℝ) = 3 ∧
    Dynamics.getBufferLevel (Libm.mk Real.sin Real.cos Real.sinh Real.sqrt Real.rpow) 0
      (Dynamics.setParamsPc (Dynamics.ctor1 sampleDynamics 4) (1 / 2) 2 3 4 (1 / 4) 5)
      ([-3, 1] : List ℝ) = -1 := by
  have hmid : absMidPoint ([-3, 1] : List ℝ) = -1 := by
    norm_num [absMidPoint, absMidPointStep, DBL_MAX, DBL_LOWEST]
  refine ⟨?_, ?_, hmid, ?_, ?_, ?_⟩
  · norm_num [absMidPoint, absMidPointStep, DBL_MAX, DBL_LOWEST]
  · norm_num [absMidPointSpec]
  · norm_num [absMidPointSpec]
  · norm_num [peak, DBL_MAX, DBL_LOWEST]
  · have hmode : (Dynamics.setParamsPc (Dynamics.ctor1 (sampleDynamics : Dynamics ℝ) 4)
        (1 / 2) 2 3 4 (1 / 4) 5).mode = 4 := by
      simp [Dynamics.setParamsPc, Dynamics.ctor1]
    simp only [Dynamics.getBufferLevel, hmode]
    exact hmid

end Averages

section DynamicsAccessors

variable {α : Type} [LinearOrderedField α]

/-- C33: the two-argument constructor `Dynamics(m, fs)` stores mode `5` for every
`m < 5` (and `0` otherwise), where `Dynamics(m)` stores `m`; `getFs()` returns
`fs`.  For `m = 1`, `fs = 48000` the stored modes are `5` and `1`. -/
theorem ctor2_stores_mode_five (raw : Dynamics α) (m : Nat) (fs : α) :
    (Dynamics.ctor2 raw m fs).getMode = (if m < 5 then 5 else 0) ∧
    (Dynamics.ctor1 raw m).getMode = (if m < 5 then m else 0) ∧
    (Dynamics.ctor2 raw m fs).getFs = fs ∧
    (Dynamics.ctor2 (sampleDynamics : Dynamics α) 1 48000).getMode = 5 ∧
    (Dynamics.ctor1 (sampleDynamics : Dynamics α) 1).getMode = 1 := by
  refine ⟨?_, ?_, ?_, ?_, ?_⟩
  · by_cases h : m < 5 <;> simp [Dynamics.ctor2, Dynamics.getMode, h]
  · by_cases h : m < 5 <;> simp [Dynamics.ctor1, Dynamics.getMode, h]
  · by_cases h : m < 5 <;> simp [Dynamics.ctor2, Dynamics.getFs, h]
  · simp [Dynamics.ctor2, Dynamics.getMode]
  · simp [Dynamics.ctor1, Dynamics.getMode]

/-- C34: `setRatio(r)` assigns the member `thresh`: after the call `getRatio()`
returns the old ratio and `getThresh()` returns `r`.  On a state with ratio 2
and threshold 1/2, `setRatio(4)` leaves `getRatio() = 2` and
`getThresh() = 4`. -/
theorem setRatio_writes_thresh (s : Dynamics α) (r : α) :
    (Dynamics.setRatio s r).getRatio = s.getRatio ∧
    (Dynamics.setRatio s r).getThresh = r ∧
    (Dynamics.setRatio (sampleDynamics : Dynamics α) 4).getRatio = 2 ∧
    (Dynamics.setRatio (sampleDynamics : Dynamics α) 4).getRatio ≠ 4 ∧
    (Dynamics.setRatio (sampleDynamics : Dynamics α) 4).getThresh = 4 ∧
    (sampleDynamics : Dynamics α).getThresh = 1 / 2 := by
  refine ⟨rfl, rfl, rfl, ?_, rfl, rfl⟩
  show (2 : α) ≠ 4
  norm_num

end DynamicsAccessors

section DynamicsInvariant

variable {α : Type} [LinearOrderedField α]

/-- One pass of the loop body writes none of `ratio`, `atk`, `rel`. -/
theorem processSample_frame (l : α) (s : Dynamics α) (x : α) :
    (Dynamics.processSample l s x).1.ratio = s.ratio ∧
    (Dynamics.processSample l s x).1.atk = s.atk ∧
    (Dynamics.processSample l s x).1.rel = s.rel := by
  simp only [Dynamics.processSample]
  split_ifs <;> exact ⟨rfl, rfl, rfl⟩

/-- The effective ratio after one pass of the loop body, as a function of the
effective ratio before it. -/
theorem processSample_effRatio_closed (l : α) (s : Dynamics α) (x : α) :
    (Dynamics.processSample l s x).1.effRatio =
      if s.ratio < 1 then
        if l > s.thresh then
          (if (if s.effRatio > s.ratio then s.effRatio - s.effRatio / (s.atk : α)
                else s.effRatio) < s.ratio then s.ratio
            else (if s.effRatio > s.ratio then s.effRatio - s.effRatio / (s.atk : α)
                else s.effRatio))
        else
          (if (if s.effRatio < 1 then s.effRatio + s.effRatio / (s.rel : α)
                else s.effRatio) > 1 then 1
            else (if s.effRatio < 1 then s.effRatio + s.effRatio / (s.rel : α)
                else s.effRatio))
      else
        if l > s.thresh then
          (if (if s.effRatio < s.ratio then s.effRatio + s.effRatio / (s.atk : α)
                else s.effRatio) > s.ratio then s.ratio
            else (if s.effRatio < s.ratio then s.effRatio + s.effRatio / (s.atk : α)
                else s.effRatio))
        else
          (if (if s.effRatio > 1 then s.effRatio - s.effRatio / (s.rel : α)
                else s.effRatio) < 1 then 1
            else (if s.effRatio > 1 then s.effRatio - s.effRatio / (s.rel : α)
                else s.effRatio)) := by
  simp only [Dynamics.processSample]
  split_ifs <;> simp_all

/-- One pass of the loop body keeps the effective ratio between unity and the
target ratio (and non-negative). -/
theorem processSample_effRatio_bounds (l : α) (s : Dynamics α) (x : α)
    (ha : 1 ≤ s.atk) (hr : 1 ≤ s.rel)
    (h1 : s.ratio < 1 → s.ratio ≤ s.effRatio ∧ 0 ≤ s.effRatio ∧ s.effRatio ≤ 1)
    (h2 : 1 ≤ s.ratio → 1 ≤ s.effRatio ∧ s.effRatio ≤ s.ratio) :
    (s.ratio < 1 → s.ratio ≤ (Dynamics.processSample l s x).1.effRatio ∧
      0 ≤ (Dynamics.processSample l s x).1.effRatio ∧
      (Dynamics.processSample l s x).1.effRatio ≤ 1) ∧
    (1 ≤ s.ratio → 1 ≤ (Dynamics.processSample l s x).1.effRatio ∧
      (Dynamics.processSample l s x).1.effRatio ≤ s.ratio) := by
  rw [processSample_effRatio_closed]
  have hA : (1 : α) ≤ (s.atk : α) := by exact_mod_cast ha
  have hR : (1 : α) ≤ (s.rel : α) := by exact_mod_cast hr
  have he0 : 0 ≤ s.effRatio := by
    rcases lt_or_le s.ratio 1 with h | h
    · exact (h1 h).2.1
    · linarith [(h2 h).1]
  have hqa1 : 0 ≤ s.effRatio / (s.atk : α) := div_nonneg he0 (by linarith)
  have hqa2 : s.effRatio / (s.atk : α) ≤ s.effRatio := div_le_self he0 hA
  have hqr1 : 0 ≤ s.effRatio / (s.rel : α) := div_nonneg he0 (by linarith)
  have hqr2 : s.effRatio / (s.rel : α) ≤ s.effRatio := div_le_self he0 hR
  by_cases hrat : s.ratio < 1
  · obtain ⟨b1, b2, b3⟩ := h1 hrat
    refine ⟨fun _ => ?_, fun h => absurd hrat (not_lt.mpr h)⟩
    simp only [hrat, if_true]
    split_ifs <;> refine ⟨?_, ?_, ?_⟩ <;> linarith
  · have hge : 1 ≤ s.ratio := not_lt.mp hrat
    obtain ⟨b1, b2⟩ := h2 hge
    refine ⟨fun h => absurd h hrat, fun _ => ?_⟩
    simp only [hrat, if_false]
    split_ifs <;> refine ⟨?_, ?_⟩ <;> linarith

/-- The loop of `processBuffer` keeps the parameters and the bounds of the
effective ratio. -/
theorem processLoop_effRatio_bounds (l : α) (input : List α) :
    ∀ s : Dynamics α, 1 ≤ s.atk → 1 ≤ s.rel →
      (s.ratio < 1 → s.ratio ≤ s.effRatio ∧ 0 ≤ s.effRatio ∧ s.effRatio ≤ 1) →
      (1 ≤ s.ratio → 1 ≤ s.effRatio ∧ s.effRatio ≤ s.ratio) →
      (Dynamics.processLoop l s input).1.ratio = s.ratio ∧
      (Dynamics.processLoop l s input).1.atk = s.atk ∧
      (Dynamics.processLoop l s input).1.rel = s.rel ∧
      (s.ratio < 1 → s.ratio ≤ (Dynamics.processLoop l s input).1.effRatio ∧
        0 ≤ (Dynamics.processLoop l s input).1.effRatio ∧
        (Dynamics.processLoop l s input).1.effRatio ≤ 1) ∧
      (1 ≤ s.ratio → 1 ≤ (Dynamics.processLoop l s input).1.effRatio ∧
        (Dynamics.processLoop l s input).1.effRatio ≤ s.ratio) := by
  induction input with
  | nil => intro s _ _ h1 h2; exact ⟨rfl, rfl, rfl, h1, h2⟩
  | cons x rest ih =>
    intro s ha hr h1 h2
    obtain ⟨f1, f2, f3⟩ := processSample_frame l s x
    obtain ⟨g1, g2⟩ := processSample_effRatio_bounds l s x ha hr h1 h2
    have step := ih (Dynamics.processSample l s x).1 (by rw [f2]; exact ha)
      (by rw [f3]; exact hr) (by rw [f1]; exact g1) (by rw [f1]; exact g2)
    rw [f1, f2, f3] at step
    exact step

/-- A sequence of `processBuffer` calls keeps the parameters and the bounds of the
effective ratio. -/
theorem processCalls_effRatio_bounds (lm : Libm α) (calls : List (α × List α)) :
    ∀ s : Dynamics α, 1 ≤ s.atk → 1 ≤ s.rel →
      (s.ratio < 1 → s.ratio ≤ s.effRatio ∧ 0 ≤ s.effRatio ∧ s.effRatio ≤ 1) →
      (1 ≤ s.ratio → 1 ≤ s.effRatio ∧ s.effRatio ≤ s.ratio) →
      (Dynamics.processCalls lm s calls).ratio = s.ratio ∧
      (s.ratio < 1 → s.ratio ≤ (Dynamics.processCalls lm s calls).effRatio ∧
        (Dynamics.processCalls lm s calls).effRatio ≤ 1) ∧
      (1 ≤ s.ratio → 1 ≤ (Dynamics.processCalls lm s calls).effRatio ∧
        (Dynamics.processCalls lm s calls).effRatio ≤ s.ratio) := by
  induction calls with
  | nil => intro s _ _ h1 h2; exact ⟨rfl, fun h => ⟨(h1 h).1, (h1 h).2.2⟩, h2⟩
  | cons c rest ih =>
    intro s ha hr h1 h2
    obtain ⟨f1, f2, f3, g1, g2⟩ :=
      processLoop_effRatio_bounds (Dynamics.getBufferLevel lm c.1 s c.2) c.2 s ha hr h1 h2
    have step := ih (Dynamics.processLoop (Dynamics.getBufferLevel lm c.1 s c.2) s c.2).1
      (by rw [f2]; exact ha) (by rw [f3]; exact hr) (by rw [f1]; exact g1)
      (by rw [f1]; exact g2)
    rw [f1] at step
    exact step

/-- C38: the effective ratio stays between unity and the target ratio.  For a
`Dynamics` state with `effRatio = 1` (the value every constructor stores),
`atk >= 1` and `rel >= 1`, after any sequence of `processBuffer` calls on any
buffers the target ratio is unchanged, and `effRatio` lies in `[ratio, 1]` when
`ratio < 1` and in `[1, ratio]` when `ratio >= 1`. -/
theorem effRatio_between_unity_and_ratio (lm : Libm α) (s : Dynamics α)
    (calls : List (α × List α))
    (h0 : s.effRatio = 1) (ha : 1 ≤ s.atk) (hr : 1 ≤ s.rel) :
    (Dynamics.processCalls lm s calls).ratio = s.ratio ∧
    (s.ratio < 1 → s.ratio ≤ (Dynamics.processCalls lm s calls).getEffRatio ∧
      (Dynamics.processCalls lm s calls).getEffRatio ≤ 1) ∧
    (1 ≤ s.ratio → 1 ≤ (Dynamics.processCalls lm s calls).getEffRatio ∧
      (Dynamics.processCalls lm s calls).getEffRatio ≤ s.ratio) :=
  processCalls_effRatio_bounds lm calls s ha hr
    (fun h => by rw [h0]; exact ⟨le_of_lt h, zero_le_one, le_refl 1⟩)
    (fun h => by rw [h0]; exact ⟨le_refl 1, h⟩)

theorem effRatio_between_unity_and_ratio_witness :
    (Dynamics.setParamsPc (Dynamics.ctor0 (sampleDynamics : Dynamics ℝ))
      (1 / 2) (1 / 4) 2 3 (1 / 8) 1).effRatio = 1 ∧
    (1 : Int) ≤ (Dynamics.setParamsPc (Dynamics.ctor0 (sampleDynamics : Dynamics ℝ))
      (1 / 2) (1 / 4) 2 3 (1 / 8) 1).atk ∧
    (1 : Int) ≤ (Dynamics.setParamsPc (Dynamics.ctor0 (sampleDynamics : Dynamics ℝ))
      (1 / 2) (1 / 4) 2 3 (1 / 8) 1).rel ∧
    ((Dynamics.processCalls (Libm.mk Real.sin Real.cos Real.sinh Real.sqrt Real.rpow)
        (Dynamics.setParamsPc (Dynamics.ctor0 (sampleDynamics : Dynamics ℝ))
          (1 / 2) (1 / 4) 2 3 (1 / 8) 1)
        [(0, [1, -1, 1]), (0, [0, 0])]).ratio =
      (Dynamics.setParamsPc (Dynamics.ctor0 (sampleDynamics : Dynamics ℝ))
        (1 / 2) (1 / 4) 2 3 (1 / 8) 1).ratio ∧
     ((Dynamics.setParamsPc (Dynamics.ctor0 (sampleDynamics : Dynamics ℝ))
        (1 / 2) (1 / 4) 2 3 (1 / 8) 1).ratio < 1 →
      (Dynamics.setParamsPc (Dynamics.ctor0 (sampleDynamics : Dynamics ℝ))
        (1 / 2) (1 / 4) 2 3 (1 / 8) 1).ratio ≤
        (Dynamics.processCalls (Libm.mk Real.sin Real.cos Real.sinh Real.sqrt Real.rpow)
          (Dynamics.setParamsPc (Dynamics.ctor0 (sampleDynamics : Dynamics ℝ))
            (1 / 2) (1 / 4) 2 3 (1 / 8) 1)
          [(0, [1, -1, 1]), (0, [0, 0])]).getEffRatio ∧
      (Dynamics.processCalls (Libm.mk Real.sin Real.cos Real.sinh Real.sqrt Real.rpow)
          (Dynamics.setParamsPc (Dynamics.ctor0 (sampleDynamics : Dynamics ℝ))
            (1 / 2) (1 / 4) 2 3 (1 / 8) 1)
          [(0, [1, -1, 1]), (0, [0, 0])]).getEffRatio ≤ 1) ∧
     (1 ≤ (Dynamics.setParamsPc (Dynamics.ctor0 (sampleDynamics : Dynamics ℝ))
        (1 / 2) (1 / 4) 2 3 (1 / 8) 1).ratio →
      1 ≤ (Dynamics.processCalls (Libm.mk Real.sin Real.cos Real.sinh Real.sqrt Real.rpow)
          (Dynamics.setParamsPc (Dynamics.ctor0 (sampleDynamics : Dynamics ℝ))
            (1 / 2) (1 / 4) 2 3 (1 / 8) 1)
          [(0, [1, -1, 1]), (0, [0, 0])]).getEffRatio ∧
      (Dynamics.processCalls (Libm.mk Real.sin Real.cos Real.sinh Real.sqrt Real.rpow)
          (Dynamics.setParamsPc (Dynamics.ctor0 (sampleDynamics : Dynamics ℝ))
            (1 / 2) (1 / 4) 2 3 (1 / 8) 1)
          [(0, [1, -1, 1]), (0, [0, 0])]).getEffRatio ≤
        (Dynamics.setParamsPc (Dynamics.ctor0 (sampleDynamics : Dynamics ℝ))
          (1 / 2) (1 / 4) 2 3 (1 / 8) 1).ratio)) ∧
    (Dynamics.processCalls (Libm.mk Real.sin Real.cos Real.sinh Real.sqrt Real.rpow)
        (Dynamics.setParamsPc (Dynamics.ctor0 (sampleDynamics : Dynamics ℝ))
          (1 / 2) (1 / 4) 2 3 (1 / 8) 1)
        [(0, [1, -1, 1]), (0, [0, 0])]).getEffRatio = 4 / 9 :=
  ⟨rfl, by decide, by decide,
    effRatio_between_unity_and_ratio (Libm.mk Real.sin Real.cos Real.sinh Real.sqrt Real.rpow)
      (Dynamics.setParamsPc (Dynamics.ctor0 (sampleDynamics : Dynamics ℝ))
        (1 / 2) (1 / 4) 2 3 (1 / 8) 1)
      [(0, [1, -1, 1]), (0, [0, 0])] rfl (by decide) (by decide),
    by
      norm_num [Dynamics.processCalls, Dynamics.processBuffer, Dynamics.processLoop,
        Dynamics.processSample, Dynamics.getBufferLevel, Dynamics.setParamsPc,
        Dynamics.ctor0, Dynamics.getEffRatio, peak, DBL_LOWEST, DBL_MAX, sampleDynamics]⟩

end DynamicsInvariant

section Crossover

variable {α : Type} [LinearOrderedField α]

/-- The algebra behind the DC gains of the crossover: with the normalising term
`A = 4*w2*c2 + 2*bt1 + c4 + 2*bt2 + w4` nonzero, the low-pass numerator
coefficients sum to `1` plus the sum of the denominator coefficients. -/
theorem crossover_lowpass_sum (w2 c2 w4 c4 bt1 bt2 A : α)
    (hA : A = 4 * w2 * c2 + 2 * bt1 + c4 + 2 * bt2 + w4) (hne : A ≠ 0) :
    w4 / A + 4 * w4 / A + 6 * w4 / A + 4 * w4 / A + w4 / A =
      1 + (4 * (w4 + bt1 - c4 - bt2)) / A + (6 * w4 - 8 * w2 * c2 + 6 * c4) / A +
        (4 * (w4 - bt1 + bt2 - c4)) / A +
        (c4 - 2 * bt1 + w4 - 2 * bt2 + 4 * w2 * c2) / A := by
  field_simp
  rw [hA]
  ring

/-- The high-pass numerator coefficients of the crossover sum to `0`. -/
theorem crossover_highpass_sum (c4 A : α) :
    c4 / A + -4 * c4 / A + 6 * c4 / A + -4 * c4 / A + c4 / A = 0 := by
  ring

/-- C39: the Linkwitz-Riley crossover passes DC in the low band and blocks it in the
high band.  For every previous state, every `fs` and `f` and every tangent
function, if the normalising term `at` that `updateParams` stores is nonzero,
the stored coefficients satisfy
`la0 + la1 + la2 + la3 + la4 = 1 + b1 + b2 + b3 + b4` and
`ha0 + ha1 + ha2 + ha3 + ha4 = 0`. -/
theorem updateParams_dc_gains (tan : α → α) (s : LinkwitzRiley α) (fs f : α)
    (hat : (LinkwitzRiley.updateParams tan s fs f).at_ ≠ 0) :
    (LinkwitzRiley.updateParams tan s fs f).la0 + (LinkwitzRiley.updateParams tan s fs f).la1 +
        (LinkwitzRiley.updateParams tan s fs f).la2 +
        (LinkwitzRiley.updateParams tan s fs f).la3 +
        (LinkwitzRiley.updateParams tan s fs f).la4 =
      1 + (LinkwitzRiley.updateParams tan s fs f).b1 +
        (LinkwitzRiley.updateParams tan s fs f).b2 +
        (LinkwitzRiley.updateParams tan s fs f).b3 +
        (LinkwitzRiley.updateParams tan s fs f).b4 ∧
    (LinkwitzRiley.updateParams tan s fs f).ha0 + (LinkwitzRiley.updateParams tan s fs f).ha1 +
        (LinkwitzRiley.updateParams tan s fs f).ha2 +
        (LinkwitzRiley.updateParams tan s fs f).ha3 +
        (LinkwitzRiley.updateParams tan s fs f).ha4 = 0 :=
  ⟨crossover_lowpass_sum (LinkwitzRiley.updateParams tan s fs f).w2
      (LinkwitzRiley.updateParams tan s fs f).c2 (LinkwitzRiley.updateParams tan s fs f).w4
      (LinkwitzRiley.updateParams tan s fs f).c4 (LinkwitzRiley.updateParams tan s fs f).bt1
      (LinkwitzRiley.updateParams tan s fs f).bt2 (LinkwitzRiley.updateParams tan s fs f).at_
      rfl hat,
    crossover_highpass_sum (LinkwitzRiley.updateParams tan s fs f).c4
      (LinkwitzRiley.updateParams tan s fs f).at_⟩

/-- With the real tangent, a positive cutoff `f` and a sample rate `fs >= 4 * f`,
the normalising term `at` that `updateParams` stores is positive. -/
theorem updateParams_at_pos (s : LinkwitzRiley ℝ) (fs f : ℝ) (hf : 0 < f)
    (hny : 4 * f ≤ fs) :
    0 < (LinkwitzRiley.updateParams Real.tan s fs f).at_ := by
  have hfs : 0 < fs := by linarith
  have hFs : (LinkwitzRiley.updateParams Real.tan s fs f).Fs = fs := by
    show (if fs > 0 then fs else s.Fs) = fs
    rw [if_pos hfs]
  have hfc : (LinkwitzRiley.updateParams Real.tan s fs f).fc = f := by
    show (if f > 0 then f else s.fc) = f
    rw [if_pos hf]
  have hw0 : (LinkwitzRiley.updateParams Real.tan s fs f).w0 =
      2 * LinkwitzRiley.M_PI * (LinkwitzRiley.updateParams Real.tan s fs f).fc := rfl
  have hc1 : (LinkwitzRiley.updateParams Real.tan s fs f).c1 =
      (LinkwitzRiley.updateParams Real.tan s fs f).w0 /
        Real.tan (LinkwitzRiley.M_PI * (LinkwitzRiley.updateParams Real.tan s fs f).fc /
          (LinkwitzRiley.updateParams Real.tan s fs f).Fs) := rfl
  have hat : (LinkwitzRiley.updateParams Real.tan s fs f).at_ =
      4 * ((LinkwitzRiley.updateParams Real.tan s fs f).w0 *
            (LinkwitzRiley.updateParams Real.tan s fs f).w0) *
          ((LinkwitzRiley.updateParams Real.tan s fs f).c1 *
            (LinkwitzRiley.updateParams Real.tan s fs f).c1) +
        2 * (LinkwitzRiley.SQRT2 *
          ((LinkwitzRiley.updateParams Real.tan s fs f).w0 *
              (LinkwitzRiley.updateParams Real.tan s fs f).w0 *
            (LinkwitzRiley.updateParams Real.tan s fs f).w0) *
          (LinkwitzRiley.updateParams Real.tan s fs f).c1) +
        (LinkwitzRiley.updateParams Real.tan s fs f).c1 *
            (LinkwitzRiley.updateParams Real.tan s fs f).c1 *
          ((LinkwitzRiley.updateParams Real.tan s fs f).c1 *
            (LinkwitzRiley.updateParams Real.tan s fs f).c1) +
        2 * (LinkwitzRiley.SQRT2 * (LinkwitzRiley.updateParams Real.tan s fs f).w0 *
          ((LinkwitzRiley.updateParams Real.tan s fs f).c1 *
              (LinkwitzRiley.updateParams Real.tan s fs f).c1 *
            (LinkwitzRiley.updateParams Real.tan s fs f).c1)) +
        (LinkwitzRiley.updateParams Real.tan s fs f).w0 *
            (LinkwitzRiley.updateParams Real.tan s fs f).w0 *
          ((LinkwitzRiley.updateParams Real.tan s fs f).w0 *
            (LinkwitzRiley.updateParams Real.tan s fs f).w0) := rfl
  have hpi : (0 : ℝ) < LinkwitzRiley.M_PI := by norm_num [LinkwitzRiley.M_PI]
  have hpi4 : (LinkwitzRiley.M_PI : ℝ) < 4 := by norm_num [LinkwitzRiley.M_PI]
  have hsq : (0 : ℝ) < LinkwitzRiley.SQRT2 := by norm_num [LinkwitzRiley.SQRT2]
  have hw0pos : 0 < (LinkwitzRiley.updateParams Real.tan s fs f).w0 := by
    rw [hw0, hfc]; positivity
  have harg0 : 0 < LinkwitzRiley.M_PI * f / fs := by positivity
  have harg1 : LinkwitzRiley.M_PI * f / fs < Real.pi / 2 := by
    have h3 := Real.pi_gt_three
    rw [div_lt_iff₀ hfs]
    nlinarith
  have htan : 0 < Real.tan (LinkwitzRiley.M_PI * f / fs) :=
    Real.tan_pos_of_pos_of_lt_pi_div_two harg0 harg1
  have hc1pos : 0 < (LinkwitzRiley.updateParams Real.tan s fs f).c1 := by
    rw [hc1, hfc, hFs]; exact div_pos hw0pos htan
  rw [hat]
  generalize (LinkwitzRiley.updateParams Real.tan s fs f).w0 = w at hw0pos ⊢
  generalize (LinkwitzRiley.updateParams Real.tan s fs f).c1 = c at hc1pos ⊢
  positivity

theorem updateParams_dc_gains_witness :
    (LinkwitzRiley.updateParams Real.tan sampleCrossover 44100 440).at_ ≠ 0 ∧
    ((LinkwitzRiley.updateParams Real.tan sampleCrossover 44100 440).la0 +
        (LinkwitzRiley.updateParams Real.tan sampleCrossover 44100 440).la1 +
        (LinkwitzRiley.updateParams Real.tan sampleCrossover 44100 440).la2 +
        (LinkwitzRiley.updateParams Real.tan sampleCrossover 44100 440).la3 +
        (LinkwitzRiley.updateParams Real.tan sampleCrossover 44100 440).la4 =
      1 + (LinkwitzRiley.updateParams Real.tan sampleCrossover 44100 440).b1 +
        (LinkwitzRiley.updateParams Real.tan sampleCrossover 44100 440).b2 +
        (LinkwitzRiley.updateParams Real.tan sampleCrossover 44100 440).b3 +
        (LinkwitzRiley.updateParams Real.tan sampleCrossover 44100 440).b4 ∧
    (LinkwitzRiley.updateParams Real.tan sampleCrossover 44100 440).ha0 +
        (LinkwitzRiley.updateParams Real.tan sampleCrossover 44100 440).ha1 +
        (LinkwitzRiley.updateParams Real.tan sampleCrossover 44100 440).ha2 +
        (LinkwitzRiley.updateParams Real.tan sampleCrossover 44100 440).ha3 +
        (LinkwitzRiley.updateParams Real.tan sampleCrossover 44100 440).ha4 = 0) :=
  ⟨ne_of_gt (updateParams_at_pos sampleCrossover 44100 440 (by norm_num) (by norm_num)),
    updateParams_dc_gains Real.tan sampleCrossover 44100 440
      (ne_of_gt (updateParams_at_pos sampleCrossover 44100 440 (by norm_num) (by norm_num)))⟩

end Crossover

section YinReads

variable {α : Type} [LinearOrderedField α]

/-- A read inside the array of a well-formed `Yin` object succeeds. -/
theorem yin_read_of_lt (s : Yin α) (hwf : s.WellFormed) (i : Int) (h0 : 0 ≤ i)
    (h1 : i < s.bufSize) : s.read i = some (s.val i) := by
  unfold Yin.WellFormed at hwf
  have hlt : i.toNat < s.buffer.length := by omega
  simp only [Yin.read, Yin.val, not_lt.mpr h0, if_false, List.getD_eq_getElem?_getD,
    List.getElem?_eq_getElem hlt, Option.getD_some]

/-- C40: parabolic refinement moves the lag estimate by at most half a sample.  For
every well-formed `Yin` object and every interior `tauEst`
(`1 <= tauEst`, `tauEst + 1 < bufSize`) with
`buffer[tauEst] <= buffer[tauEst - 1]`, `buffer[tauEst] <= buffer[tauEst + 1]`
and one of the two strict, `interpolate(tauEst)` returns the vertex of the
parabola, and it lies in `[tauEst - 1/2, tauEst + 1/2]`. -/
theorem interpolate_within_half_sample (s : Yin α) (tauEst : Int) (hwf : s.WellFormed)
    (h1 : 1 ≤ tauEst) (h2 : tauEst + 1 < s.bufSize)
    (hl : s.val tauEst ≤ s.val (tauEst - 1)) (hr : s.val tauEst ≤ s.val (tauEst + 1))
    (hs : s.val tauEst < s.val (tauEst - 1) ∨ s.val tauEst < s.val (tauEst + 1)) :
    ∃ t : α, s.interpolate tauEst = some t ∧
      t = (tauEst : α) + (s.val (tauEst + 1) - s.val (tauEst - 1)) /
        (2 * (2 * s.val tauEst - s.val (tauEst + 1) - s.val (tauEst - 1))) ∧
      (tauEst : α) - 1 / 2 ≤ t ∧ t ≤ (tauEst : α) + 1 / 2 := by
  have r0 := yin_read_of_lt s hwf (tauEst - 1) (by omega) (by omega)
  have r1 := yin_read_of_lt s hwf tauEst (by omega) (by omega)
  have r2 := yin_read_of_lt s hwf (tauEst + 1) (by omega) (by omega)
  have e1 : ¬ tauEst < 1 := by omega
  have e2 : ¬ tauEst - 1 = tauEst := by omega
  have e3 : ¬ tauEst + 1 = tauEst := by omega
  refine ⟨_, ?_, rfl, ?_, ?_⟩
  · simp only [Yin.interpolate, e1, h2, e2, e3, if_true, if_false, r0, r1, r2,
      Option.bind_eq_bind, Option.some_bind, Option.pure_def]
  · have hD : 2 * (2 * s.val tauEst - s.val (tauEst + 1) - s.val (tauEst - 1)) < 0 := by
      rcases hs with h | h <;> linarith
    have : -(1 / 2 : α) ≤ (s.val (tauEst + 1) - s.val (tauEst - 1)) /
        (2 * (2 * s.val tauEst - s.val (tauEst + 1) - s.val (tauEst - 1))) := by
      rw [le_div_iff_of_neg hD]
      linarith
    linarith
  · have hD : 2 * (2 * s.val tauEst - s.val (tauEst + 1) - s.val (tauEst - 1)) < 0 := by
      rcases hs with h | h <;> linarith
    have : (s.val (tauEst + 1) - s.val (tauEst - 1)) /
        (2 * (2 * s.val tauEst - s.val (tauEst + 1) - s.val (tauEst - 1))) ≤ 1 / 2 := by
      rw [div_le_iff_of_neg hD]
      linarith
    linarith

theorem interpolate_within_half_sample_witness :
    (sampleYin : Yin ℚ).WellFormed ∧ (1 : Int) ≤ 5 ∧ (5 : Int) + 1 < (sampleYin : Yin ℚ).bufSize ∧
    (sampleYin : Yin ℚ).val 5 ≤ (sampleYin : Yin ℚ).val (5 - 1) ∧
    (sampleYin : Yin ℚ).val 5 ≤ (sampleYin : Yin ℚ).val (5 + 1) ∧
    (∃ t : ℚ, (sampleYin : Yin ℚ).interpolate 5 = some t ∧
      t = ((5 : Int) : ℚ) + ((sampleYin : Yin ℚ).val (5 + 1) - (sampleYin : Yin ℚ).val (5 - 1)) /
        (2 * (2 * (sampleYin : Yin ℚ).val 5 - (sampleYin : Yin ℚ).val (5 + 1) -
          (sampleYin : Yin ℚ).val (5 - 1))) ∧
      ((5 : Int) : ℚ) - 1 / 2 ≤ t ∧ t ≤ ((5 : Int) : ℚ) + 1 / 2) ∧
    (sampleYin : Yin ℚ).interpolate 5 = some (29 / 6) :=
  ⟨by simp [Yin.WellFormed, sampleYin], by decide, by simp [sampleYin],
    by norm_num [Yin.val, sampleYin, (show Int.toNat 4 = 4 from rfl),
      (show Int.toNat 5 = 5 from rfl), (show Int.toNat 6 = 6 from rfl)], by norm_num [Yin.val, sampleYin, (show Int.toNat 4 = 4 from rfl),
      (show Int.toNat 5 = 5 from rfl), (show Int.toNat 6 = 6 from rfl)],
    interpolate_within_half_sample sampleYin 5 (by simp [Yin.WellFormed, sampleYin])
      (by decide) (by simp [sampleYin]) (by norm_num [Yin.val, sampleYin, (show Int.toNat 4 = 4 from rfl),
      (show Int.toNat 5 = 5 from rfl), (show Int.toNat 6 = 6 from rfl)])
      (by norm_num [Yin.val, sampleYin, (show Int.toNat 4 = 4 from rfl),
      (show Int.toNat 5 = 5 from rfl), (show Int.toNat 6 = 6 from rfl)]) (Or.inl (by norm_num [Yin.val, sampleYin, (show Int.toNat 4 = 4 from rfl),
      (show Int.toNat 5 = 5 from rfl), (show Int.toNat 6 = 6 from rfl)])),
    by norm_num [Yin.interpolate, Yin.read, sampleYin, (show Int.toNat 4 = 4 from rfl),
      (show Int.toNat 5 = 5 from rfl), (show Int.toNat 6 = 6 from rfl)]⟩

end YinReads

section YinThreshold

variable {α : Type} [LinearOrderedField α]

theorem descend_succ (s : Yin α) (fuel : Nat) (tau : Int) :
    Yin.descend s (fuel + 1) tau =
      if tau + 1 < s.bufSize then
        (s.read (tau + 1)).bind (fun next => (s.read tau).bind (fun cur =>
          if next < cur then Yin.descend s fuel (tau + 1) else some tau))
      else some tau := rfl

theorem searchFrom_succ (s : Yin α) (fuel : Nat) (tau : Int) :
    Yin.searchFrom s (fuel + 1) tau =
      if tau < s.bufSize then
        (s.read tau).bind (fun cur =>
          if cur < s.thresh then
            (Yin.descend s ((s.bufSize - tau).toNat + 1) tau).bind (fun t =>
              (s.read t).bind (fun found => some (t, 1 - found)))
          else Yin.searchFrom s fuel (tau + 1))
      else some (tau, s.prob) := rfl

/-- The inner loop of `absThresh` exits, at the end of the strictly descending run
that starts at `tau`. -/
theorem descend_spec (s : Yin α) (hwf : s.WellFormed) (fuel : Nat) :
    ∀ tau : Int, 0 ≤ tau → tau < s.bufSize → (s.bufSize - tau).toNat ≤ fuel →
      ∃ t : Int, Yin.descend s fuel tau = some t ∧ tau ≤ t ∧ t < s.bufSize ∧
        s.val t ≤ s.val tau ∧
        (∀ k : Int, tau ≤ k → k < t → s.val (k + 1) < s.val k) ∧
        (t + 1 = s.bufSize ∨ s.val t ≤ s.val (t + 1)) := by
  induction fuel with
  | zero => intro tau _ h1 h2; omega
  | succ n ih =>
    intro tau h0 h1 h2
    rw [descend_succ]
    by_cases hnext : tau + 1 < s.bufSize
    · rw [if_pos hnext, yin_read_of_lt s hwf (tau + 1) (by omega) hnext,
        yin_read_of_lt s hwf tau h0 h1]
      simp only [Option.some_bind]
      by_cases hlt : s.val (tau + 1) < s.val tau
      · rw [if_pos hlt]
        obtain ⟨t, e, a1, a2, a3, a4, a5⟩ := ih (tau + 1) (by omega) hnext (by omega)
        refine ⟨t, e, by omega, a2, le_trans a3 (le_of_lt hlt), ?_, a5⟩
        intro k hk1 hk2
        by_cases hk : k = tau
        · rw [hk]; exact hlt
        · exact a4 k (by omega) hk2
      · rw [if_neg hlt]
        exact ⟨tau, rfl, le_refl _, h1, le_refl _, fun k hk1 hk2 => by omega,
          Or.inr (not_lt.mp hlt)⟩
    · rw [if_neg hnext]
      exact ⟨tau, rfl, le_refl _, h1, le_refl _, fun k hk1 hk2 => by omega,
        Or.inl (by omega)⟩

/-- The outer loop of `absThresh` exits: either no lag from `tau` on is below the
threshold and the loop runs to `bufSize`, or it breaks at the end of the
descending run that starts at the first lag below the threshold. -/
theorem searchFrom_spec (s : Yin α) (hwf : s.WellFormed) (fuel : Nat) :
    ∀ tau : Int, 0 ≤ tau → tau ≤ s.bufSize → (s.bufSize - tau).toNat + 1 ≤ fuel →
      (Yin.searchFrom s fuel tau = some (s.bufSize, s.prob) ∧
        ∀ k : Int, tau ≤ k → k < s.bufSize → ¬ s.val k < s.thresh) ∨
      (∃ t0 t : Int, Yin.searchFrom s fuel tau = some (t, 1 - s.val t) ∧
        tau ≤ t0 ∧ t0 ≤ t ∧ t < s.bufSize ∧ s.val t0 < s.thresh ∧ s.val t ≤ s.val t0 ∧
        (∀ k : Int, tau ≤ k → k < t0 → ¬ s.val k < s.thresh) ∧
        (∀ k : Int, t0 ≤ k → k < t → s.val (k + 1) < s.val k) ∧
        (t + 1 = s.bufSize ∨ s.val t ≤ s.val (t + 1))) := by
  induction fuel with
  | zero => intro tau _ _ h2; omega
  | succ n ih =>
    intro tau h0 h1 h2
    rw [searchFrom_succ]
    by_cases hin : tau < s.bufSize
    · rw [if_pos hin, yin_read_of_lt s hwf tau h0 hin]
      simp only [Option.some_bind]
      by_cases hlt : s.val tau < s.thresh
      · rw [if_pos hlt]
        obtain ⟨t, e, a1, a2, a3, a4, a5⟩ :=
          descend_spec s hwf ((s.bufSize - tau).toNat + 1) tau h0 hin (by omega)
        right
        refine ⟨tau, t, ?_, le_refl _, a1, a2, hlt, a3, fun k hk1 hk2 => by omega, a4, a5⟩
        rw [e, Option.some_bind, yin_read_of_lt s hwf t (by omega) a2, Option.some_bind]
      · rw [if_neg hlt]
        rcases ih (tau + 1) (by omega) (by omega) (by omega) with ⟨e, hno⟩ | h
        · left
          refine ⟨e, ?_⟩
          intro k hk1 hk2
          by_cases hk : k = tau
          · rw [hk]; exact hlt
          · exact hno k (by omega) hk2
        · right
          obtain ⟨t0, t, e, a1, a2, a3, a4, a5, a6, a7, a8⟩ := h
          refine ⟨t0, t, e, by omega, a2, a3, a4, a5, ?_, a7, a8⟩
          intro k hk1 hk2
          by_cases hk : k = tau
          · rw [hk]; exact hlt
          · exact a6 k (by omega) hk2
    · rw [if_neg hin]
      left
      have : tau = s.bufSize := by omega
      rw [this]
      exact ⟨rfl, fun k hk1 hk2 => by omega⟩

theorem absThresh_eq (s : Yin α) :
    s.absThresh =
      (Yin.searchFrom s ((s.bufSize - 2).toNat + 1) 2).bind (fun r =>
        if r.1 = s.bufSize then some ({ s with prob := 0 }, -1)
        else (s.read r.1).bind (fun cur =>
          if cur ≥ s.thresh then some ({ s with prob := 0 }, -1)
          else some ({ s with prob := r.2 }, r.1))) := rfl

/-- C35: for every well-formed `Yin` object with `bufSize >= 2`, `absThresh` returns
a result and writes only `prob`.  If no lag `tau` in `[2, bufSize)` has
`buffer[tau] < thresh` it returns `-1` and sets `prob = 0`.  Otherwise it
returns a lag `r` with `2 <= r < bufSize`, `buffer[r] < thresh` and
`r + 1 = bufSize` or `buffer[r+1] >= buffer[r]`, and sets `prob = 1 - buffer[r]`;
`r` is the end of the strictly descending run that starts at the first lag
`t0` below the threshold. -/
theorem absThresh_spec (s : Yin α) (hwf : s.WellFormed) (h2 : 2 ≤ s.bufSize) :
    ∃ (s1 : Yin α) (r : Int), s.absThresh = some (s1, r) ∧
      s1.buffer = s.buffer ∧ s1.bufSize = s.bufSize ∧ s1.thresh = s.thresh ∧ s1.Fs = s.Fs ∧
      ((¬ ∃ k : Int, 2 ≤ k ∧ k < s.bufSize ∧ s.val k < s.thresh) → r = -1 ∧ s1.prob = 0) ∧
      ((∃ k : Int, 2 ≤ k ∧ k < s.bufSize ∧ s.val k < s.thresh) →
        2 ≤ r ∧ r < s.bufSize ∧ s.val r < s.thresh ∧
        (r + 1 = s.bufSize ∨ s.val r ≤ s.val (r + 1)) ∧ s1.prob = 1 - s.val r ∧
        ∃ t0 : Int, 2 ≤ t0 ∧ t0 ≤ r ∧ s.val t0 < s.thresh ∧
          (∀ k : Int, 2 ≤ k → k < t0 → ¬ s.val k < s.thresh) ∧
          (∀ k : Int, t0 ≤ k → k < r → s.val (k + 1) < s.val k)) := by
  rw [absThresh_eq]
  rcases searchFrom_spec s hwf ((s.bufSize - 2).toNat + 1) 2 (by norm_num) h2 (le_refl _)
    with ⟨e, hno⟩ | ⟨t0, t, e, a1, a2, a3, a4, a5, a6, a7, a8⟩
  · refine ⟨{ s with prob := 0 }, -1, ?_, rfl, rfl, rfl, rfl, fun _ => ⟨rfl, rfl⟩, ?_⟩
    · rw [e, Option.some_bind, if_pos rfl]
    · rintro ⟨k, hk1, hk2, hk3⟩
      exact absurd hk3 (hno k hk1 hk2)
  · have hlt : s.val t < s.thresh := lt_of_le_of_lt a5 a4
    refine ⟨{ s with prob := 1 - s.val t }, t, ?_, rfl, rfl, rfl, rfl, ?_, ?_⟩
    · rw [e, Option.some_bind, if_neg (by show ¬ t = s.bufSize; omega),
        yin_read_of_lt s hwf t (by omega) a3, Option.some_bind,
        if_neg (not_le.mpr hlt)]
    · intro hnone
      exact absurd ⟨t0, a1, by omega, a4⟩ hnone
    · intro _
      exact ⟨by omega, a3, hlt, a8, rfl, t0, a1, a2, a4, a6, a7⟩

theorem absThresh_spec_witness :
    (sampleYin : Yin ℚ).WellFormed ∧ (2 : Int) ≤ (sampleYin : Yin ℚ).bufSize ∧
    (∃ (s1 : Yin ℚ) (r : Int), (sampleYin : Yin ℚ).absThresh = some (s1, r) ∧
      s1.buffer = (sampleYin : Yin ℚ).buffer ∧ s1.bufSize = (sampleYin : Yin ℚ).bufSize ∧
      s1.thresh = (sampleYin : Yin ℚ).thresh ∧ s1.Fs = (sampleYin : Yin ℚ).Fs ∧
      ((¬ ∃ k : Int, 2 ≤ k ∧ k < (sampleYin : Yin ℚ).bufSize ∧
          (sampleYin : Yin ℚ).val k < (sampleYin : Yin ℚ).thresh) → r = -1 ∧ s1.prob = 0) ∧
      ((∃ k : Int, 2 ≤ k ∧ k < (sampleYin : Yin ℚ).bufSize ∧
          (sampleYin : Yin ℚ).val k < (sampleYin : Yin ℚ).thresh) →
        2 ≤ r ∧ r < (sampleYin : Yin ℚ).bufSize ∧
        (sampleYin : Yin ℚ).val r < (sampleYin : Yin ℚ).thresh ∧
        (r + 1 = (sampleYin : Yin ℚ).bufSize ∨
          (sampleYin : Yin ℚ).val r ≤ (sampleYin : Yin ℚ).val (r + 1)) ∧
        s1.prob = 1 - (sampleYin : Yin ℚ).val r ∧
        ∃ t0 : Int, 2 ≤ t0 ∧ t0 ≤ r ∧
          (sampleYin : Yin ℚ).val t0 < (sampleYin : Yin ℚ).thresh ∧
          (∀ k : Int, 2 ≤ k → k < t0 →
            ¬ (sampleYin : Yin ℚ).val k < (sampleYin : Yin ℚ).thresh) ∧
          (∀ k : Int, t0 ≤ k → k < r →
            (sampleYin : Yin ℚ).val (k + 1) < (sampleYin : Yin ℚ).val k))) ∧
    (sampleYin : Yin ℚ).absThresh = some ({ (sampleYin : Yin ℚ) with prob := 7 / 8 }, 5) ∧
    ({ (sampleYin : Yin ℚ) with thresh := 1 / 16 } : Yin ℚ).absThresh =
      some ({ (sampleYin : Yin ℚ) with thresh := 1 / 16, prob := 0 }, -1) :=
  ⟨by simp [Yin.WellFormed, sampleYin], by simp [sampleYin],
    absThresh_spec sampleYin (by simp [Yin.WellFormed, sampleYin]) (by simp [sampleYin]),
    by
      norm_num [absThresh_eq, searchFrom_succ, descend_succ, Yin.read, sampleYin,
        (show Int.toNat 2 = 2 from rfl), (show Int.toNat 3 = 3 from rfl),
        (show Int.toNat 4 = 4 from rfl), (show Int.toNat 5 = 5 from rfl),
        (show Int.toNat 6 = 6 from rfl), (show Int.toNat 7 = 7 from rfl)],
    by
      norm_num [absThresh_eq, searchFrom_succ, descend_succ, Yin.read, sampleYin,
        (show Int.toNat 2 = 2 from rfl), (show Int.toNat 3 = 3 from rfl),
        (show Int.toNat 4 = 4 from rfl), (show Int.toNat 5 = 5 from rfl),
        (show Int.toNat 6 = 6 from rfl), (show Int.toNat 7 = 7 from rfl)]⟩

end YinThreshold

section NanArithmetic

variable {α : Type} [LinearOrderedField α]

@[simp] theorem dbl_fin_add_fin (x y : α) : Dbl.fin x + Dbl.fin y = Dbl.fin (x + y) := rfl

@[simp] theorem dbl_fin_sub_fin (x y : α) : Dbl.fin x - Dbl.fin y = Dbl.fin (x - y) := rfl

@[simp] theorem dbl_fin_mul_fin (x y : α) : Dbl.fin x * Dbl.fin y = Dbl.fin (x * y) := rfl

@[simp] theorem dbl_nan_add (x : Dbl α) : Dbl.nan + x = Dbl.nan := rfl

@[simp] theorem dbl_add_nan (x : Dbl α) : x + Dbl.nan = Dbl.nan := by cases x <;> rfl

@[simp] theorem dbl_nan_sub (x : Dbl α) : Dbl.nan - x = Dbl.nan := rfl

@[simp] theorem dbl_sub_nan (x : Dbl α) : x - Dbl.nan = Dbl.nan := by cases x <;> rfl

@[simp] theorem dbl_nan_mul (x : Dbl α) : Dbl.nan * x = Dbl.nan := rfl

@[simp] theorem dbl_mul_nan (x : Dbl α) : x * Dbl.nan = Dbl.nan := by cases x <;> rfl

@[simp] theorem dbl_nan_div (x : Dbl α) : Dbl.div Dbl.nan x = some Dbl.nan := rfl

@[simp] theorem dbl_div_nan (x : Dbl α) : Dbl.div x Dbl.nan = some Dbl.nan := by
  cases x <;> rfl

theorem dbl_div_fin (x y : α) (h : y ≠ 0) :
    Dbl.div (Dbl.fin x) (Dbl.fin y) = some (Dbl.fin (x / y)) := by
  simp [Dbl.div, h]

@[simp] theorem dbl_zero_div_zero : Dbl.div (Dbl.fin (0 : α)) (Dbl.fin 0) = some Dbl.nan := by
  simp [Dbl.div]

@[simp] theorem dbl_ge_fin (x y : α) : Dbl.ge (Dbl.fin x) (Dbl.fin y) = decide (x ≥ y) := rfl

/-- A finite number times the finite zero is the finite zero; NaN times zero is
NaN. -/
theorem dbl_mul_zero_cases (x : Dbl α) :
    (x * Dbl.fin 0 = Dbl.fin 0 ∧ ∃ v : α, x = Dbl.fin v) ∨
    (x * Dbl.fin 0 = Dbl.nan ∧ x = Dbl.nan) := by
  cases x with
  | fin v => left; exact ⟨by simp, v, rfl⟩
  | nan => right; exact ⟨rfl, rfl⟩

end NanArithmetic

section NanProcessing

variable {α : Type} [LinearOrderedField α]

theorem ieee_processBuffer_cons (s : Biquad (Dbl α)) (x : Dbl α) (rest : List (Dbl α)) :
    Ieee.processBuffer s (x :: rest) =
      (Ieee.generateOutputSample (Ieee.updateXs s x)).bind (fun y =>
        (Ieee.processBuffer (Ieee.updateYs (Ieee.updateXs s x) y) rest).bind (fun r =>
          some (r.1, y :: r.2))) := rfl

/-- A filter that holds a NaN in `a0` or in `y1` writes NaN to every output
sample, whatever its input, and still holds a NaN afterwards. -/
theorem ieee_processBuffer_tainted (xs : List (Dbl α)) :
    ∀ s : Biquad (Dbl α), Ieee.Tainted s →
      ∃ t : Biquad (Dbl α), Ieee.processBuffer s xs =
          some (t, List.replicate xs.length Dbl.nan) ∧
        Ieee.Tainted t ∧ t.mode = s.mode ∧ t.BWMode = s.BWMode ∧ t.Fs = s.Fs ∧ t.BW = s.BW ∧
        (s.y1 = Dbl.nan ∨ xs ≠ [] → t.y1 = Dbl.nan) := by
  induction xs with
  | nil =>
    intro s h
    exact ⟨s, rfl, h, rfl, rfl, rfl, rfl, fun h => h.elim id (fun h => absurd rfl h)⟩
  | cons x rest ih =>
    intro s h
    have hy : Ieee.generateOutputSample (Ieee.updateXs s x) = some Dbl.nan := by
      rcases h with h | h
      · simp [Ieee.generateOutputSample, Ieee.updateXs, h]
      · simp [Ieee.generateOutputSample, Ieee.updateXs, h]
    obtain ⟨t, ht, h1, h2, h3, h4, h5, h6⟩ :=
      ih (Ieee.updateYs (Ieee.updateXs s x) Dbl.nan) (Or.inr rfl)
    refine ⟨t, ?_, h1, h2, h3, h4, h5, fun _ => h6 (Or.inl rfl)⟩
    rw [ieee_processBuffer_cons, hy, Option.some_bind, ht, Option.some_bind]
    rfl

/-- A filter whose coefficients and history are finite numbers, with `a0` nonzero,
writes a finite number to every output sample of a finite input, and keeps
finite coefficients and history. -/
theorem ieee_processBuffer_finite (xs : List (Dbl α)) :
    ∀ s : Biquad (Dbl α), Ieee.FinCoFs s → Ieee.FinHist s → Ieee.AllFin xs →
      ∃ (t : Biquad (Dbl α)) (ys : List (Dbl α)), Ieee.processBuffer s xs = some (t, ys) ∧
        ys.length = xs.length ∧ Ieee.AllFin ys ∧ Ieee.FinCoFs t ∧ Ieee.FinHist t ∧
        t.mode = s.mode ∧ t.BWMode = s.BWMode ∧ t.Fs = s.Fs ∧ t.BW = s.BW := by
  induction xs with
  | nil =>
    intro s hc hh _
    exact ⟨s, [], rfl, rfl, fun x hx => absurd hx (List.not_mem_nil x), hc, hh,
      rfl, rfl, rfl, rfl⟩
  | cons x rest ih =>
    intro s hc hh hx
    obtain ⟨⟨b0, hb0⟩, ⟨b1, hb1⟩, ⟨b2, hb2⟩, ⟨a0, ha0, hne⟩, ⟨a1, ha1⟩, ⟨a2, ha2⟩⟩ := hc
    obtain ⟨⟨x0, hx0⟩, ⟨x1, hx1⟩, ⟨x2, hx2⟩, ⟨y1, hy1⟩, ⟨y2, hy2⟩⟩ := hh
    obtain ⟨v, hv⟩ := hx x (List.mem_cons_self _ _)
    have hy : Ieee.generateOutputSample (Ieee.updateXs s x) =
        some (Dbl.fin ((b0 * v + b1 * x0 + b2 * x1 - a1 * y1 - a2 * y2) / a0)) := by
      simp [Ieee.generateOutputSample, Ieee.updateXs, hb0, hb1, hb2, ha0, ha1, ha2,
        hx0, hx1, hy1, hy2, hv, dbl_div_fin _ _ hne]
    obtain ⟨t, ys, ht, h1, h2, h3, h4, h5, h6, h7, h8⟩ :=
      ih (Ieee.updateYs (Ieee.updateXs s x)
          (Dbl.fin ((b0 * v + b1 * x0 + b2 * x1 - a1 * y1 - a2 * y2) / a0)))
        ⟨⟨b0, hb0⟩, ⟨b1, hb1⟩, ⟨b2, hb2⟩, ⟨a0, ha0, hne⟩, ⟨a1, ha1⟩, ⟨a2, ha2⟩⟩
        ⟨⟨v, hv⟩, ⟨x0, hx0⟩, ⟨x1, hx1⟩, ⟨_, rfl⟩, ⟨y1, hy1⟩⟩
        (fun z hz => hx z (List.mem_cons_of_mem _ hz))
    refine ⟨t, Dbl.fin ((b0 * v + b1 * x0 + b2 * x1 - a1 * y1 - a2 * y2) / a0) :: ys, ?_,
      by simp [h1], ?_, h3, h4, h5, h6, h7, h8⟩
    · rw [ieee_processBuffer_cons, hy, Option.some_bind, ht, Option.some_bind]
    · intro z hz
      rcases List.mem_cons.mp hz with rfl | hz
      · exact ⟨_, rfl⟩
      · exact h2 z hz

end NanProcessing

section NanMix

variable {α : Type} [LinearOrderedField α]

theorem ieee_mixLoop_cons (imp : List (Dbl α)) (flt : Biquad (Dbl α))
    (flts : List (Biquad (Dbl α))) (a : Dbl α) (amps output : List (Dbl α)) :
    Ieee.mixLoop imp (flt :: flts) (a :: amps) output =
      (Ieee.processBuffer flt imp).bind (fun r =>
        (Ieee.mixLoop imp flts amps
          (List.zipWith (fun o y => o + a * y) output r.2)).bind (fun rest =>
            some (r.1 :: rest.1, rest.2))) := rfl

theorem zipWith_mix_nan (a : Dbl α) (output : List (Dbl α)) :
    List.zipWith (fun o y => o + a * y) output (List.replicate output.length Dbl.nan) =
      List.replicate output.length Dbl.nan := by
  induction output with
  | nil => rfl
  | cons o rest ih =>
    simp only [List.length_cons, List.replicate_succ, List.zipWith_cons_cons, ih,
      dbl_mul_nan, dbl_add_nan]

theorem zipWith_mix_allFin (a : α) (output ys : List (Dbl α)) (ho : Ieee.AllFin output)
    (hy : Ieee.AllFin ys) (hlen : output.length = ys.length) :
    Ieee.AllFin (List.zipWith (fun o y => o + Dbl.fin a * y) output ys) ∧
    (List.zipWith (fun o y => o + Dbl.fin a * y) output ys).length = ys.length := by
  induction output generalizing ys with
  | nil =>
    cases ys with
    | nil => exact ⟨fun x hx => absurd hx (List.not_mem_nil x), rfl⟩
    | cons y ys => simp at hlen
  | cons o rest ih =>
    cases ys with
    | nil => simp at hlen
    | cons y ys =>
      obtain ⟨ov, hov⟩ := ho o (List.mem_cons_self _ _)
      obtain ⟨yv, hyv⟩ := hy y (List.mem_cons_self _ _)
      obtain ⟨h1, h2⟩ := ih ys (fun z hz => ho z (List.mem_cons_of_mem _ hz))
        (fun z hz => hy z (List.mem_cons_of_mem _ hz)) (by simpa using hlen)
      refine ⟨?_, by simp [h2]⟩
      intro z hz
      simp only [List.zipWith_cons_cons, List.mem_cons] at hz
      rcases hz with rfl | hz
      · exact ⟨ov + a * yv, by simp [hov, hyv]⟩
      · exact h1 z hz

/-- The mixing loop over filters that all hold a NaN: every filter outputs NaN, the
mixed buffer is NaN in every sample once one filter has been added, and every
filter is left with NaN in `y1`. -/
theorem ieee_mixLoop_tainted (fs : α) (imp : List (Dbl α)) (himp : imp ≠ []) :
    ∀ (flts : List (Biquad (Dbl α))) (amps output : List (Dbl α)),
      (∀ flt ∈ flts, Ieee.Tainted flt ∧ Ieee.Tuned fs flt) →
      flts.length ≤ amps.length → output.length = imp.length →
      ∃ (ts : List (Biquad (Dbl α))) (out : List (Dbl α)),
        Ieee.mixLoop imp flts amps output = some (ts, out) ∧
        ts.length = flts.length ∧ (∀ t ∈ ts, t.y1 = Dbl.nan ∧ Ieee.Tuned fs t) ∧
        (flts = [] → out = output) ∧
        (flts ≠ [] → out = List.replicate imp.length Dbl.nan) := by
  intro flts
  induction flts with
  | nil =>
    intro amps output _ _ _
    refine ⟨[], output, ?_, rfl, fun t ht => absurd ht (List.not_mem_nil t), fun _ => rfl,
      fun h => absurd rfl h⟩
    cases amps <;> rfl
  | cons flt rest ih =>
    intro amps output hall hlen hout
    cases amps with
    | nil => simp at hlen
    | cons a amps =>
      obtain ⟨htaint, htuned⟩ := hall flt (List.mem_cons_self _ _)
      obtain ⟨t, ht, -, k1, k2, k3, k4, ky⟩ := ieee_processBuffer_tainted imp flt htaint
      have hmix : List.zipWith (fun o y => o + a * y) output
          (List.replicate imp.length Dbl.nan) = List.replicate imp.length Dbl.nan := by
        rw [← hout]
        exact zipWith_mix_nan a output
      obtain ⟨ts, out, hts, l1, l2, l3, l4⟩ := ih amps (List.replicate imp.length Dbl.nan)
        (fun g hg => hall g (List.mem_cons_of_mem _ hg)) (by simpa using hlen)
        (by simp)
      refine ⟨t :: ts, out, ?_, by simp [l1], ?_, fun h => absurd h (List.cons_ne_nil _ _),
        fun _ => ?_⟩
      · rw [ieee_mixLoop_cons, ht, Option.some_bind]
        simp only [hmix, hts, Option.some_bind]
      · intro g hg
        rcases List.mem_cons.mp hg with rfl | hg
        · refine ⟨ky (Or.inr himp), ?_⟩
          obtain ⟨m1, m2, m3, m4⟩ := htuned
          exact ⟨k1.trans m1, k2.trans m2, k3.trans m3, k4.trans m4⟩
        · exact l2 g hg
      · by_cases hrest : rest = []
        · rw [l3 hrest]
        · exact l4 hrest

/-- The mixing loop over filters with finite coefficients and history (`a0`
nonzero): the mixed buffer is finite in every sample and the filters stay
finite. -/
theorem ieee_mixLoop_finite (fs : α) (imp : List (Dbl α)) (himp : Ieee.AllFin imp) :
    ∀ (flts : List (Biquad (Dbl α))) (amps output : List (Dbl α)),
      (∀ flt ∈ flts, Ieee.Tuned fs flt ∧ Ieee.FinCoFs flt ∧ Ieee.FinHist flt) →
      Ieee.AllFin amps → Ieee.AllFin output → output.length = imp.length →
      ∃ (ts : List (Biquad (Dbl α))) (out : List (Dbl α)),
        Ieee.mixLoop imp flts amps output = some (ts, out) ∧
        ts.length = flts.length ∧
        (∀ t ∈ ts, Ieee.Tuned fs t ∧ Ieee.FinHist t) ∧
        out.length = imp.length ∧ Ieee.AllFin out := by
  intro flts
  induction flts with
  | nil =>
    intro amps output _ _ ho hlen
    refine ⟨[], output, ?_, rfl, fun t ht => absurd ht (List.not_mem_nil t), hlen, ho⟩
    cases amps <;> rfl
  | cons flt rest ih =>
    intro amps output hall ha ho hlen
    cases amps with
    | nil =>
      refine ⟨flt :: rest, output, rfl, rfl, fun t ht => ?_, hlen, ho⟩
      exact ⟨(hall t ht).1, (hall t ht).2.2⟩
    | cons a amps =>
      obtain ⟨htuned, hc, hh⟩ := hall flt (List.mem_cons_self _ _)
      obtain ⟨t, ys, ht, k1, k2, k3, k4, k5, k6, k7, k8⟩ :=
        ieee_processBuffer_finite imp flt hc hh himp
      obtain ⟨av, hav⟩ := ha a (List.mem_cons_self _ _)
      obtain ⟨z1, z2⟩ := zipWith_mix_allFin av output ys ho k2 (by rw [hlen, k1])
      obtain ⟨ts, out, hts, l1, l2, l3, l4⟩ := ih amps
        (List.zipWith (fun o y => o + Dbl.fin av * y) output ys)
        (fun g hg => hall g (List.mem_cons_of_mem _ hg))
        (fun z hz => ha z (List.mem_cons_of_mem _ hz)) z1 (by rw [z2, k1])
      refine ⟨t :: ts, out, ?_, by simp [l1], ?_, l3, l4⟩
      · rw [ieee_mixLoop_cons, ht, Option.some_bind]
        simp only [hav, hts, Option.some_bind]
      · intro g hg
        rcases List.mem_cons.mp hg with rfl | hg
        · obtain ⟨m1, m2, m3, m4⟩ := htuned
          exact ⟨⟨k5.trans m1, k6.trans m2, k7.trans m3, k8.trans m4⟩, k4⟩
        · exact l2 g hg

/-- The envelope loop writes the finite 0 over every finite sample and NaN over
every NaN. -/
theorem ieee_envelopeFrom_zero (n : Int) (l : List (Dbl α)) (i : Int) (hi : 0 ≤ i)
    (hl : i + l.length ≤ n) :
    Ieee.envelopeFrom n i l = l.map (fun o => o * Dbl.fin 0) := by
  induction l generalizing i with
  | nil => rfl
  | cons o rest ih =>
    have hlen : ((o :: rest).length : Int) = rest.length + 1 := by simp
    have h0 : Int.tdiv (n - (i + 1)) n = 0 :=
      Int.tdiv_eq_zero_of_lt (by omega) (by omega)
    simp only [Ieee.envelopeFrom, h0, Int.cast_zero, List.map_cons]
    rw [ih (i + 1) (by omega) (by omega)]

theorem map_mul_zero_allFin (l : List (Dbl α)) (h : Ieee.AllFin l) :
    l.map (fun o => o * Dbl.fin 0) = List.replicate l.length (Dbl.fin 0) := by
  induction l with
  | nil => rfl
  | cons o rest ih =>
    obtain ⟨v, hv⟩ := h o (List.mem_cons_self _ _)
    simp only [List.map_cons, List.length_cons, List.replicate_succ,
      ih (fun z hz => h z (List.mem_cons_of_mem _ hz)), hv, dbl_fin_mul_fin, mul_zero]

theorem map_mul_zero_nan (n : Nat) :
    (List.replicate n (Dbl.nan : Dbl α)).map (fun o => o * Dbl.fin 0) =
      List.replicate n Dbl.nan := by
  induction n with
  | zero => rfl
  | succ k ih => simp only [List.replicate_succ, List.map_cons, ih, dbl_nan_mul]

end NanMix

section NanSetters

open Real

/-- The filter that the constructor of the bank builds for the sample rate
`fs > 0`: `Biquad(0, 1)` followed by `setFs(fs)`.  Both calls return; the filter
is band-pass in bandwidth mode with bandwidth 0 and zeroed history. -/
theorem ieee_ctor_filter (lm : Libm ℝ) (hlm : IsRealLibm lm) (r : Biquad (Dbl ℝ)) (fs : ℝ)
    (hfs : 0 < fs) (ud : Bool) :
    ∃ (c : Biquad (Dbl ℝ)) (t : Biquad (Dbl ℝ) × Bool),
      Ieee.ctor2 lm r 0 1 = some c ∧ Ieee.setFs lm c (Dbl.fin fs) ud = some t ∧
      Ieee.Tuned fs t.1 ∧ t.1.x0 = Dbl.fin 0 ∧ t.1.x1 = Dbl.fin 0 ∧ t.1.x2 = Dbl.fin 0 ∧
      t.1.y1 = Dbl.fin 0 ∧ t.1.y2 = Dbl.fin 0 := by
  obtain ⟨mode, Fs, fc, BWMode, Q, BW, slope, alpha, alphaPrime, dBG, gain, omega0, cosW0,
    sinW0, b0, b1, b2, a0, a1, a2, x0, x1, x2, y1, y2⟩ := r
  unfold IsRealLibm at hlm
  subst hlm
  have hge : fs ≥ 0 := le_of_lt hfs
  have hne : fs ≠ 0 := ne_of_gt hfs
  cases ud
  · simp [Ieee.ctor2, Ieee.initHist, Ieee.setParamsBW, Ieee.updateOmega, Ieee.updateCosW0,
      Ieee.updateSinW0, Ieee.updateAlpha, Ieee.updateCoFs, Ieee.updateAs, Ieee.setFs,
      Ieee.Tuned, Dbl.cos, Dbl.sin, Dbl.sinh, Dbl.div, hge]
  · simp [Ieee.ctor2, Ieee.initHist, Ieee.setParamsBW, Ieee.updateOmega, Ieee.updateCosW0,
      Ieee.updateSinW0, Ieee.updateAlpha, Ieee.updateCoFs, Ieee.updateAs, Ieee.setFs,
      Ieee.Tuned, Dbl.cos, Dbl.sin, Dbl.sinh, Dbl.div, hge, hne]

/-- Retuning a filter of the bank to a centre frequency strictly between 0 and
Nyquist returns, keeps the history and leaves finite coefficients with
`a0 = 1`. -/
theorem ieee_setFc_tuned (lm : Libm ℝ) (hlm : IsRealLibm lm) (s : Biquad (Dbl ℝ)) (fs v : ℝ)
    (hfs : 0 < fs) (hv : 0 < v) (hny : v < fs / 2) (ht : Ieee.Tuned fs s) :
    ∃ t : Biquad (Dbl ℝ) × Bool, Ieee.setFc lm s (Dbl.fin v) true = some t ∧
      Ieee.Tuned fs t.1 ∧ Ieee.FinCoFs t.1 ∧
      t.1.x0 = s.x0 ∧ t.1.x1 = s.x1 ∧ t.1.x2 = s.x2 ∧ t.1.y1 = s.y1 ∧ t.1.y2 = s.y2 := by
  obtain ⟨mode, Fs, fc, BWMode, Q, BW, slope, alpha, alphaPrime, dBG, gain, omega0, cosW0,
    sinW0, b0, b1, b2, a0, a1, a2, x0, x1, x2, y1, y2⟩ := s
  obtain ⟨h1, h2, h3, h4⟩ := ht
  simp only at h1 h2 h3 h4
  subst h1 h2 h3 h4
  unfold IsRealLibm at hlm
  subst hlm
  have hge : v ≥ 0 := le_of_lt hv
  have hne : fs ≠ 0 := ne_of_gt hfs
  obtain ⟨w1, w2⟩ := omega_pos_lt_pi fs v hfs hv hny
  have hsin : Real.sin (2 * M_PI * v / fs) ≠ 0 := ne_of_gt (Real.sin_pos_of_pos_of_lt_pi w1 w2)
  simp [Ieee.setFc, Ieee.updateOmega, Ieee.updateCosW0, Ieee.updateSinW0, Dbl.cos, Dbl.sin,
    Dbl.sinh, Ieee.updateAlpha, Ieee.updateCoFs, Ieee.updateAs, dbl_div_fin, hge, hne, hsin,
    Ieee.Tuned, Ieee.FinCoFs]

/-- Retuning a filter of the bank to the centre frequency 0 returns, keeps the
history and leaves NaN in `a0`: `updateAlpha` evaluates `0/0`. -/
theorem ieee_setFc_zero (lm : Libm ℝ) (hlm : IsRealLibm lm) (s : Biquad (Dbl ℝ)) (fs : ℝ)
    (hfs : 0 < fs) (ht : Ieee.Tuned fs s) :
    ∃ t : Biquad (Dbl ℝ) × Bool, Ieee.setFc lm s (Dbl.fin 0) true = some t ∧
      Ieee.Tuned fs t.1 ∧ t.1.a0 = Dbl.nan ∧ t.1.alpha = Dbl.nan ∧
      t.1.x0 = s.x0 ∧ t.1.x1 = s.x1 ∧ t.1.x2 = s.x2 ∧ t.1.y1 = s.y1 ∧ t.1.y2 = s.y2 := by
  obtain ⟨mode, Fs, fc, BWMode, Q, BW, slope, alpha, alphaPrime, dBG, gain, omega0, cosW0,
    sinW0, b0, b1, b2, a0, a1, a2, x0, x1, x2, y1, y2⟩ := s
  obtain ⟨h1, h2, h3, h4⟩ := ht
  simp only at h1 h2 h3 h4
  subst h1 h2 h3 h4
  unfold IsRealLibm at hlm
  subst hlm
  have hne : fs ≠ 0 := ne_of_gt hfs
  simp [Ieee.setFc, Ieee.updateOmega, Ieee.updateCosW0, Ieee.updateSinW0, Dbl.cos, Dbl.sin,
    Dbl.sinh, Ieee.updateAlpha, Ieee.updateCoFs, Ieee.updateAs, dbl_div_fin, hne,
    Ieee.Tuned]

end NanSetters

section NanBank

open Real

theorem ieee_ctorLoop_spec (lm : Libm ℝ) (hlm : IsRealLibm lm) (fs : ℝ) (hfs : 0 < fs)
    (ud : Bool) (flts : List (Biquad (Dbl ℝ))) :
    ∃ out : List (Biquad (Dbl ℝ)), Ieee.ctorLoop lm (Dbl.fin fs) ud flts = some out ∧
      out.length = flts.length ∧ ∀ t ∈ out, Ieee.Tuned fs t ∧ Ieee.FinHist t := by
  induction flts with
  | nil => exact ⟨[], rfl, rfl, fun t ht => absurd ht (List.not_mem_nil t)⟩
  | cons r rest ih =>
    obtain ⟨c, t, hc, ht, k1, k2, k3, k4, k5, k6⟩ := ieee_ctor_filter lm hlm r fs hfs ud
    obtain ⟨out, ho, l1, l2⟩ := ih
    refine ⟨t.1 :: out, ?_, by simp [l1], ?_⟩
    · simp only [Ieee.ctorLoop, hc, ht, ho, Option.bind_eq_bind, Option.some_bind,
        Option.pure_def]
    · intro g hg
      rcases List.mem_cons.mp hg with rfl | hg
      · exact ⟨k1, ⟨0, k2⟩, ⟨0, k3⟩, ⟨0, k4⟩, ⟨0, k5⟩, ⟨0, k6⟩⟩
      · exact l2 g hg

/-- The constructor of the bank returns for every sample rate `fs > 0`: the
filters are band-pass in bandwidth mode with bandwidth 0 and zeroed history,
and the amplitude table is the constructor's. -/
theorem ieee_ctor_spec (lm : Libm ℝ) (hlm : IsRealLibm lm) (raw : ModalURB (Dbl ℝ)) (fs : ℝ)
    (hfs : 0 < fs) (ud : Bool) :
    ∃ b : ModalURB (Dbl ℝ), Ieee.ctor lm raw (Dbl.fin fs) ud = some b ∧
      b.filters.length = raw.filters.length ∧
      (∀ t ∈ b.filters, Ieee.Tuned fs t ∧ Ieee.FinHist t) ∧
      b.amps = [Dbl.fin 0.0885, Dbl.fin 0.3393, Dbl.fin 0.5523, Dbl.fin 0.4367, Dbl.fin 0.9,
        Dbl.fin 0.121, Dbl.fin 0.2951, Dbl.fin 0.0369] := by
  obtain ⟨out, ho, l1, l2⟩ := ieee_ctorLoop_spec lm hlm fs hfs ud raw.filters
  simp only [Ieee.ctor, ho, Option.bind_eq_bind, Option.some_bind, Option.pure_def]
  exact ⟨_, rfl, l1, l2, rfl⟩

theorem ieee_retuneLoop_cons (lm : Libm ℝ) (flt : Biquad (Dbl ℝ))
    (flts : List (Biquad (Dbl ℝ))) (fr : Dbl ℝ) (frs : List (Dbl ℝ)) :
    Ieee.retuneLoop lm (flt :: flts) (fr :: frs) =
      (Ieee.setFc lm flt fr true).bind (fun r =>
        (Ieee.retuneLoop lm flts frs).bind (fun rest => some (r.1 :: rest))) := rfl

/-- The retuning loop of `updateParams` for centre frequencies strictly between 0
and Nyquist: every call returns, the filters get finite coefficients with
`a0` nonzero, and a property `P` of the history is kept. -/
theorem ieee_retuneLoop_tuned (lm : Libm ℝ) (hlm : IsRealLibm lm) (fs : ℝ) (hfs : 0 < fs)
    (P : Biquad (Dbl ℝ) → Prop)
    (hP : ∀ g t : Biquad (Dbl ℝ), t.x0 = g.x0 → t.x1 = g.x1 → t.x2 = g.x2 → t.y1 = g.y1 →
      t.y2 = g.y2 → P g → P t) :
    ∀ (flts : List (Biquad (Dbl ℝ))) (frs : List (Dbl ℝ)),
      (∀ g ∈ flts, Ieee.Tuned fs g ∧ P g) →
      (∀ fr ∈ frs, ∃ v : ℝ, fr = Dbl.fin v ∧ 0 < v ∧ v < fs / 2) →
      ∃ out : List (Biquad (Dbl ℝ)), Ieee.retuneLoop lm flts frs = some out ∧
        out.length = min flts.length frs.length ∧
        ∀ t ∈ out, Ieee.Tuned fs t ∧ Ieee.FinCoFs t ∧ P t := by
  intro flts
  induction flts with
  | nil =>
    intro frs _ _
    exact ⟨[], by cases frs <;> rfl, by simp, fun t ht => absurd ht (List.not_mem_nil t)⟩
  | cons g rest ih =>
    intro frs hall hfr
    cases frs with
    | nil => exact ⟨[], rfl, by simp, fun t ht => absurd ht (List.not_mem_nil t)⟩
    | cons fr frs =>
      obtain ⟨v, rfl, hv1, hv2⟩ := hfr fr (List.mem_cons_self _ _)
      obtain ⟨hg1, hg2⟩ := hall g (List.mem_cons_self _ _)
      obtain ⟨t, ht, k1, k2, k3, k4, k5, k6, k7⟩ :=
        ieee_setFc_tuned lm hlm g fs v hfs hv1 hv2 hg1
      obtain ⟨out, ho, l1, l2⟩ := ih frs (fun x hx => hall x (List.mem_cons_of_mem _ hx))
        (fun x hx => hfr x (List.mem_cons_of_mem _ hx))
      refine ⟨t.1 :: out, ?_, by simp only [List.length_cons, l1]; omega, ?_⟩
      · rw [ieee_retuneLoop_cons, ht, Option.some_bind, ho, Option.some_bind]
      · intro x hx
        rcases List.mem_cons.mp hx with rfl | hx
        · exact ⟨k1, k2, hP g _ k3 k4 k5 k6 k7 hg2⟩
        · exact l2 x hx

/-- The retuning loop of `updateParams` for the centre frequency 0: every call
returns and leaves NaN in `a0`. -/
theorem ieee_retuneLoop_zero (lm : Libm ℝ) (hlm : IsRealLibm lm) (fs : ℝ) (hfs : 0 < fs) :
    ∀ (flts : List (Biquad (Dbl ℝ))) (frs : List (Dbl ℝ)),
      (∀ g ∈ flts, Ieee.Tuned fs g) → (∀ fr ∈ frs, fr = Dbl.fin 0) →
      ∃ out : List (Biquad (Dbl ℝ)), Ieee.retuneLoop lm flts frs = some out ∧
        out.length = min flts.length frs.length ∧
        ∀ t ∈ out, Ieee.Tainted t ∧ Ieee.Tuned fs t := by
  intro flts
  induction flts with
  | nil =>
    intro frs _ _
    exact ⟨[], by cases frs <;> rfl, by simp, fun t ht => absurd ht (List.not_mem_nil t)⟩
  | cons g rest ih =>
    intro frs hall hfr
    cases frs with
    | nil => exact ⟨[], rfl, by simp, fun t ht => absurd ht (List.not_mem_nil t)⟩
    | cons fr frs =>
      have hfr0 := hfr fr (List.mem_cons_self _ _)
      subst hfr0
      obtain ⟨t, ht, k1, k2, -⟩ :=
        ieee_setFc_zero lm hlm g fs hfs (hall g (List.mem_cons_self _ _))
      obtain ⟨out, ho, l1, l2⟩ := ih frs (fun x hx => hall x (List.mem_cons_of_mem _ hx))
        (fun x hx => hfr x (List.mem_cons_of_mem _ hx))
      refine ⟨t.1 :: out, ?_, by simp only [List.length_cons, l1]; omega, ?_⟩
      · rw [ieee_retuneLoop_cons, ht, Option.some_bind, ho, Option.some_bind]
      · intro x hx
        rcases List.mem_cons.mp hx with rfl | hx
        · exact ⟨Or.inl k2, k1⟩
        · exact l2 x hx

/-- The eight partial frequencies of a fundamental `f > 0` with
`6.0090909091 * f < fs / 2` are finite and lie strictly between 0 and
Nyquist. -/
theorem ieee_updateFreqs_below_nyquist (b : ModalURB (Dbl ℝ)) (f fs : ℝ) (hf : 0 < f)
    (hny : 6.0090909091 * f < fs / 2) :
    ∀ fr ∈ (Ieee.updateFreqs b (Dbl.fin f)).freqs,
      ∃ v : ℝ, fr = Dbl.fin v ∧ 0 < v ∧ v < fs / 2 := by
  intro fr hfr
  simp only [Ieee.updateFreqs, dbl_fin_mul_fin, List.mem_cons, List.mem_singleton,
    List.not_mem_nil, or_false] at hfr
  rcases hfr with h | h | h | h | h | h | h | h <;> subst h <;>
    exact ⟨_, rfl, by positivity, by nlinarith⟩

theorem ieee_updateFreqs_zero (b : ModalURB (Dbl ℝ)) :
    ∀ fr ∈ (Ieee.updateFreqs b (Dbl.fin 0)).freqs, fr = Dbl.fin 0 := by
  intro fr hfr
  simp only [Ieee.updateFreqs, dbl_fin_mul_fin, mul_zero, List.mem_cons, List.mem_singleton,
    List.not_mem_nil, or_false] at hfr
  rcases hfr with h | h | h | h | h | h | h | h <;> exact h

theorem ieee_updateFreqs_frame (b : ModalURB (Dbl ℝ)) (f : Dbl ℝ) :
    (Ieee.updateFreqs b f).filters = b.filters ∧ (Ieee.updateFreqs b f).amps = b.amps ∧
    (Ieee.updateFreqs b f).freqs.length = 8 :=
  ⟨rfl, rfl, rfl⟩

theorem ieee_impulse_spec (n : Nat) :
    (Ieee.impulse n : List (Dbl ℝ)).length = n ∧ Ieee.AllFin (Ieee.impulse n : List (Dbl ℝ)) ∧
    (1 ≤ n → (Ieee.impulse n : List (Dbl ℝ)) ≠ []) := by
  cases n with
  | zero => exact ⟨rfl, fun x hx => absurd hx (List.not_mem_nil x), fun h => absurd h (by decide)⟩
  | succ k =>
    refine ⟨by simp [Ieee.impulse], ?_, fun _ => List.cons_ne_nil _ _⟩
    intro x hx
    simp only [Ieee.impulse, List.mem_cons] at hx
    rcases hx with rfl | hx
    · exact ⟨1, rfl⟩
    · exact ⟨0, (List.eq_of_mem_replicate hx)⟩

theorem ieee_generateNote_eq {α : Type} [LinearOrderedField α] (lm : Libm α)
    (b : ModalURB (Dbl α)) (f : Dbl α) (n : Nat) :
    Ieee.generateNote lm b f n =
      (Ieee.retuneLoop lm (Ieee.updateFreqs b f).filters (Ieee.updateFreqs b f).freqs).bind
        (fun flts =>
          (Ieee.mixLoop (Ieee.impulse n) flts (Ieee.updateFreqs b f).amps
            (List.replicate n (Dbl.fin 0))).bind (fun r =>
              some ({ Ieee.updateFreqs b f with filters := r.1 },
                Ieee.envelopeFrom (n : Int) 0 r.2))) := by
  cases hr : Ieee.retuneLoop lm (Ieee.updateFreqs b f).filters (Ieee.updateFreqs b f).freqs with
  | none => simp [Ieee.generateNote, Ieee.updateParams, hr]
  | some flts =>
    simp only [Ieee.generateNote, Ieee.updateParams, hr, Option.bind_eq_bind,
      Option.some_bind, Option.pure_def]

/-- A note with a fundamental `f > 0` whose partials lie below Nyquist, on a bank
whose filters have finite histories: `generateNote` returns, every sample it
writes is the finite 0, and the bank is again of that kind. -/
theorem ieee_generateNote_finite (lm : Libm ℝ) (hlm : IsRealLibm lm) (b : ModalURB (Dbl ℝ))
    (fs f : ℝ) (n : Nat) (hfs : 0 < fs) (hf : 0 < f) (hny : 6.0090909091 * f < fs / 2)
    (hb : ∀ t ∈ b.filters, Ieee.Tuned fs t ∧ Ieee.FinHist t) (ha : Ieee.AllFin b.amps) :
    ∃ c : ModalURB (Dbl ℝ),
      Ieee.generateNote lm b (Dbl.fin f) n = some (c, List.replicate n (Dbl.fin 0)) ∧
      (∀ t ∈ c.filters, Ieee.Tuned fs t ∧ Ieee.FinHist t) ∧ c.amps = b.amps := by
  obtain ⟨e1, e2, -⟩ := ieee_updateFreqs_frame b (Dbl.fin f)
  obtain ⟨flts, hr, -, hflts⟩ := ieee_retuneLoop_tuned lm hlm fs hfs Ieee.FinHist
    (fun g t h0 h1 h2 h3 h4 hg => by
      obtain ⟨g0, g1, g2, g3, g4⟩ := hg
      exact ⟨h0 ▸ g0, h1 ▸ g1, h2 ▸ g2, h3 ▸ g3, h4 ▸ g4⟩)
    (Ieee.updateFreqs b (Dbl.fin f)).filters (Ieee.updateFreqs b (Dbl.fin f)).freqs
    (by rw [e1]; exact hb) (ieee_updateFreqs_below_nyquist b f fs hf hny)
  obtain ⟨i1, i2, -⟩ := ieee_impulse_spec n
  obtain ⟨ts, out, hm, -, m2, m3, m4⟩ := ieee_mixLoop_finite fs (Ieee.impulse n) i2 flts
    (Ieee.updateFreqs b (Dbl.fin f)).amps (List.replicate n (Dbl.fin 0)) hflts
    (by rw [e2]; exact ha)
    (fun x hx => ⟨0, List.eq_of_mem_replicate hx⟩) (by simp [i1])
  refine ⟨{ Ieee.updateFreqs b (Dbl.fin f) with filters := ts }, ?_, m2, e2⟩
  rw [ieee_generateNote_eq, hr, Option.some_bind, hm, Option.some_bind]
  have henv := ieee_envelopeFrom_zero (n : Int) out 0 (le_refl 0) (by rw [m3, i1]; simp)
  rw [henv, map_mul_zero_allFin out m4, m3, i1]

end NanBank

section NanNotes

open Real

theorem ieee_processBuffer_length {α : Type} [LinearOrderedField α] (xs : List (Dbl α)) :
    ∀ (s t : Biquad (Dbl α)) (ys : List (Dbl α)),
      Ieee.processBuffer s xs = some (t, ys) → ys.length = xs.length := by
  induction xs with
  | nil =>
    intro s t ys h
    simp only [Ieee.processBuffer, Option.some.injEq, Prod.mk.injEq] at h
    rw [← h.2]
  | cons x rest ih =>
    intro s t ys h
    rw [ieee_processBuffer_cons] at h
    obtain ⟨y, -, h⟩ := Option.bind_eq_some.mp h
    obtain ⟨r, hr, h⟩ := Option.bind_eq_some.mp h
    simp only [Option.some.injEq, Prod.mk.injEq] at h
    rw [← h.2, List.length_cons, List.length_cons, ih _ r.1 r.2 hr]

theorem ieee_mixLoop_length {α : Type} [LinearOrderedField α] (imp : List (Dbl α)) :
    ∀ (flts : List (Biquad (Dbl α))) (amps output : List (Dbl α))
      (ts : List (Biquad (Dbl α))) (out : List (Dbl α)),
      Ieee.mixLoop imp flts amps output = some (ts, out) → output.length = imp.length →
      out.length = imp.length := by
  intro flts
  induction flts with
  | nil =>
    intro amps output ts out h hlen
    have : Ieee.mixLoop imp [] amps output = some ([], output) := by cases amps <;> rfl
    rw [this] at h
    simp only [Option.some.injEq, Prod.mk.injEq] at h
    rw [← h.2, hlen]
  | cons flt rest ih =>
    intro amps output ts out h hlen
    cases amps with
    | nil =>
      have : Ieee.mixLoop imp (flt :: rest) [] output = some (flt :: rest, output) := rfl
      rw [this] at h
      simp only [Option.some.injEq, Prod.mk.injEq] at h
      rw [← h.2, hlen]
    | cons a amps =>
      rw [ieee_mixLoop_cons] at h
      obtain ⟨r, hr, h⟩ := Option.bind_eq_some.mp h
      obtain ⟨q, hq, h⟩ := Option.bind_eq_some.mp h
      simp only [Option.some.injEq, Prod.mk.injEq] at h
      rw [← h.2]
      apply ih amps _ q.1 q.2 hq
      rw [List.length_zipWith, ieee_processBuffer_length imp flt r.1 r.2 hr, hlen, min_self]

/-- Whenever `generateNote` returns, it has written `nFrames` samples and the last
one is the finite 0 or NaN: the envelope multiplies the mixed sample by the
`int` quotient 0. -/
theorem ieee_generateNote_last_sample {α : Type} [LinearOrderedField α] (lm : Libm α)
    (b c : ModalURB (Dbl α)) (f : Dbl α) (n : Nat) (out : List (Dbl α)) (hn : 1 ≤ n)
    (h : Ieee.generateNote lm b f n = some (c, out)) :
    out.length = n ∧ (out[n - 1]? = some (Dbl.fin 0) ∨ out[n - 1]? = some Dbl.nan) := by
  rw [ieee_generateNote_eq] at h
  obtain ⟨flts, -, h⟩ := Option.bind_eq_some.mp h
  obtain ⟨r, hr, h⟩ := Option.bind_eq_some.mp h
  simp only [Option.some.injEq, Prod.mk.injEq] at h
  have hi : (Ieee.impulse n : List (Dbl α)).length = n := by
    cases n <;> simp [Ieee.impulse]
  have hlen : r.2.length = n := by
    rw [ieee_mixLoop_length _ _ _ _ r.1 r.2 hr (by simp [hi]), hi]
  have henv := ieee_envelopeFrom_zero (n : Int) r.2 0 (le_refl 0) (by rw [hlen]; simp)
  rw [← h.2, henv]
  refine ⟨by rw [List.length_map, hlen], ?_⟩
  have hlt : n - 1 < r.2.length := by omega
  rw [List.getElem?_map, List.getElem?_eq_getElem hlt, Option.map_some']
  rcases dbl_mul_zero_cases (r.2[n - 1]) with ⟨e, -⟩ | ⟨e, -⟩
  · left; rw [e]
  · right; rw [e]

/-- A note with the fundamental 0 on a bank of band-pass filters in bandwidth mode
with bandwidth 0: `generateNote` returns, every sample it writes is NaN, and
every filter is left with NaN in its history. -/
theorem ieee_generateNote_zero (lm : Libm ℝ) (hlm : IsRealLibm lm) (b : ModalURB (Dbl ℝ))
    (fs : ℝ) (n : Nat) (hfs : 0 < fs) (hn : 1 ≤ n)
    (hb : ∀ t ∈ b.filters, Ieee.Tuned fs t) (hne : b.filters ≠ [])
    (ha : b.amps.length = 8) :
    ∃ c : ModalURB (Dbl ℝ),
      Ieee.generateNote lm b (Dbl.fin 0) n = some (c, List.replicate n Dbl.nan) ∧
      (∀ t ∈ c.filters, t.y1 = Dbl.nan ∧ Ieee.Tuned fs t) ∧ c.filters ≠ [] ∧
      c.amps = b.amps := by
  obtain ⟨e1, e2, e3⟩ := ieee_updateFreqs_frame b (Dbl.fin 0)
  obtain ⟨flts, hr, hlen, hflts⟩ := ieee_retuneLoop_zero lm hlm fs hfs
    (Ieee.updateFreqs b (Dbl.fin 0)).filters (Ieee.updateFreqs b (Dbl.fin 0)).freqs
    (by rw [e1]; exact hb) (ieee_updateFreqs_zero b)
  rw [e1, e3] at hlen
  have hpos : 0 < b.filters.length := List.length_pos.mpr hne
  have hfne : flts ≠ [] := by
    intro h0
    rw [h0] at hlen
    simp only [List.length_nil] at hlen
    omega
  obtain ⟨i1, -, i3⟩ := ieee_impulse_spec n
  obtain ⟨ts, out, hm, m1, m2, -, m4⟩ := ieee_mixLoop_tainted fs (Ieee.impulse n) (i3 hn) flts
    (Ieee.updateFreqs b (Dbl.fin 0)).amps (List.replicate n (Dbl.fin 0)) hflts
    (by rw [e2, ha, hlen]; omega) (by simp [i1])
  refine ⟨{ Ieee.updateFreqs b (Dbl.fin 0) with filters := ts }, ?_, m2, ?_, e2⟩
  · rw [ieee_generateNote_eq, hr, Option.some_bind, hm, Option.some_bind, m4 hfne, i1]
    have henv := ieee_envelopeFrom_zero (n : Int) (List.replicate n (Dbl.nan : Dbl ℝ)) 0
      (le_refl 0) (by simp)
    rw [henv, map_mul_zero_nan]
  · intro h0
    have : ts.length = 0 := by rw [show ts = [] from h0]; rfl
    rw [m1] at this
    exact hfne (List.length_eq_zero.mp this)

/-- A note with a fundamental whose partials lie below Nyquist, on a bank whose
filters hold NaN in `y1`: `generateNote` returns and every sample it writes is
NaN. -/
theorem ieee_generateNote_after_nan (lm : Libm ℝ) (hlm : IsRealLibm lm)
    (b : ModalURB (Dbl ℝ)) (fs f : ℝ) (n : Nat) (hfs : 0 < fs) (hf : 0 < f)
    (hny : 6.0090909091 * f < fs / 2) (hn : 1 ≤ n)
    (hb : ∀ t ∈ b.filters, t.y1 = Dbl.nan ∧ Ieee.Tuned fs t) (hne : b.filters ≠ [])
    (ha : b.amps.length = 8) :
    ∃ c : ModalURB (Dbl ℝ),
      Ieee.generateNote lm b (Dbl.fin f) n = some (c, List.replicate n Dbl.nan) := by
  obtain ⟨e1, e2, e3⟩ := ieee_updateFreqs_frame b (Dbl.fin f)
  obtain ⟨flts, hr, hlen, hflts⟩ := ieee_retuneLoop_tuned lm hlm fs hfs
    (fun t => t.y1 = Dbl.nan) (fun g t _ _ _ h3 _ hg => h3.trans hg)
    (Ieee.updateFreqs b (Dbl.fin f)).filters (Ieee.updateFreqs b (Dbl.fin f)).freqs
    (by rw [e1]; exact fun t ht => ⟨(hb t ht).2, (hb t ht).1⟩)
    (ieee_updateFreqs_below_nyquist b f fs hf hny)
  rw [e1, e3] at hlen
  have hpos : 0 < b.filters.length := List.length_pos.mpr hne
  have hfne : flts ≠ [] := by
    intro h0
    rw [h0] at hlen
    simp only [List.length_nil] at hlen
    omega
  obtain ⟨i1, -, i3⟩ := ieee_impulse_spec n
  obtain ⟨ts, out, hm, -, -, -, m4⟩ := ieee_mixLoop_tainted fs (Ieee.impulse n) (i3 hn) flts
    (Ieee.updateFreqs b (Dbl.fin f)).amps (List.replicate n (Dbl.fin 0))
    (fun t ht => ⟨Or.inr (hflts t ht).2.2, (hflts t ht).1⟩)
    (by rw [e2, ha, hlen]; omega) (by simp [i1])
  refine ⟨{ Ieee.updateFreqs b (Dbl.fin f) with filters := ts }, ?_⟩
  rw [ieee_generateNote_eq, hr, Option.some_bind, hm, Option.some_bind, m4 hfne, i1]
  have henv := ieee_envelopeFrom_zero (n : Int) (List.replicate n (Dbl.nan : Dbl ℝ)) 0
    (le_refl 0) (by simp)
  rw [henv, map_mul_zero_nan]

end NanNotes

section NanAgreement

variable {α : Type} [LinearOrderedField α]

/-- On a filter whose members are all finite numbers, with `a0` nonzero, and on a
finite input buffer the NaN-aware `processBuffer` returns and computes what
the exact-arithmetic `processBuffer` computes. -/
theorem ieee_processBuffer_agrees (xs : List α) :
    ∀ s : Biquad α, s.a0 ≠ 0 →
      Ieee.processBuffer (Ieee.liftBiquad s) (xs.map Dbl.fin) =
        some (Ieee.liftBiquad (processBuffer s xs).1, (processBuffer s xs).2.map Dbl.fin) := by
  induction xs with
  | nil => intro s _; rfl
  | cons x rest ih =>
    intro s ha
    have hy : Ieee.generateOutputSample (Ieee.updateXs (Ieee.liftBiquad s) (Dbl.fin x)) =
        some (Dbl.fin (generateOutputSample (updateXs s x))) := by
      simp [Ieee.generateOutputSample, Ieee.updateXs, Ieee.liftBiquad, generateOutputSample,
        updateXs, dbl_div_fin _ _ ha]
    have hs : Ieee.updateYs (Ieee.updateXs (Ieee.liftBiquad s) (Dbl.fin x))
        (Dbl.fin (generateOutputSample (updateXs s x))) =
        Ieee.liftBiquad (updateYs (updateXs s x) (generateOutputSample (updateXs s x))) := rfl
    rw [List.map_cons, ieee_processBuffer_cons, hy, Option.some_bind, hs,
      ih _ (show (updateYs (updateXs s x) (generateOutputSample (updateXs s x))).a0 ≠ 0
        from ha), Option.some_bind]
    rfl

/-- On a band-pass filter in bandwidth mode whose members are all finite numbers,
for a centre frequency `v >= 0`, a nonzero sample rate and a nonzero sine of
the angular frequency, the NaN-aware `setFc` returns and computes what the
exact-arithmetic `setFc` computes. -/
theorem ieee_setFc_agrees (lm : Libm α) (s : Biquad α) (v : α) (hm : s.mode = 0)
    (hb : s.BWMode = 1) (hv : 0 ≤ v) (hFs : s.Fs ≠ 0)
    (hsin : lm.sin (2 * M_PI * v / s.Fs) ≠ 0) :
    Ieee.setFc lm (Ieee.liftBiquad s) (Dbl.fin v) true =
      some (Ieee.liftBiquad (setFc lm s v true).1, true) := by
  obtain ⟨mode, Fs, fc, BWMode, Q, BW, slope, alpha, alphaPrime, dBG, gain, omega0, cosW0,
    sinW0, b0, b1, b2, a0, a1, a2, x0, x1, x2, y1, y2⟩ := s
  simp only at hm hb hFs hsin
  subst hm hb
  have hge : v ≥ 0 := hv
  simp [Ieee.setFc, Ieee.liftBiquad, Ieee.updateOmega, Ieee.updateCosW0, Ieee.updateSinW0,
    Dbl.cos, Dbl.sin, Dbl.sinh, Ieee.updateAlpha, Ieee.updateCoFs, Ieee.updateAs,
    dbl_div_fin, hge, hFs, hsin, setFc, updateOmega, updateCosW0, updateSinW0, updateAlpha,
    updateCoFs, updateAs]

end NanAgreement

section NanClaims

open Real

theorem ieee_ctor_amps_allFin (b : ModalURB (Dbl ℝ))
    (h : b.amps = [Dbl.fin 0.0885, Dbl.fin 0.3393, Dbl.fin 0.5523, Dbl.fin 0.4367,
      Dbl.fin 0.9, Dbl.fin 0.121, Dbl.fin 0.2951, Dbl.fin 0.0369]) :
    Ieee.AllFin b.amps ∧ b.amps.length = 8 := by
  rw [h]
  refine ⟨?_, rfl⟩
  intro x hx
  simp only [List.mem_cons, List.mem_singleton, List.not_mem_nil, or_false] at hx
  rcases hx with h | h | h | h | h | h | h | h <;> exact ⟨_, h⟩

end NanClaims

end BiquadLib
